import Mathlib

/-!
# Static site generator: markdown-to-post pipeline and index builder

A shallow embedding of `main.go` (`processMarkdownFile`, `extractDescription`,
`generateIndex`, `generateSite`) together with the properties of the
specification that are settled against it.

Conventions of the embedding.

* A Go `string` / `[]byte` is a sequence of bytes: `GoString := List Nat`, each
  element being one byte (`< 256`).  `len`, slicing `p[:147]` and the `strings`
  functions work on bytes, exactly as in Go.  Characters (Unicode code points)
  are obtained by UTF-8 decoding (`runeCount`).
* `time.Time` values of this program are midnights (UTC) of a calendar day, as
  produced by `time.Parse("2006-01-02", _)`, or the zero `time.Time{}`, which is
  midnight of January 1 of year 1.
* Library calls whose code is not part of the repository (`frontmatter.Parse`,
  `markdown.ToHTML`, `sort.Slice` and the calls of package `os`, gathered in `OS`
  for `generateSite`) are parameters of the embedded functions; `sort.Slice` is bound by its
  documented contract, `SortSliceContract`.  The functions of `strings`,
  `path/filepath`, `regexp` and `time` that decide the results are embedded from
  their documented behaviour.
-/

namespace SiteGen

/-! ## Byte strings -/

/-- A Go string: a sequence of bytes. -/
abbrev GoString := List Nat

/-- UTF-8 encoding of one Unicode code point. -/
def utf8Encode (n : Nat) : List Nat :=
  if n < 0x80 then [n]
  else if n < 0x800 then [0xC0 + n / 64, 0x80 + n % 64]
  else if n < 0x10000 then [0xE0 + n / 4096, 0x80 + (n / 64) % 64, 0x80 + n % 64]
  else [0xF0 + n / 262144, 0x80 + (n / 4096) % 64, 0x80 + (n / 64) % 64, 0x80 + n % 64]

/-- The bytes of a string literal (its UTF-8 encoding, as in a Go source file). -/
def bytes (s : String) : GoString :=
  (s.toList.map (fun c => utf8Encode c.toNat)).flatten

/-- Continuation byte `10xxxxxx`. -/
def isCont (b : Nat) : Bool := 0x80 ≤ b && b ≤ 0xBF

/-- Width in bytes of the rune that `utf8.DecodeRune` reads at the head of a
non-empty string: the length of a well-formed UTF-8 sequence, and `1` for an
ASCII byte or for an invalid sequence (which decodes to `RuneError`, width 1). -/
def runeWidth : GoString → Nat
  | [] => 0
  | b0 :: rest =>
    if b0 < 0x80 then 1
    else if 0xC2 ≤ b0 && b0 ≤ 0xDF then
      match rest with
      | b1 :: _ => if isCont b1 then 2 else 1
      | _ => 1
    else if 0xE0 ≤ b0 && b0 ≤ 0xEF then
      match rest with
      | b1 :: b2 :: _ =>
        let lo := if b0 = 0xE0 then 0xA0 else 0x80
        let hi := if b0 = 0xED then 0x9F else 0xBF
        if lo ≤ b1 && b1 ≤ hi && isCont b2 then 3 else 1
      | _ => 1
    else if 0xF0 ≤ b0 && b0 ≤ 0xF4 then
      match rest with
      | b1 :: b2 :: b3 :: _ =>
        let lo := if b0 = 0xF0 then 0x90 else 0x80
        let hi := if b0 = 0xF4 then 0x8F else 0xBF
        if lo ≤ b1 && b1 ≤ hi && isCont b2 && isCont b3 then 4 else 1
      | _ => 1
    else 1

/-- Auxiliary loop of `runeCount`: `skip` bytes of the current rune remain. -/
def runeCountAux : Nat → GoString → Nat
  | _, [] => 0
  | 0, b :: rest => 1 + runeCountAux (runeWidth (b :: rest) - 1) rest
  | skip + 1, _ :: rest => runeCountAux skip rest

/-- Number of characters (runes) of a string: `utf8.RuneCountInString`. -/
def runeCount (s : GoString) : Nat := runeCountAux 0 s

/-- Auxiliary loop of `runePrefix`: the bytes of the first `n` runes. -/
def runePrefixAux : Nat → Nat → GoString → GoString
  | _, _, [] => []
  | 0, 0, _ :: _ => []
  | n + 1, 0, b :: rest => b :: runePrefixAux n (runeWidth (b :: rest) - 1) rest
  | n, skip + 1, b :: rest => b :: runePrefixAux n skip rest

/-- The first `n` characters (runes) of a string, as bytes. -/
def runePrefix (n : Nat) (s : GoString) : GoString := runePrefixAux n 0 s

/-- Every byte is ASCII, so that bytes and characters coincide. -/
def isASCII (s : GoString) : Prop := ∀ b ∈ s, b < 0x80

instance (s : GoString) : Decidable (isASCII s) := by
  unfold isASCII; infer_instance

/-! ## `time.Time` restricted to calendar days -/

/-- A `time.Time` holding midnight UTC of a calendar day. -/
structure Time where
  year : Nat
  month : Nat
  day : Nat
deriving DecidableEq, Repr

namespace Time

/-- The zero value `time.Time{}`: January 1, year 1, 00:00:00 UTC. -/
def zero : Time := ⟨1, 1, 1⟩

/-- `t.IsZero()`: the instant is January 1, year 1, 00:00:00 UTC. -/
def IsZero (t : Time) : Bool := t.year == 1 && t.month == 1 && t.day == 1

/-- `t.After(u)`: the instant `t` is strictly later than `u`. -/
def After (t u : Time) : Bool :=
  decide (u.year < t.year) ||
    (t.year == u.year && (decide (u.month < t.month) ||
      (t.month == u.month && decide (u.day < t.day))))

/-- `t.Before(u)`: the instant `t` is strictly earlier than `u`. -/
def Before (t u : Time) : Bool := After u t

end Time

/-! ## Data model -/

/-- `FrontMatter`: the metadata at the top of markdown files. -/
structure FrontMatter where
  Title : GoString
  Description : GoString
deriving DecidableEq, Repr

/-- `BlogPost`: metadata about a blog post. -/
structure BlogPost where
  Title : GoString
  Date : Time
  Filename : GoString
  OutputFile : GoString
  Description : GoString
deriving DecidableEq, Repr

/-! ## The `strings` package -/

/-- Loop of `ReplaceAll`: `skip` bytes of a matched occurrence remain to be dropped. -/
def replaceAux (old new : GoString) : Nat → GoString → GoString
  | _, [] => []
  | skip + 1, _ :: rest => replaceAux old new skip rest
  | 0, b :: rest =>
    if old.isPrefixOf (b :: rest) then new ++ replaceAux old new (old.length - 1) rest
    else b :: replaceAux old new 0 rest

/-- `strings.ReplaceAll(s, old, new)` (also `strings.Replace(s, old, new, -1)`) for a
non-empty `old`, as at every call site: the non-overlapping occurrences of `old`,
found from the left, are replaced by `new`. -/
def ReplaceAll (s old new : GoString) : GoString := replaceAux old new 0 s

/-- Loop of `Split`: `skip` bytes of a matched separator remain to be dropped. -/
def splitAux (sep : GoString) : Nat → GoString → List GoString
  | _, [] => [[]]
  | skip + 1, _ :: rest => splitAux sep skip rest
  | 0, b :: rest =>
    if sep.isPrefixOf (b :: rest) then [] :: splitAux sep (sep.length - 1) rest
    else
      match splitAux sep 0 rest with
      | [] => [[b]]
      | blk :: more => (b :: blk) :: more

/-- `strings.Split(s, sep)` for a non-empty `sep`: the substrings between the
non-overlapping occurrences of `sep`, found from the left. -/
def Split (s sep : GoString) : List GoString := splitAux sep 0 s

/-- Width of the white-space rune (`unicode.IsSpace`) at the head of a string, `0`
when the rune at the head is not white space.  The white-space runes are
U+0009..U+000D, U+0020, U+0085, U+00A0, U+1680, U+2000..U+200A, U+2028, U+2029,
U+202F, U+205F and U+3000; a rune decodes to one of them exactly when the string
starts with its (shortest-form) UTF-8 encoding. -/
def spaceWidth : GoString → Nat
  | 0xC2 :: 0x85 :: _ => 2
  | 0xC2 :: 0xA0 :: _ => 2
  | 0xE1 :: 0x9A :: 0x80 :: _ => 3
  | 0xE2 :: 0x80 :: b :: _ =>
    if (0x80 ≤ b && b ≤ 0x8A) || b = 0xA8 || b = 0xA9 || b = 0xAF then 3 else 0
  | 0xE2 :: 0x81 :: 0x9F :: _ => 3
  | 0xE3 :: 0x80 :: 0x80 :: _ => 3
  | b :: _ => if (9 ≤ b && b ≤ 13) || b = 32 then 1 else 0
  | [] => 0

/-- Width of an ASCII white-space byte (`\t`, `\n`, `\v`, `\f`, `\r`, space), else `0`. -/
def asciiSpaceWidth (b : Nat) : Nat := if (9 ≤ b ∧ b ≤ 13) ∨ b = 32 then 1 else 0

/-- Width of the white-space rune at the end of a string, given reversed (last
byte `a` first, then `b`, then `c`): what `utf8.DecodeLastRuneInString` followed
by `unicode.IsSpace` decides; `0` when the last rune is not white space.  The
string ends with the UTF-8 encoding of a white-space rune, or with an ASCII
white-space byte, which is a rune of its own whatever stands before it. -/
def spaceWidthRev : GoString → Nat
  | a :: b :: c :: _ =>
    if b = 0xC2 ∧ (a = 0x85 ∨ a = 0xA0) then 2
    else if c = 0xE1 ∧ b = 0x9A ∧ a = 0x80 then 3
    else if c = 0xE2 ∧ b = 0x80 ∧
        ((0x80 ≤ a ∧ a ≤ 0x8A) ∨ a = 0xA8 ∨ a = 0xA9 ∨ a = 0xAF) then 3
    else if c = 0xE2 ∧ b = 0x81 ∧ a = 0x9F then 3
    else if c = 0xE3 ∧ b = 0x80 ∧ a = 0x80 then 3
    else asciiSpaceWidth a
  | [a, b] => if b = 0xC2 ∧ (a = 0x85 ∨ a = 0xA0) then 2 else asciiSpaceWidth a
  | [a] => asciiSpaceWidth a
  | [] => 0

/-- Loop of `TrimLeftFunc(s, unicode.IsSpace)`. -/
def trimAux (width : GoString → Nat) : Nat → GoString → GoString
  | _, [] => []
  | skip + 1, _ :: rest => trimAux width skip rest
  | 0, b :: rest =>
    if width (b :: rest) = 0 then b :: rest
    else trimAux width (width (b :: rest) - 1) rest

/-- `strings.TrimLeftFunc(s, unicode.IsSpace)`. -/
def TrimLeftSpace (s : GoString) : GoString := trimAux spaceWidth 0 s

/-- `strings.TrimRightFunc(s, unicode.IsSpace)`. -/
def TrimRightSpace (s : GoString) : GoString := (trimAux spaceWidthRev 0 s.reverse).reverse

/-- `strings.TrimSpace(s)`: all leading and trailing white space removed, as
defined by Unicode. -/
def TrimSpace (s : GoString) : GoString := TrimRightSpace (TrimLeftSpace s)

/-- `strings.HasSuffix(s, suffix)`. -/
def HasSuffix (s suffix : GoString) : Bool := suffix.reverse.isPrefixOf s.reverse

/-- `strings.TrimSuffix(s, suffix)`. -/
def TrimSuffix (s suffix : GoString) : GoString :=
  if HasSuffix s suffix then s.take (s.length - suffix.length) else s

/-! ## The `path/filepath` package (Unix) -/

/-- Backward scan of `filepath.Ext` over the reversed path: the reversed
extension, `none` when a separator or the start is reached before a dot. -/
def extRev : GoString → Option GoString
  | [] => none
  | c :: rest =>
    if c = 47 then none
    else if c = 46 then some [c]
    else (extRev rest).map (fun e => c :: e)

/-- `filepath.Ext(path)`: the suffix beginning at the final dot in the final
element of the path, empty if there is no dot. -/
def Ext (path : GoString) : GoString :=
  match extRev path.reverse with
  | some e => e.reverse
  | none => []

/-- `filepath.Base(path)`: the last element of the path, trailing slashes
removed; `.` for the empty path and `/` for a path of slashes only. -/
def Base (path : GoString) : GoString :=
  if path = [] then [46]
  else
    let last := ((path.reverse.dropWhile (fun c => c == 47)).takeWhile (fun c => c != 47))
    if last = [] then [47] else last.reverse

/-! ## The file-name pattern and `time.Parse` -/

/-- ASCII digit, the class `\d` of Go regular expressions. -/
def isDigit (b : Nat) : Bool := 48 ≤ b && b ≤ 57

/-- `dateRegex.FindStringSubmatch(s)` for the pattern
`^(\d{4}-\d{2}-\d{2})-(.+)$`: groups 1 and 2 on a match, `none` otherwise.  The
dot matches every character but the newline, and `$` only the end of the text. -/
def dateRegexFind (s : GoString) : Option (GoString × GoString) :=
  match s with
  | y1 :: y2 :: y3 :: y4 :: h1 :: m1 :: m2 :: h2 :: d1 :: d2 :: h3 :: rest =>
    if isDigit y1 && isDigit y2 && isDigit y3 && isDigit y4 && h1 == 45 &&
        isDigit m1 && isDigit m2 && h2 == 45 && isDigit d1 && isDigit d2 && h3 == 45 &&
        !rest.isEmpty && rest.all (fun c => c != 10) then
      some ([y1, y2, y3, y4, h1, m1, m2, h2, d1, d2], rest)
    else none
  | _ => none

/-- `isLeap(year)` of package `time`. -/
def isLeap (year : Nat) : Bool := year % 4 == 0 && (year % 100 != 0 || year % 400 == 0)

/-- `daysIn(month, year)` of package `time`, for a month in 1..12. -/
def daysIn (month year : Nat) : Nat :=
  if month = 2 then (if isLeap year then 29 else 28)
  else if month = 4 || month = 6 || month = 9 || month = 11 then 30
  else 31

/-- The triple is a calendar date: month 1..12 and a day of that month. -/
def validDate (year month day : Nat) : Bool :=
  decide (1 ≤ month) && decide (month ≤ 12) && decide (1 ≤ day) && decide (day ≤ daysIn month year)

/-- Value of a decimal digit. -/
def digitVal (b : Nat) : Nat := b - 48

/-- `time.Parse("2006-01-02", s)`: four, two and two digits separated by hyphens
and nothing else, forming a calendar date; `none` stands for the returned error. -/
def timeParse (s : GoString) : Option Time :=
  match s with
  | [y1, y2, y3, y4, h1, m1, m2, h2, d1, d2] =>
    if isDigit y1 && isDigit y2 && isDigit y3 && isDigit y4 && h1 == 45 &&
        isDigit m1 && isDigit m2 && h2 == 45 && isDigit d1 && isDigit d2 then
      let year := 1000 * digitVal y1 + 100 * digitVal y2 + 10 * digitVal y3 + digitVal y4
      let month := 10 * digitVal m1 + digitVal m2
      let day := 10 * digitVal d1 + digitVal d2
      if validDate year month day then some ⟨year, month, day⟩ else none
    else none
  | _ => none

/-- One decimal digit as a byte. -/
def digitByte (n : Nat) : Nat := 48 + n % 10

/-- Decimal digits of `n`, at most `fuel + 1` of them. -/
def decimalAux : Nat → Nat → GoString → GoString
  | 0, n, acc => digitByte n :: acc
  | fuel + 1, n, acc =>
    if n < 10 then digitByte n :: acc else decimalAux fuel (n / 10) (digitByte n :: acc)

/-- Decimal representation of a natural number. -/
def decimal (n : Nat) : GoString := decimalAux n n []

/-- `Month.String()`. -/
def monthName (m : Nat) : GoString :=
  match m with
  | 1 => bytes "January" | 2 => bytes "February" | 3 => bytes "March"
  | 4 => bytes "April" | 5 => bytes "May" | 6 => bytes "June"
  | 7 => bytes "July" | 8 => bytes "August" | 9 => bytes "September"
  | 10 => bytes "October" | 11 => bytes "November" | 12 => bytes "December"
  | _ => bytes "%!Month(" ++ decimal m ++ bytes ")"

/-- `t.Format("January 2, 2006")`: month name, day without padding, comma,
year on at least four digits. -/
def Time.Format (t : Time) : GoString :=
  monthName t.month ++ bytes " " ++ decimal t.day ++ bytes ", " ++
    List.replicate (4 - (decimal t.year).length) 48 ++ decimal t.year

/-! ## `extractDescription` -/

/-- The paragraph loop of `extractDescription`: the first block that is non-empty
once trimmed, cut to 147 bytes and an ellipsis when longer than 150 bytes;
`none` when the loop ends without returning. -/
def firstParagraph : List GoString → Option GoString
  | [] => none
  | p :: rest =>
    let p := TrimSpace p
    if p ≠ [] then
      if p.length > 150 then some (p.take 147 ++ bytes "...") else some p
    else firstParagraph rest

/-- The text of `extractDescription` after the three `strings.ReplaceAll` calls. -/
def stripMarkdown (content : GoString) : GoString :=
  ReplaceAll (ReplaceAll (ReplaceAll content (bytes "#") []) (bytes "*") []) (bytes "_") []

/-- `extractDescription`: a brief description extracted from the content. -/
def extractDescription (content : GoString) : GoString :=
  let text := stripMarkdown content
  match firstParagraph (Split text (bytes "\n\n")) with
  | some d => d
  | none =>
    if text.length > 150 then TrimSpace (text.take 147) ++ bytes "..."
    else TrimSpace text

/-! ## `processMarkdownFile` -/

/-- The two placeholders of the page template. -/
def titlePlaceholder : GoString := bytes "\x7b\x7btitle\x7d\x7d"

/-- The content placeholder of the page template. -/
def contentPlaceholder : GoString := bytes "\x7b\x7bcontent\x7d\x7d"

/-- Date and file-name title read from the file-name stem: the branch on
`len(matches) == 3` of `processMarkdownFile`. -/
def dateAndTitle (stem : GoString) : Time × GoString :=
  match dateRegexFind stem with
  | some (g1, g2) =>
    (match timeParse g1 with
      | some t => t
      | none => Time.zero,
     ReplaceAll g2 (bytes "-") (bytes " "))
  | none => (Time.zero, ReplaceAll stem (bytes "-") (bytes " "))

/-- `processMarkdownFile(filePath, template)`: output file name, page and post
metadata, or the error of a failed read.  Parameters: `readFile` is
`os.ReadFile` (the error carries its message), `parseFrontmatter` is
`frontmatter.Parse` (the metadata it left in `meta`, and the remaining content or
`none` for an error), `toHTML` is `markdown.ToHTML`. -/
def processMarkdownFile (readFile : GoString → Except GoString GoString)
    (parseFrontmatter : GoString → FrontMatter × Option GoString)
    (toHTML : GoString → GoString) (filePath template : GoString) :
    Except GoString (GoString × GoString × BlogPost) :=
  match readFile filePath with
  | .error err => .error (bytes "error reading file " ++ filePath ++ bytes ": " ++ err)
  | .ok fileContent =>
    let fm := (parseFrontmatter fileContent).1
    let content :=
      match (parseFrontmatter fileContent).2 with
      | some rest => rest
      | none => fileContent
    let filename := Base filePath
    let stem := TrimSuffix filename (Ext filename)
    let postDate := (dateAndTitle stem).1
    let filenameTitle := (dateAndTitle stem).2
    let title := if fm.Title = [] then filenameTitle else fm.Title
    let description :=
      if fm.Description = [] then extractDescription content else fm.Description
    let htmlContent := toHTML content
    let output := ReplaceAll (ReplaceAll template titlePlaceholder title)
      contentPlaceholder htmlContent
    let outputFilename := stem ++ bytes ".html"
    .ok (outputFilename, output,
      { Title := title, Date := postDate, Filename := filename,
        OutputFile := outputFilename, Description := description })

/-! ## `sort.Slice` -/

/-- A strict weak ordering, the requirement of package `sort` on `less`. -/
structure StrictWeak {α : Type} (less : α → α → Bool) : Prop where
  irrefl : ∀ a, less a a = false
  trans : ∀ a b c, less a b = true → less b c = true → less a c = true
  negTrans : ∀ a b c, less a b = false → less b c = false → less a c = false

/-- The documented contract of `sort.Slice(x, less)`: the slice is rearranged (a
permutation) into ascending order as determined by `less`, no element being
`less` than an element before it.  Nothing is promised about elements that
compare equal: "the sort is not guaranteed to be stable". -/
structure SortSliceContract
    (sortSlice : (BlogPost → BlogPost → Bool) → List BlogPost → List BlogPost) : Prop where
  perm : ∀ less xs, (sortSlice less xs).Perm xs
  sorted : ∀ less xs, StrictWeak less →
    (sortSlice less xs).Pairwise (fun a b => less b a = false)

/-- Inner loop of `insertionSortLessFunc`: `x` moves down past the elements it is
`less` than; the sorted prefix is held last element first. -/
def insertDown {α : Type} (less : α → α → Bool) (x : α) : List α → List α
  | [] => [x]
  | y :: ys => if less x y then y :: insertDown less x ys else x :: y :: ys

/-- Outer loop of `insertionSortLessFunc`, the sorted prefix held last element first. -/
def insertionLoop {α : Type} (less : α → α → Bool) : List α → List α → List α
  | sortedRev, [] => sortedRev
  | sortedRev, x :: xs => insertionLoop less (insertDown less x sortedRev) xs

/-- `insertionSortLessFunc` of package `sort`, the algorithm `sort.Slice` runs on
short slices. -/
def insertionSort {α : Type} (less : α → α → Bool) (xs : List α) : List α :=
  (insertionLoop less [] xs).reverse

/-! ## `sort.Slice`: `pdqsort_func` of package `sort`

`sort.Slice(x, less)` calls `pdqsort_func(lessSwap{less, swap}, 0, length, limit)`
with `limit = bits.Len(uint(length))` (file `zsortfunc.go` of package `sort`, Go 1.19
and later).  The slice is a list; `data.Less(i, j)` and `data.Swap(i, j)` read and
exchange the elements at two indices.  Each loop of the library is a recursion on
a counter that starts at a bound of the number of turns the loop can take: the
distance between the two indices of a scan, the length of the range for
`pdqsort_func`, whose turns and recursive calls each work on a shorter range. -/

/-- Counter form of `bits.Len`. -/
def bitsLenAux : Nat → Nat → Nat
  | 0, _ => 0
  | fuel + 1, n => if n = 0 then 0 else bitsLenAux fuel (n / 2) + 1

/-- `bits.Len(n)`: the number of bits needed to write `n`, `0` for `0`. -/
def bitsLen (n : Nat) : Nat := bitsLenAux n n

/-- `data.Less(i, j)` of `lessSwap`: `less` on the elements at `i` and `j`. -/
def Less {α : Type} (less : α → α → Bool) (data : List α) (i j : Nat) : Bool :=
  match data[i]?, data[j]? with
  | some x, some y => less x y
  | _, _ => false

/-- `data.Swap(i, j)` of `lessSwap`: the elements at `i` and `j` exchanged. -/
def Swap {α : Type} (data : List α) (i j : Nat) : List α :=
  match data[i]?, data[j]? with
  | some x, some y => (data.set i y).set j x
  | _, _ => data

/-- `insertionSort_func(data, a, b)`: `data[a:b]` sorted by insertion, the rest
of the slice untouched. -/
def insertionSort_func {α : Type} (less : α → α → Bool) (data : List α) (a b : Nat) : List α :=
  data.take a ++ insertionSort less ((data.take b).drop a) ++ data.drop b

/-- `siftDown_func(data, lo, hi, first)`, `root` starting at `lo`. -/
def siftDown_func {α : Type} (less : α → α → Bool) :
    Nat → List α → Nat → Nat → Nat → List α
  | 0, data, _, _, _ => data
  | fuel + 1, data, root, hi, first =>
    let child := 2 * root + 1
    if child ≥ hi then data
    else
      let child :=
        if child + 1 < hi ∧ Less less data (first + child) (first + child + 1) = true
        then child + 1 else child
      if Less less data (first + root) (first + child) = false then data
      else siftDown_func less fuel (Swap data (first + root) (first + child)) child hi first

/-- First loop of `heapSort_func`: `siftDown_func(data, i, hi, first)` for `i`
from the given index down to `0`. -/
def heapBuild {α : Type} (less : α → α → Bool) (hi first : Nat) : Nat → List α → List α
  | 0, data => siftDown_func less hi data 0 hi first
  | i + 1, data => heapBuild less hi first i (siftDown_func less hi data (i + 1) hi first)

/-- Second loop of `heapSort_func`: for `i` from the given index down to `0`,
`data.Swap(first, first+i)` then `siftDown_func(data, lo, i, first)`. -/
def heapPop {α : Type} (less : α → α → Bool) (first : Nat) : Nat → List α → List α
  | 0, data => Swap data first first
  | i + 1, data =>
    heapPop less first i
      (siftDown_func less (i + 1) (Swap data first (first + (i + 1))) 0 (i + 1) first)

/-- `heapSort_func(data, a, b)`. -/
def heapSort_func {α : Type} (less : α → α → Bool) (data : List α) (a b : Nat) : List α :=
  let hi := b - a
  if hi = 0 then data
  else heapPop less a (hi - 1) (heapBuild less hi a ((hi - 1) / 2) data)

/-- `(*xorshift).Next`: one step of the generator on 64-bit words. -/
def xorshiftNext (r : Nat) : Nat :=
  let r := r ^^^ ((r <<< 13) % 2 ^ 64)
  let r := r ^^^ (r >>> 7)
  r ^^^ ((r <<< 17) % 2 ^ 64)

/-- `nextPowerOfTwo(length)`: `1 << bits.Len(length)`. -/
def nextPowerOfTwo (length : Nat) : Nat := 1 <<< bitsLen length

/-- The index `other` drawn in `breakPatterns_func` from a generator state. -/
def breakIndex (random modulus length : Nat) : Nat :=
  let other := random &&& (modulus - 1)
  if other ≥ length then other - length else other

/-- `breakPatterns_func(data, a, b)`: three elements around the middle are
exchanged with elements drawn by the generator. -/
def breakPatterns_func {α : Type} (data : List α) (a b : Nat) : List α :=
  let length := b - a
  if length ≥ 8 then
    let modulus := nextPowerOfTwo length
    let idx := a + (length / 4) * 2 - 1
    let r1 := xorshiftNext length
    let data := Swap data (idx - 1) (a + breakIndex r1 modulus length)
    let r2 := xorshiftNext r1
    let data := Swap data idx (a + breakIndex r2 modulus length)
    let r3 := xorshiftNext r2
    Swap data (idx + 1) (a + breakIndex r3 modulus length)
  else data

/-- The hint of `choosePivot_func` for the rest of the sort. -/
inductive sortedHint where
  | unknownHint
  | increasingHint
  | decreasingHint
deriving DecidableEq, Repr

/-- `order2_func(data, a, b, swaps)`: the two indices, the one whose element is
`less` first, and the count of swaps. -/
def order2_func {α : Type} (less : α → α → Bool) (data : List α) (a b swaps : Nat) :
    Nat × Nat × Nat :=
  if Less less data b a = true then (b, a, swaps + 1) else (a, b, swaps)

/-- `median_func(data, a, b, c, swaps)`: the index of the median of the three
elements, and the count of swaps. -/
def median_func {α : Type} (less : α → α → Bool) (data : List α) (a b c swaps : Nat) :
    Nat × Nat :=
  let r1 := order2_func less data a b swaps
  let r2 := order2_func less data r1.2.1 c r1.2.2
  let r3 := order2_func less data r1.1 r2.1 r2.2.2
  (r3.2.1, r3.2.2)

/-- `medianAdjacent_func(data, a, swaps)`: the median of `a-1`, `a`, `a+1`. -/
def medianAdjacent_func {α : Type} (less : α → α → Bool) (data : List α) (a swaps : Nat) :
    Nat × Nat :=
  median_func less data (a - 1) a (a + 1) swaps

/-- `choosePivot_func(data, a, b)`: the pivot index and the hint. -/
def choosePivot_func {α : Type} (less : α → α → Bool) (data : List α) (a b : Nat) :
    Nat × sortedHint :=
  let l := b - a
  let i := a + l / 4 * 1
  let j := a + l / 4 * 2
  let k := a + l / 4 * 3
  let r : Nat × Nat :=
    if l ≥ 8 then
      if l ≥ 50 then
        let ri := medianAdjacent_func less data i 0
        let rj := medianAdjacent_func less data j ri.2
        let rk := medianAdjacent_func less data k rj.2
        median_func less data ri.1 rj.1 rk.1 rk.2
      else median_func less data i j k 0
    else (j, 0)
  if r.2 = 0 then (r.1, sortedHint.increasingHint)
  else if r.2 = 4 * 3 then (r.1, sortedHint.decreasingHint)
  else (r.1, sortedHint.unknownHint)

/-- The loop of `reverseRange_func`: `for i < j`, swap and step inwards. -/
def reverseRangeLoop {α : Type} : Nat → List α → Nat → Nat → List α
  | 0, data, _, _ => data
  | fuel + 1, data, i, j =>
    if i < j then reverseRangeLoop fuel (Swap data i j) (i + 1) (j - 1) else data

/-- `reverseRange_func(data, a, b)`. -/
def reverseRange_func {α : Type} (data : List α) (a b : Nat) : List α :=
  reverseRangeLoop (b - a) data a (b - 1)

/-- The loop `for i < b && !data.Less(i, i-1) { i++ }` of
`partialInsertionSort_func`: the index where it stops. -/
def sortedRun {α : Type} (less : α → α → Bool) (data : List α) (b : Nat) : Nat → Nat → Nat
  | 0, i => i
  | fuel + 1, i =>
    if i < b ∧ Less less data i (i - 1) = false then sortedRun less data b fuel (i + 1) else i

/-- The loop `for j := i - 1; j >= 1; j--` of `partialInsertionSort_func`, which
shifts the smaller element to the left; the argument is `j`. -/
def shiftSmaller {α : Type} (less : α → α → Bool) : Nat → List α → List α
  | 0, data => data
  | j + 1, data =>
    if Less less data (j + 1) j = false then data
    else shiftSmaller less j (Swap data (j + 1) j)

/-- The loop `for j := i + 1; j < b; j++` of `partialInsertionSort_func`, which
shifts the greater element to the right. -/
def shiftGreater {α : Type} (less : α → α → Bool) (b : Nat) : Nat → List α → Nat → List α
  | 0, data, _ => data
  | fuel + 1, data, j =>
    if j < b then
      if Less less data j (j - 1) = false then data
      else shiftGreater less b fuel (Swap data j (j - 1)) (j + 1)
    else data

/-- The outer loop of `partialInsertionSort_func`, at most `maxSteps` turns,
`i` kept from one turn to the next. -/
def partialInsertionSortLoop {α : Type} (less : α → α → Bool) (a b : Nat) :
    Nat → List α → Nat → List α × Bool
  | 0, data, _ => (data, false)
  | steps + 1, data, i =>
    let i := sortedRun less data b (b - i) i
    if i = b then (data, true)
    else if b - a < 50 then (data, false)
    else
      let data := Swap data i (i - 1)
      let data := if i - a ≥ 2 then shiftSmaller less (i - 1) data else data
      let data := if b - i ≥ 2 then shiftGreater less b (b - i) data (i + 1) else data
      partialInsertionSortLoop less a b steps data i

/-- `partialInsertionSort_func(data, a, b)`: the slice, and whether it is
sorted at the end. -/
def partialInsertionSort_func {α : Type} (less : α → α → Bool) (data : List α) (a b : Nat) :
    List α × Bool :=
  partialInsertionSortLoop less a b 5 data (a + 1)

/-- The loop `for i <= j && data.Less(i, a) { i++ }` of `partition_func`. -/
def scanLess {α : Type} (less : α → α → Bool) (data : List α) (a j : Nat) : Nat → Nat → Nat
  | 0, i => i
  | fuel + 1, i =>
    if i ≤ j ∧ Less less data i a = true then scanLess less data a j fuel (i + 1) else i

/-- The loop `for i <= j && !data.Less(j, a) { j-- }` of `partition_func`. -/
def scanNotLess {α : Type} (less : α → α → Bool) (data : List α) (a i : Nat) : Nat → Nat → Nat
  | 0, j => j
  | fuel + 1, j =>
    if i ≤ j ∧ Less less data j a = false then scanNotLess less data a i fuel (j - 1) else j

/-- The endless loop of `partition_func`: the slice and `j` at the `break`. -/
def partitionLoop {α : Type} (less : α → α → Bool) (a : Nat) :
    Nat → List α → Nat → Nat → List α × Nat
  | 0, data, _, j => (data, j)
  | fuel + 1, data, i, j =>
    let i := scanLess less data a j (j + 1 - i) i
    let j := scanNotLess less data a i (j + 1 - i) j
    if i > j then (data, j)
    else partitionLoop less a fuel (Swap data i j) (i + 1) (j - 1)

/-- `partition_func(data, a, b, pivot)`: the slice, the new index of the pivot,
and whether the slice was already partitioned. -/
def partition_func {α : Type} (less : α → α → Bool) (data : List α) (a b pivot : Nat) :
    List α × Nat × Bool :=
  let data := Swap data a pivot
  let i := scanLess less data a (b - 1) (b - 1 + 1 - (a + 1)) (a + 1)
  let j := scanNotLess less data a i (b - 1 + 1 - i) (b - 1)
  if i > j then (Swap data j a, j, true)
  else
    let r := partitionLoop less a (j + 1 - i) (Swap data i j) (i + 1) (j - 1)
    (Swap r.1 r.2 a, r.2, false)

/-- The loop `for i <= j && !data.Less(a, i) { i++ }` of `partitionEqual_func`. -/
def scanNotGreater {α : Type} (less : α → α → Bool) (data : List α) (a j : Nat) :
    Nat → Nat → Nat
  | 0, i => i
  | fuel + 1, i =>
    if i ≤ j ∧ Less less data a i = false then scanNotGreater less data a j fuel (i + 1) else i

/-- The loop `for i <= j && data.Less(a, j) { j-- }` of `partitionEqual_func`. -/
def scanGreater {α : Type} (less : α → α → Bool) (data : List α) (a i : Nat) : Nat → Nat → Nat
  | 0, j => j
  | fuel + 1, j =>
    if i ≤ j ∧ Less less data a j = true then scanGreater less data a i fuel (j - 1) else j

/-- The endless loop of `partitionEqual_func`: the slice and `i` at the `break`. -/
def partitionEqualLoop {α : Type} (less : α → α → Bool) (a : Nat) :
    Nat → List α → Nat → Nat → List α × Nat
  | 0, data, i, _ => (data, i)
  | fuel + 1, data, i, j =>
    let i := scanNotGreater less data a j (j + 1 - i) i
    let j := scanGreater less data a i (j + 1 - i) j
    if i > j then (data, i)
    else partitionEqualLoop less a fuel (Swap data i j) (i + 1) (j - 1)

/-- `partitionEqual_func(data, a, b, pivot)`: the slice and the new start. -/
def partitionEqual_func {α : Type} (less : α → α → Bool) (data : List α) (a b pivot : Nat) :
    List α × Nat :=
  partitionEqualLoop less a (b - a) (Swap data a pivot) (a + 1) (b - 1)

/-- `pdqsort_func(data, a, b, limit)`: the loop of the function, with its two
local flags; a turn of the loop or a recursive call takes one unit of the
counter, and works on a shorter range.  Slices of at most `maxInsertion = 12`
elements are sorted by insertion. -/
def pdqsort_func {α : Type} (less : α → α → Bool) :
    Nat → List α → Nat → Nat → Nat → Bool → Bool → List α
  | 0, data, a, b, _, _, _ =>
    if b - a ≤ 12 then insertionSort_func less data a b else data
  | fuel + 1, data, a, b, limit, wasBalanced, wasPartitioned =>
    if b - a ≤ 12 then insertionSort_func less data a b
    else if limit = 0 then heapSort_func less data a b
    else
      let data := if wasBalanced then data else breakPatterns_func data a b
      let limit := if wasBalanced then limit else limit - 1
      let choice := choosePivot_func less data a b
      let reversed := decide (choice.2 = sortedHint.decreasingHint)
      let data := if reversed then reverseRange_func data a b else data
      let pivot := if reversed then (b - 1) - (choice.1 - a) else choice.1
      let hint := if reversed then sortedHint.increasingHint else choice.2
      let tryInsertion :=
        wasBalanced && wasPartitioned && decide (hint = sortedHint.increasingHint)
      let attempt := partialInsertionSort_func less data a b
      if tryInsertion && attempt.2 then attempt.1
      else
        let data := if tryInsertion then attempt.1 else data
        if a > 0 ∧ Less less data (a - 1) pivot = false then
          let r := partitionEqual_func less data a b pivot
          pdqsort_func less fuel r.1 r.2 b limit wasBalanced wasPartitioned
        else
          let r := partition_func less data a b pivot
          let mid := r.2.1
          let leftLen := mid - a
          let rightLen := b - mid
          let balanceThreshold := (b - a) / 8
          if leftLen < rightLen then
            pdqsort_func less fuel (pdqsort_func less fuel r.1 a mid limit true true)
              (mid + 1) b limit (decide (leftLen ≥ balanceThreshold)) r.2.2
          else
            pdqsort_func less fuel (pdqsort_func less fuel r.1 (mid + 1) b limit true true)
              a mid limit (decide (rightLen ≥ balanceThreshold)) r.2.2

/-- `sort.Slice(x, less)`: the slice after the sort. -/
def Slice {α : Type} (less : α → α → Bool) (x : List α) : List α :=
  pdqsort_func less x.length x 0 x.length (bitsLen x.length) true true

/-! ## `generateIndex` -/

/-- The comparison handed to `sort.Slice`: `posts[i].Date.After(posts[j].Date)`. -/
def dateLess (a b : BlogPost) : Bool := a.Date.After b.Date

/-- One list entry: the `fmt.Sprintf` of the loop of `generateIndex`. -/
def indexEntry (post : BlogPost) : GoString :=
  bytes "<li><strong>" ++ post.Date.Format ++ bytes "</strong> - <a href=\"" ++
    post.OutputFile ++ bytes "\">" ++ post.Title ++ bytes "</a><p>" ++
    post.Description ++ bytes "</p></li>\n"

/-- The loop of `generateIndex` over the sorted posts: the entries written,
posts with a zero date being skipped. -/
def indexEntries : List BlogPost → List GoString
  | [] => []
  | post :: rest =>
    if post.Date.IsZero then indexEntries rest
    else indexEntry post :: indexEntries rest

/-- The three fixed strings written before the entries. -/
def indexIntro : GoString :=
  bytes "<p>Hi! I\x27m <a href=\"https://github.com/sbracegirdle\" rel=\"author\"><em>Simon</em></a>, a Consultant and Software Engineer from Perth, Western Australia. I work for <a href=\"https://govconnex.com/\">GovConnex</a>, and in the past worked for <a href=\"https://mechanicalrock.io\">Mechanical Rock</a> and <a href=\"https://seqta.com.au\">SEQTA Software</a>.</p>" ++
  bytes "<p>I\x27ve been developing software and helping teams with their practices and products for over 15 years. During that time I\x27ve built an interest in writing, learning, and solving challenging problems. This blog is a place for me to share my thoughts, experiences, and learnings.</p>" ++
  bytes "<h2>Latest posts</h2>"

/-- The content of the string builder of `generateIndex`, for the sorted posts. -/
def indexContent (sorted : List BlogPost) : GoString :=
  indexIntro ++ (indexEntries sorted).flatten ++ bytes "</ul>"

/-- What a call of `generateIndex` does: the slice after the in-place sort, the
path and bytes handed to `os.WriteFile`, and the returned error. -/
structure IndexRun where
  posts : List BlogPost
  outputPath : GoString
  output : GoString
  err : Option GoString
deriving DecidableEq, Repr

/-- `generateIndex(posts, template, buildDir)`.  Parameters: `sortSlice` is
`sort.Slice`, `joinPath` is `filepath.Join`, `writeFile` is `os.WriteFile`
(`some msg` for an error). -/
def generateIndex (sortSlice : (BlogPost → BlogPost → Bool) → List BlogPost → List BlogPost)
    (joinPath : GoString → GoString → GoString)
    (writeFile : GoString → GoString → Option GoString)
    (posts : List BlogPost) (template buildDir : GoString) : IndexRun :=
  let sorted := sortSlice dateLess posts
  let output := ReplaceAll (ReplaceAll template titlePlaceholder (bytes "Let\x27s Build"))
    contentPlaceholder (indexContent sorted)
  let outputPath := joinPath buildDir (bytes "index.html")
  { posts := sorted, outputPath := outputPath, output := output,
    err := (writeFile outputPath output).map
      (fun e => bytes "error writing index file: " ++ e) }

/-! ## Test data of `TestGenerateIndex` -/

/-- First post of `TestGenerateIndex`, dated 2023-01-15. -/
def testPost1 : BlogPost :=
  { Title := bytes "First Post", Date := ⟨2023, 1, 15⟩,
    Filename := bytes "2023-01-15-first-post.md",
    OutputFile := bytes "2023-01-15-first-post.html",
    Description := bytes "This is the first test post with a date." }

/-- Second post of `TestGenerateIndex`, dated 2023-03-20. -/
def testPost2 : BlogPost :=
  { Title := bytes "Second Post", Date := ⟨2023, 3, 20⟩,
    Filename := bytes "2023-03-20-second-post.md",
    OutputFile := bytes "2023-03-20-second-post.html",
    Description := bytes "This is the second test post with a date." }

/-- Third post of `TestGenerateIndex`, dated 2023-02-10. -/
def testPost3 : BlogPost :=
  { Title := bytes "Third Post", Date := ⟨2023, 2, 10⟩,
    Filename := bytes "2023-02-10-third-post.md",
    OutputFile := bytes "2023-02-10-third-post.html",
    Description := bytes "This is the third test post with a date but no frontmatter." }

/-- A `filepath.Join` for two clean relative elements. -/
def joinSimple (dir name : GoString) : GoString := dir ++ bytes "/" ++ name

/-! ## Further data used in the statements -/

/-- A list of posts in which equal-dated posts keep the order they have in
`inp`: for each date, the posts of that date form the same sequence. -/
def SameOrderOfEqualDates (out inp : List BlogPost) : Prop :=
  ∀ d : Time, out.filter (fun p => decide (p.Date = d)) = inp.filter (fun p => decide (p.Date = d))

/-- Two posts of the same day, told apart by their titles. -/
def tiePostA : BlogPost :=
  { Title := bytes "Morning", Date := ⟨2023, 1, 15⟩, Filename := bytes "2023-01-15-morning.md",
    OutputFile := bytes "2023-01-15-morning.html", Description := bytes "a" }

/-- The second post of that day. -/
def tiePostB : BlogPost :=
  { Title := bytes "Evening", Date := ⟨2023, 1, 15⟩, Filename := bytes "2023-01-15-evening.md",
    OutputFile := bytes "2023-01-15-evening.html", Description := bytes "b" }

/-- A post without a date, as produced for `regular-post-without-date.md`. -/
def undatedPost : BlogPost :=
  { Title := bytes "regular post without date", Date := Time.zero,
    Filename := bytes "regular-post-without-date.md",
    OutputFile := bytes "regular-post-without-date.html", Description := bytes "Regular Post" }

/-! ## File names of the form `YYYY-MM-DD-slug` -/

/-- Two decimal digits of a number below 100. -/
def pad2 (n : Nat) : GoString := [48 + n / 10 % 10, 48 + n % 10]

/-- Four decimal digits of a number below 10000. -/
def pad4 (n : Nat) : GoString :=
  [48 + n / 1000 % 10, 48 + n / 100 % 10, 48 + n / 10 % 10, 48 + n % 10]

/-- The date part `YYYY-MM-DD` of a file name. -/
def dateText (y m d : Nat) : GoString := pad4 y ++ 45 :: pad2 m ++ 45 :: pad2 d

/-- A file-name stem `YYYY-MM-DD-slug`. -/
def dateStem (y m d : Nat) (slug : GoString) : GoString := dateText y m d ++ 45 :: slug

/-- Every hyphen replaced by a space. -/
def hyphensToSpaces (s : GoString) : GoString := s.map (fun c => if c = 45 then 32 else c)

/-- A readable file with the given content. -/
def readOK (content : GoString) : GoString → Except GoString GoString := fun _ => .ok content

/-- A `frontmatter.Parse` that finds no front matter: empty metadata, the whole
input as content. -/
def noFrontmatter : GoString → FrontMatter × Option GoString :=
  fun content => ({ Title := [], Description := [] }, some content)

/-- A `frontmatter.Parse` that finds the title `Test Title`. -/
def titledFrontmatter : GoString → FrontMatter × Option GoString :=
  fun content => ({ Title := bytes "Test Title", Description := [] }, some content)

/-- The post returned by `processMarkdownFile`, if any. -/
def resultPost (r : Except GoString (GoString × GoString × BlogPost)) : Option BlogPost :=
  match r with
  | .ok (_, _, post) => some post
  | .error _ => none

/-- The page returned by `processMarkdownFile`, if any. -/
def resultPage (r : Except GoString (GoString × GoString × BlogPost)) : Option GoString :=
  match r with
  | .ok (_, page, _) => some page
  | .error _ => none

/-! ## Paragraphs of a body text -/

/-- The text with every `#`, `*` and `_` deleted. -/
def deleteMarkers (body : GoString) : GoString :=
  body.filter (fun c => c != 35 && c != 42 && c != 95)

/-- The first paragraph among blocks: the first block that is non-empty once
trimmed, trimmed; `none` when every block is empty or white space. -/
def firstNonEmptyBlock (blocks : List GoString) : Option GoString :=
  (blocks.map TrimSpace).find? (fun p => !p.isEmpty)

/-- The first paragraph of a body: markers deleted, split on two consecutive
newlines, first block that is non-empty once trimmed. -/
def firstParagraphOf (body : GoString) : Option GoString :=
  firstNonEmptyBlock (Split (deleteMarkers body) (bytes "\n\n"))

/-- The letter `é` repeated: two bytes, `C3 A9`, for each character. -/
def accented (n : Nat) : GoString := (List.replicate n [0xC3, 0xA9]).flatten

/-- The long paragraph of `TestExtractDescription`. -/
def longParagraph : GoString :=
  (List.replicate 10 (bytes "Very long paragraph with repetitive content. ")).flatten

/-- A `frontmatter.Parse` that finds the description of the test file
`test-with-description.md`. -/
def describedFrontmatter : GoString → FrontMatter × Option GoString :=
  fun content =>
    ({ Title := [], Description := bytes "This is a custom description from frontmatter." },
      some content)

/-- The output file name returned by `processMarkdownFile`, if any. -/
def resultName (r : Except GoString (GoString × GoString × BlogPost)) : Option GoString :=
  match r with
  | .ok (name, _, _) => some name
  | .error _ => none

/-! ## The date of an index entry -/

/-- The English month names, January first. -/
def monthNames : List String :=
  ["January", "February", "March", "April", "May", "June", "July", "August", "September",
   "October", "November", "December"]

/-- The full English name of month `m` (1 to 12). -/
def englishMonth (m : Nat) : GoString := bytes (monthNames.getD (m - 1) "")

/-- The day of the month without a leading zero. -/
def dayDigits (d : Nat) : GoString := if d < 10 then [48 + d] else [48 + d / 10, 48 + d % 10]

/-- The date as the index shows it: month name, day, comma, four-digit year. -/
def longDate (y m d : Nat) : GoString :=
  englishMonth m ++ bytes " " ++ dayDigits d ++ bytes ", " ++ pad4 y

/-! ## Page assembly -/

/-- The two `strings.Replace` calls of `processMarkdownFile`: every title
placeholder replaced by the title, then every content placeholder by the content. -/
def assemblePage (template title content : GoString) : GoString :=
  ReplaceAll (ReplaceAll template titlePlaceholder title) contentPlaceholder content

/-- A piece of a template: plain text or one of the two placeholders. -/
inductive Segment where
  | text (t : GoString)
  | title
  | content
deriving DecidableEq, Repr

/-- The text of a piece, placeholders written out. -/
def Segment.render : Segment → GoString
  | .text t => t
  | .title => titlePlaceholder
  | .content => contentPlaceholder

/-- The template made of the pieces. -/
def renderTemplate (segs : List Segment) : GoString := (segs.map Segment.render).flatten

/-- A piece with the placeholder filled in. -/
def Segment.fill (title content : GoString) : Segment → GoString
  | .text t => t
  | .title => title
  | .content => content

/-- No brace character in the string. -/
def braceFree (s : GoString) : Prop := ∀ c ∈ s, c ≠ 123 ∧ c ≠ 125

instance (s : GoString) : Decidable (braceFree s) := by
  unfold braceFree; infer_instance

/-- The text pieces of the template have no brace: braces occur in placeholders only. -/
def plainPieces (segs : List Segment) : Prop := ∀ t, Segment.text t ∈ segs → braceFree t

/-- The template of the tests, in pieces. -/
def testTemplateSegments : List Segment :=
  [.text (bytes "<html><head><title>"), .title, .text (bytes "</title></head><body>"),
   .content, .text (bytes "</body></html>")]

/-- A piece after the first replacement: titles filled in, content placeholders left. -/
def Segment.fillTitle (title : GoString) : Segment → GoString
  | .text t => t
  | .title => title
  | .content => contentPlaceholder

/-! ## `generateSite` -/

/-- An entry of a directory listing: `os.DirEntry` with its `Name()` and `IsDir()`. -/
structure DirEntry where
  Name : GoString
  IsDir : Bool
deriving DecidableEq, Repr

/-- The calls of packages `os` and `path/filepath` made by `generateSite`, over a
state `σ` of the file system.  `statNotExist` is `os.IsNotExist(err)` for the
error of `os.Stat`; `mkdirAll` and `writeFile` return the new state and the
error, if any; `readFile` and `readDir` return the data or the error message. -/
structure OS (σ : Type) where
  statNotExist : σ → GoString → Bool
  mkdirAll : σ → GoString → σ × Option GoString
  readFile : σ → GoString → Except GoString GoString
  readDir : σ → GoString → Except GoString (List DirEntry)
  writeFile : σ → GoString → GoString → σ × Option GoString
  joinPath : GoString → GoString → GoString

/-- A line put out by `generateSite`: `Generated: path` and `Generated index: path`
on standard output, or a message of `log.Printf`. -/
inductive Event where
  | generated (path : GoString)
  | logged (msg : GoString)
  | indexed (path : GoString)
deriving DecidableEq, Repr

/-- The variables of the loop of `generateSite`: the file system, the collected
posts and the lines put out so far. -/
structure LoopState (σ : Type) where
  fs : σ
  blogPosts : List BlogPost
  trace : List Event

/-- The test of the loop of `generateSite` passed: not a directory, and a name
ending in `.md` or `.markdown`. -/
def eligible (file : DirEntry) : Bool :=
  !(file.IsDir ||
    (!HasSuffix file.Name (bytes ".md") && !HasSuffix file.Name (bytes ".markdown")))

/-- One iteration of the loop of `generateSite`. -/
def processFile {σ : Type} (os : OS σ)
    (parseFrontmatter : GoString → FrontMatter × Option GoString)
    (toHTML : GoString → GoString) (contentDir buildDir template : GoString)
    (st : LoopState σ) (file : DirEntry) : LoopState σ :=
  if file.IsDir ||
      (!HasSuffix file.Name (bytes ".md") && !HasSuffix file.Name (bytes ".markdown")) then
    st
  else
    let filePath := os.joinPath contentDir file.Name
    match processMarkdownFile (os.readFile st.fs) parseFrontmatter toHTML filePath template with
    | .error err => { st with trace := st.trace ++ [Event.logged err] }
    | .ok (outputFilename, outputContent, blogPost) =>
      let blogPosts := st.blogPosts ++ [blogPost]
      let outputPath := os.joinPath buildDir outputFilename
      match os.writeFile st.fs outputPath outputContent with
      | (fs, some err) =>
        { fs := fs, blogPosts := blogPosts,
          trace := st.trace ++
            [Event.logged (bytes "Error writing output file " ++ outputPath ++ bytes ": " ++ err)] }
      | (fs, none) =>
        { fs := fs, blogPosts := blogPosts, trace := st.trace ++ [Event.generated outputPath] }

/-- What a call of `generateSite` does: the file system left, the returned
error, the posts collected for the index, the lines put out by the loop and by
the index step, and the run of `generateIndex` when there was one. -/
structure SiteRun (σ : Type) where
  fs : σ
  err : Option GoString
  blogPosts : List BlogPost
  fileTrace : List Event
  indexTrace : List Event
  index : Option IndexRun

/-- A run of `generateSite` that returns an error before the loop. -/
def SiteRun.failed {σ : Type} (fs : σ) (err : GoString) : SiteRun σ :=
  { fs := fs, err := some err, blogPosts := [], fileTrace := [], indexTrace := [], index := none }

/-- The index step of `generateSite`, after the loop. -/
def indexStep {σ : Type} (os : OS σ)
    (sortSlice : (BlogPost → BlogPost → Bool) → List BlogPost → List BlogPost)
    (st : LoopState σ) (template buildDir : GoString) : SiteRun σ :=
  if st.blogPosts.length > 0 then
    let run := generateIndex sortSlice os.joinPath
      (fun path data => (os.writeFile st.fs path data).2) st.blogPosts template buildDir
    { fs := (os.writeFile st.fs run.outputPath run.output).1, err := none,
      blogPosts := st.blogPosts, fileTrace := st.trace,
      indexTrace :=
        match run.err with
        | some err => [Event.logged (bytes "Error generating index: " ++ err)]
        | none => [Event.indexed run.outputPath],
      index := some run }
  else
    { fs := st.fs, err := none, blogPosts := st.blogPosts, fileTrace := st.trace,
      indexTrace := [], index := none }

/-- The state of the file system after the first step of `generateSite`: the
build directory is created when `os.Stat` reports that it does not exist. -/
def ensureBuildDir {σ : Type} (os : OS σ) (fs : σ) (buildDir : GoString) : σ × Option GoString :=
  if os.statNotExist fs buildDir then os.mkdirAll fs buildDir else (fs, none)

/-- `generateSite(contentDir, buildDir, templatePath)`.  Parameters: the calls
of the operating system `os`, `sort.Slice`, `frontmatter.Parse`, `markdown.ToHTML`. -/
def generateSite {σ : Type} (os : OS σ)
    (sortSlice : (BlogPost → BlogPost → Bool) → List BlogPost → List BlogPost)
    (parseFrontmatter : GoString → FrontMatter × Option GoString)
    (toHTML : GoString → GoString) (fs : σ)
    (contentDir buildDir templatePath : GoString) : SiteRun σ :=
  match ensureBuildDir os fs buildDir with
  | (fs, some err) => SiteRun.failed fs (bytes "error creating build directory: " ++ err)
  | (fs, none) =>
    if os.statNotExist fs templatePath then
      SiteRun.failed fs (bytes "template file not found at " ++ templatePath)
    else
      match os.readFile fs templatePath with
      | .error err => SiteRun.failed fs (bytes "error reading template: " ++ err)
      | .ok template =>
        if os.statNotExist fs contentDir then
          SiteRun.failed fs (bytes "content directory not found at " ++ contentDir)
        else
          match os.readDir fs contentDir with
          | .error err => SiteRun.failed fs (bytes "error reading content directory: " ++ err)
          | .ok files =>
            indexStep os sortSlice
              (files.foldl (processFile os parseFrontmatter toHTML contentDir buildDir template)
                { fs := fs, blogPosts := [], trace := [] })
              template buildDir

/-! ## A file system in memory, for the examples -/

/-- Directories with their listings, files with their contents, and the paths
that cannot be written. -/
structure MemFS where
  dirs : List (GoString × List DirEntry)
  files : List (GoString × GoString)
  locked : List GoString
deriving DecidableEq, Repr

/-- The operating system calls on the file system in memory. -/
def memOS : OS MemFS where
  statNotExist := fun fs path =>
    !(fs.dirs.any (fun d => d.1 == path) || fs.files.any (fun f => f.1 == path))
  mkdirAll := fun fs path => ({ fs with dirs := fs.dirs ++ [(path, [])] }, none)
  readFile := fun fs path =>
    match fs.files.lookup path with
    | some content => .ok content
    | none => .error (bytes "no such file or directory")
  readDir := fun fs path =>
    match fs.dirs.lookup path with
    | some listing => .ok listing
    | none => .error (bytes "no such file or directory")
  writeFile := fun fs path data =>
    if path ∈ fs.locked then (fs, some (bytes "permission denied"))
    else ({ fs with files := (path, data) :: fs.files.filter (fun f => f.1 != path) }, none)
  joinPath := joinSimple

/-- A site of two posts; the page of the second one cannot be written, and the
first one is listed but cannot be read. -/
def brokenSite : MemFS :=
  { dirs := [(bytes "content",
      [{ Name := bytes "2023-01-15-first-post.md", IsDir := false },
       { Name := bytes "2023-03-20-second-post.md", IsDir := false },
       { Name := bytes "notes.txt", IsDir := false },
       { Name := bytes "drafts", IsDir := true }])],
    files := [(bytes "template.html", bytes "<h1>\x7b\x7btitle\x7d\x7d</h1>\x7b\x7bcontent\x7d\x7d"),
      (bytes "content/2023-03-20-second-post.md", bytes "Second.")],
    locked := [bytes "build/2023-03-20-second-post.html"] }

/-- The run of `generateSite` on the broken site. -/
def brokenRun : SiteRun MemFS :=
  generateSite memOS (@insertionSort BlogPost) noFrontmatter id brokenSite (bytes "content")
    (bytes "build") (bytes "template.html")

/-! ## Well-formed text -/

/-- Loop of `validUTF8`: `skip` bytes of the current rune remain. -/
def validUTF8Aux : Nat → GoString → Bool
  | _, [] => true
  | skip + 1, _ :: rest => validUTF8Aux skip rest
  | 0, b :: rest =>
    (decide (b < 0x80) || decide (2 ≤ runeWidth (b :: rest))) &&
      validUTF8Aux (runeWidth (b :: rest) - 1) rest

/-- `utf8.ValidString(s)`: the bytes are well-formed UTF-8 sequences throughout. -/
def validUTF8 (s : GoString) : Bool := validUTF8Aux 0 s

/-- Loop of `Count`: `skip` bytes of a counted occurrence remain to be passed. -/
def countAux (sub : GoString) : Nat → GoString → Nat
  | _, [] => 0
  | skip + 1, _ :: rest => countAux sub skip rest
  | 0, b :: rest =>
    if sub.isPrefixOf (b :: rest) then 1 + countAux sub (sub.length - 1) rest
    else countAux sub 0 rest

/-- `strings.Count(s, sub)` for a non-empty `sub`: the number of non-overlapping
occurrences of `sub` in `s`. -/
def Count (s sub : GoString) : Nat := countAux sub 0 s

/-! ## Paragraph breaks -/

/-- Two consecutive newlines occur in the string: `strings.Contains(s, "\n\n")`. -/
def hasBreak : GoString → Bool
  | [] => false
  | a :: rest =>
    match rest with
    | [] => false
    | b :: _ => (a == 10 && b == 10) || hasBreak rest

/-! ## Thirteen posts in the order of a directory listing -/

/-- A post of the 15th of a month of 2022. -/
def monthlyPost (m : Nat) : BlogPost :=
  { Title := bytes "Notes " ++ pad2 m, Date := ⟨2022, m, 15⟩,
    Filename := bytes "2022-" ++ pad2 m ++ bytes "-15-notes.md",
    OutputFile := bytes "2022-" ++ pad2 m ++ bytes "-15-notes.html", Description := bytes "n" }

/-- Thirteen posts, oldest first: February to December 2022, then the two posts
of 2023-01-15. -/
def thirteenPosts : List BlogPost :=
  (List.range 11).map (fun i => monthlyPost (i + 2)) ++ [tiePostA, tiePostB]

/-! # Properties -/

/-! ## Lemmas: the order of dates -/

theorem Time.after_iff (t u : Time) :
    t.After u = true ↔
      u.year < t.year ∨ (t.year = u.year ∧
        (u.month < t.month ∨ (t.month = u.month ∧ u.day < t.day))) := by
  simp [Time.After]

theorem Time.after_eq_false_iff (t u : Time) :
    t.After u = false ↔
      ¬ (u.year < t.year ∨ (t.year = u.year ∧
        (u.month < t.month ∨ (t.month = u.month ∧ u.day < t.day)))) := by
  rw [← Time.after_iff]; simp

theorem Time.eq_of_not_after {t u : Time} (h1 : t.After u = false) (h2 : u.After t = false) :
    t = u := by
  rw [Time.after_eq_false_iff] at h1 h2
  cases t; cases u
  simp only [Time.mk.injEq] at *
  omega

theorem dateLess_strictWeak : StrictWeak dateLess := by
  refine ⟨?_, ?_, ?_⟩
  · intro a
    simp only [dateLess]
    rw [Time.after_eq_false_iff]; omega
  · intro a b c h1 h2
    simp only [dateLess] at *
    rw [Time.after_iff] at *
    omega
  · intro a b c h1 h2
    simp only [dateLess] at *
    rw [Time.after_eq_false_iff] at *
    omega

/-! ## Lemmas: insertion sort meets the contract of `sort.Slice` -/

theorem insertDown_perm {α : Type} (less : α → α → Bool) (x : α) (l : List α) :
    (insertDown less x l).Perm (x :: l) := by
  induction l with
  | nil => exact List.Perm.refl _
  | cons y ys ih =>
    unfold insertDown
    split
    · exact ((List.Perm.cons y ih).trans (List.Perm.swap x y ys))
    · exact List.Perm.refl _

theorem insertionLoop_perm {α : Type} (less : α → α → Bool) (xs acc : List α) :
    (insertionLoop less acc xs).Perm (acc ++ xs) := by
  induction xs generalizing acc with
  | nil => simp [insertionLoop]
  | cons x xs ih =>
    unfold insertionLoop
    refine (ih _).trans ?_
    refine (List.Perm.append_right xs (insertDown_perm less x acc)).trans ?_
    simpa using (@List.perm_middle _ x acc xs).symm

theorem insertionSort_perm {α : Type} (less : α → α → Bool) (xs : List α) :
    (insertionSort less xs).Perm xs := by
  unfold insertionSort
  refine (List.reverse_perm _).trans ?_
  simpa using insertionLoop_perm less xs []

theorem mem_insertDown {α : Type} (less : α → α → Bool) (x z : α) (l : List α) :
    z ∈ insertDown less x l ↔ z = x ∨ z ∈ l := by
  rw [(insertDown_perm less x l).mem_iff]; simp

theorem insertDown_sorted {α : Type} (less : α → α → Bool) (hw : StrictWeak less) (x : α)
    (l : List α) (hl : l.Pairwise (fun a b => less a b = false)) :
    (insertDown less x l).Pairwise (fun a b => less a b = false) := by
  induction l with
  | nil => simp [insertDown]
  | cons y ys ih =>
    rw [List.pairwise_cons] at hl
    unfold insertDown
    split
    · rename_i hxy
      rw [List.pairwise_cons]
      refine ⟨?_, ih hl.2⟩
      intro z hz
      rcases (mem_insertDown less x z ys).1 hz with rfl | hz
      · cases hyz : less y z
        · rfl
        · have := hw.trans _ _ _ hxy hyz
          rw [hw.irrefl] at this
          exact absurd this (by simp)
      · exact hl.1 z hz
    · rename_i hxy
      have hxy : less x y = false := by simpa using hxy
      rw [List.pairwise_cons]
      refine ⟨?_, List.pairwise_cons.2 hl⟩
      intro z hz
      rcases List.mem_cons.1 hz with rfl | hz
      · exact hxy
      · exact hw.negTrans _ _ _ hxy (hl.1 z hz)

theorem insertionLoop_sorted {α : Type} (less : α → α → Bool) (hw : StrictWeak less)
    (xs acc : List α) (hacc : acc.Pairwise (fun a b => less a b = false)) :
    (insertionLoop less acc xs).Pairwise (fun a b => less a b = false) := by
  induction xs generalizing acc with
  | nil => simpa [insertionLoop] using hacc
  | cons x xs ih =>
    unfold insertionLoop
    exact ih _ (insertDown_sorted less hw x acc hacc)

theorem insertionSort_sorted {α : Type} (less : α → α → Bool) (hw : StrictWeak less)
    (xs : List α) : (insertionSort less xs).Pairwise (fun a b => less b a = false) := by
  unfold insertionSort
  rw [List.pairwise_reverse]
  exact insertionLoop_sorted less hw xs [] List.Pairwise.nil

theorem insertionSort_contract : SortSliceContract (@insertionSort BlogPost) :=
  ⟨fun less xs => insertionSort_perm less xs, fun less xs hw => insertionSort_sorted less hw xs⟩

/-! ## Lemmas: the sorted order and the rendered entries -/

theorem Slice_short {α : Type} (less : α → α → Bool) (x : List α) (h : x.length ≤ 12) :
    Slice less x = insertionSort less x := by
  unfold Slice
  have key : ∀ fuel limit, pdqsort_func less fuel x 0 x.length limit true true =
      insertionSort less x := by
    intro fuel limit
    cases fuel with
    | zero =>
      rw [pdqsort_func, if_pos (by omega)]
      simp [insertionSort_func]
    | succ n =>
      rw [pdqsort_func, if_pos (by omega)]
      simp [insertionSort_func]
  exact key _ _

theorem insertDown_filter {α : Type} (less : α → α → Bool) (q : α → Bool)
    (hq : ∀ x y, less x y = true → q x = true → q y = true → False) (x : α) (l : List α) :
    (insertDown less x l).reverse.filter q = l.reverse.filter q ++ [x].filter q := by
  induction l with
  | nil => simp [insertDown]
  | cons y ys ih =>
    unfold insertDown
    by_cases hl : less x y = true
    · rw [if_pos hl, List.reverse_cons, List.filter_append, ih, List.reverse_cons,
        List.filter_append, List.append_assoc, List.append_assoc]
      congr 1
      by_cases hx : q x = true
      · have hy : q y = false := by
          cases hqy : q y
          · rfl
          · exact absurd (hq x y hl hx hqy) id
        simp [hx, hy]
      · simp [hx]
    · rw [if_neg hl]
      simp only [List.reverse_cons, List.filter_append, List.append_assoc]

theorem insertionLoop_filter {α : Type} (less : α → α → Bool) (q : α → Bool)
    (hq : ∀ x y, less x y = true → q x = true → q y = true → False) (xs acc : List α) :
    (insertionLoop less acc xs).reverse.filter q = acc.reverse.filter q ++ xs.filter q := by
  induction xs generalizing acc with
  | nil => simp [insertionLoop]
  | cons x xs ih =>
    rw [insertionLoop, ih, insertDown_filter less q hq]
    simp [List.filter_cons, List.append_assoc]
    split <;> simp

theorem insertionSort_stable {α : Type} (less : α → α → Bool) (q : α → Bool)
    (hq : ∀ x y, less x y = true → q x = true → q y = true → False) (xs : List α) :
    (insertionSort less xs).filter q = xs.filter q := by
  unfold insertionSort
  rw [insertionLoop_filter less q hq]
  simp

theorem insertionSort_sameOrder (posts : List BlogPost) :
    SameOrderOfEqualDates (insertionSort dateLess posts) posts := by
  intro d
  apply insertionSort_stable
  intro x y hl hx hy
  have ex : x.Date = d := by simpa using hx
  have ey : y.Date = d := by simpa using hy
  have := dateLess_strictWeak.irrefl x
  unfold dateLess at hl this
  rw [ex, ← ey] at hl
  rw [ex] at this
  rw [ey] at hl
  rw [hl] at this
  exact Bool.noConfusion this

theorem sorted_perm_unique (l1 l2 : List BlogPost) (hp : l1.Perm l2)
    (h1 : l1.Pairwise (fun a b => dateLess b a = false))
    (h2 : l2.Pairwise (fun a b => dateLess b a = false))
    (hd : l1.Pairwise (fun a b => a.Date ≠ b.Date)) : l1 = l2 := by
  induction l1 generalizing l2 with
  | nil => exact (List.Perm.nil_eq hp)
  | cons a t ih =>
    cases l2 with
    | nil => exact absurd hp.length_eq (by simp)
    | cons b t2 =>
      rw [List.pairwise_cons] at h1 h2 hd
      have hab : a = b := by
        by_contra hne
        have ha : a ∈ t2 := by
          have := hp.subset (List.mem_cons_self a t)
          rcases List.mem_cons.1 this with h | h
          · exact absurd h hne
          · exact h
        have hb : b ∈ t := by
          have := hp.symm.subset (List.mem_cons_self b t2)
          rcases List.mem_cons.1 this with h | h
          · exact absurd h.symm hne
          · exact h
        have e1 : a.Date.After b.Date = false := h2.1 a ha
        have e2 : b.Date.After a.Date = false := h1.1 b hb
        exact hd.1 b hb (Time.eq_of_not_after e1 e2)
      subst hab
      rw [ih t2 (List.Perm.cons_inv hp) h1.2 h2.2 hd.2]

theorem indexEntries_eq (l : List BlogPost) :
    indexEntries l = (l.filter (fun p => !p.Date.IsZero)).map indexEntry := by
  induction l with
  | nil => rfl
  | cons p t ih =>
    unfold indexEntries
    by_cases h : p.Date.IsZero = true
    · simp [h, ih]
    · simp [h, ih]

theorem indexEntries_sorted_perm
    (sortSlice : (BlogPost → BlogPost → Bool) → List BlogPost → List BlogPost)
    (hsort : SortSliceContract sortSlice) (posts : List BlogPost) :
    (indexEntries (sortSlice dateLess posts)).Perm
      ((posts.filter (fun p => !p.Date.IsZero)).map indexEntry) := by
  rw [indexEntries_eq]
  exact ((hsort.perm dateLess posts).filter _).map _

theorem indexEntry_mem_of_dated
    (sortSlice : (BlogPost → BlogPost → Bool) → List BlogPost → List BlogPost)
    (hsort : SortSliceContract sortSlice) (posts : List BlogPost) (p : BlogPost)
    (hp : p ∈ posts) (hz : p.Date.IsZero = false) :
    indexEntry p ∈ indexEntries (sortSlice dateLess posts) := by
  rw [(indexEntries_sorted_perm sortSlice hsort posts).mem_iff]
  exact List.mem_map.2 ⟨p, List.mem_filter.2 ⟨hp, by simp [hz]⟩, rfl⟩

/-! ## Index ordering (C1, C2) and listing (C3) -/

/-- C1: whatever implementation of `sort.Slice` is used, the slice that
`generateIndex` has sorted is a permutation of the input, no post in it is dated
earlier than a post that comes after it (in particular than the one that follows
it), the entries are rendered in that order, and the three posts of the test,
dated 2023-01-15, 2023-03-20 and 2023-02-10, are listed as March 20, February 10,
January 15. -/
theorem generateIndex_sorts_newest_first
    (sortSlice : (BlogPost → BlogPost → Bool) → List BlogPost → List BlogPost)
    (hsort : SortSliceContract sortSlice)
    (joinPath : GoString → GoString → GoString)
    (writeFile : GoString → GoString → Option GoString)
    (posts : List BlogPost) (template buildDir : GoString) :
    (generateIndex sortSlice joinPath writeFile posts template buildDir).posts.Perm posts ∧
    (generateIndex sortSlice joinPath writeFile posts template buildDir).posts.Pairwise
      (fun a b => a.Date.Before b.Date = false) ∧
    (generateIndex sortSlice joinPath writeFile posts template buildDir).posts.Chain'
      (fun a b => a.Date.Before b.Date = false) ∧
    (generateIndex sortSlice joinPath writeFile posts template buildDir).output =
      ReplaceAll (ReplaceAll template titlePlaceholder (bytes "Let\x27s Build"))
        contentPlaceholder
        (indexIntro ++
          (((generateIndex sortSlice joinPath writeFile posts template buildDir).posts.filter
            (fun p => !p.Date.IsZero)).map indexEntry).flatten ++ bytes "</ul>") ∧
    ((generateIndex sortSlice joinPath writeFile [testPost1, testPost2, testPost3]
        template buildDir).posts.map (fun p => p.Date.Format) =
      [bytes "March 20, 2023", bytes "February 10, 2023", bytes "January 15, 2023"]) := by
  have hpw : ∀ xs, (sortSlice dateLess xs).Pairwise (fun a b => a.Date.Before b.Date = false) :=
    fun xs => hsort.sorted dateLess xs dateLess_strictWeak
  refine ⟨hsort.perm dateLess posts, hpw posts, (hpw posts).chain', ?_, ?_⟩
  · simp only [generateIndex, indexContent, indexEntries_eq]
  · have hu : sortSlice dateLess [testPost1, testPost2, testPost3] =
        [testPost2, testPost3, testPost1] := by
      refine sorted_perm_unique _ _ ?_ (hsort.sorted dateLess _ dateLess_strictWeak)
        (by decide) ?_
      · refine (hsort.perm dateLess _).trans ?_
        exact (List.Perm.swap testPost2 testPost1 _).trans
          (List.Perm.cons testPost2 (List.Perm.swap testPost3 testPost1 []))
      · have hd : List.Pairwise (fun a b : BlogPost => a.Date ≠ b.Date)
            [testPost1, testPost2, testPost3] := by decide
        exact (List.Perm.pairwise_iff (fun h => Ne.symm h) (hsort.perm dateLess _)).2 hd
    simp only [generateIndex, hu]
    decide

/-- Witness of C1 at the insertion sort, on the posts of `TestGenerateIndex`. -/
theorem generateIndex_sorts_newest_first_witness :
    SortSliceContract (@insertionSort BlogPost) ∧
    (generateIndex (@insertionSort BlogPost) joinSimple (fun _ _ => none)
        [testPost1, testPost2, testPost3] (bytes "<h1>\x7b\x7btitle\x7d\x7d</h1>")
        (bytes "build")).posts.Chain' (fun a b => a.Date.Before b.Date = false) :=
  ⟨insertionSort_contract,
   (generateIndex_sorts_newest_first (@insertionSort BlogPost) insertionSort_contract joinSimple
      (fun _ _ => none) [testPost1, testPost2, testPost3]
      (bytes "<h1>\x7b\x7btitle\x7d\x7d</h1>") (bytes "build")).2.2.1⟩

/-- C2, counterexample: thirteen posts listed oldest first, as a directory
listing gives them, the last two of the same day, 2023-01-15, "Morning" before
"Evening".  On a slice of more than twelve elements `sort.Slice` partitions
around a pivot before it sorts the parts by insertion: the pivot is the element
at index 6, the median of those at 3, 6 and 9, and the exchanges of the
partition bring "Evening" in front of "Morning"; the insertion sort of the left
part keeps them so.  The index lists the two posts of that day in the opposite
order to the input.  One turn of the loop of `pdqsort_func` is all it takes. -/
theorem generateIndex_stable_counterexample :
    thirteenPosts.length = 13 ∧
    tiePostA.Date = tiePostB.Date ∧
    thirteenPosts.filter (fun p => decide (p.Date = tiePostA.Date)) = [tiePostA, tiePostB] ∧
    choosePivot_func dateLess thirteenPosts 0 13 = (6, sortedHint.unknownHint) ∧
    partition_func dateLess thirteenPosts 0 13 6 =
      ([monthlyPost 9, tiePostB, tiePostA, monthlyPost 12, monthlyPost 11, monthlyPost 10,
        monthlyPost 8, monthlyPost 2, monthlyPost 7, monthlyPost 6, monthlyPost 5,
        monthlyPost 4, monthlyPost 3], 6, false) ∧
    pdqsort_func dateLess 1 thirteenPosts 0 13 (bitsLen 13) true true =
      Slice dateLess thirteenPosts ∧
    (generateIndex Slice joinSimple (fun _ _ => none) thirteenPosts
      (bytes "\x7b\x7bcontent\x7d\x7d") (bytes "build")).posts =
        [tiePostB, tiePostA] ++ (List.range 11).map (fun i => monthlyPost (12 - i)) ∧
    (indexEntries (generateIndex Slice joinSimple (fun _ _ => none) thirteenPosts
      (bytes "\x7b\x7bcontent\x7d\x7d") (bytes "build")).posts).take 2 =
        [indexEntry tiePostB, indexEntry tiePostA] ∧
    ¬ SameOrderOfEqualDates
        (generateIndex Slice joinSimple (fun _ _ => none) thirteenPosts
          (bytes "\x7b\x7bcontent\x7d\x7d") (bytes "build")).posts thirteenPosts := by
  have hrun : (generateIndex Slice joinSimple (fun _ _ => none) thirteenPosts
      (bytes "\x7b\x7bcontent\x7d\x7d") (bytes "build")).posts =
        [tiePostB, tiePostA] ++ (List.range 11).map (fun i => monthlyPost (12 - i)) := by
    decide
  refine ⟨by decide, by decide, by decide, by decide, by decide, by decide, hrun, ?_, ?_⟩
  · rw [hrun]; decide
  · intro h
    have h2 := h ⟨2023, 1, 15⟩
    rw [hrun] at h2
    revert h2
    decide

/-- C2, amended: on at most twelve posts `sort.Slice` runs an insertion sort,
and any two posts with equal dates appear in the index in the same relative
order as in the input list.  On longer lists nothing of the kind is promised;
what holds for every list and every implementation of `sort.Slice` is that the
posts of each date are the same posts after the sort as before it, and that,
when no two posts share a date, the sorted order is the one of the insertion
sort whatever the implementation. -/
theorem generateIndex_equal_dates_grouped
    (sortSlice : (BlogPost → BlogPost → Bool) → List BlogPost → List BlogPost)
    (hsort : SortSliceContract sortSlice)
    (joinPath : GoString → GoString → GoString)
    (writeFile : GoString → GoString → Option GoString)
    (posts : List BlogPost) (template buildDir : GoString) :
    (posts.length ≤ 12 →
      (generateIndex Slice joinPath writeFile posts template buildDir).posts =
        insertionSort dateLess posts ∧
      SameOrderOfEqualDates
        (generateIndex Slice joinPath writeFile posts template buildDir).posts posts) ∧
    (∀ d : Time,
      ((generateIndex sortSlice joinPath writeFile posts template buildDir).posts.filter
        (fun p => decide (p.Date = d))).Perm (posts.filter (fun p => decide (p.Date = d)))) ∧
    (posts.Pairwise (fun a b => a.Date ≠ b.Date) →
      (generateIndex sortSlice joinPath writeFile posts template buildDir).posts =
        insertionSort dateLess posts ∧
      SameOrderOfEqualDates
        (generateIndex sortSlice joinPath writeFile posts template buildDir).posts posts) := by
  have hperm : (sortSlice dateLess posts).Perm posts := hsort.perm dateLess posts
  refine ⟨?_, fun d => hperm.filter _, ?_⟩
  · intro hlen
    have hs : (generateIndex Slice joinPath writeFile posts template buildDir).posts =
        insertionSort dateLess posts := Slice_short dateLess posts hlen
    exact ⟨hs, hs ▸ insertionSort_sameOrder posts⟩
  intro hd
  have hd2 : (sortSlice dateLess posts).Pairwise (fun a b => a.Date ≠ b.Date) :=
    (List.Perm.pairwise_iff (fun h => Ne.symm h) hperm).2 hd
  refine ⟨?_, ?_⟩
  · exact sorted_perm_unique _ _ (hperm.trans (insertionSort_perm dateLess posts).symm)
      (hsort.sorted dateLess posts dateLess_strictWeak)
      (insertionSort_sorted dateLess dateLess_strictWeak posts) hd2
  · intro d
    have hp : ((sortSlice dateLess posts).filter (fun p => decide (p.Date = d))).Perm
        (posts.filter (fun p => decide (p.Date = d))) := hperm.filter _
    have hsub : (posts.filter (fun p => decide (p.Date = d))).Pairwise
        (fun a b => a.Date ≠ b.Date) := hd.sublist (List.filter_sublist posts)
    have hall : ∀ p ∈ posts.filter (fun p => decide (p.Date = d)), p.Date = d := by
      intro p hp
      simpa using (List.mem_filter.1 hp).2
    show (sortSlice dateLess posts).filter (fun p => decide (p.Date = d)) = _
    generalize posts.filter (fun p => decide (p.Date = d)) = l at hp hsub hall
    match l, hp, hsub, hall with
    | [], hp, _, _ => exact List.Perm.eq_nil hp
    | [a], hp, _, _ => exact List.perm_singleton.1 hp
    | a :: b :: t, _, hsub, hall =>
      exfalso
      rw [List.pairwise_cons] at hsub
      exact hsub.1 b (List.mem_cons_self b t)
        ((hall a (List.mem_cons_self a _)).trans
          (hall b (List.mem_cons_of_mem a (List.mem_cons_self b t))).symm)

/-- Witness of the amended C2 at the insertion sort: the two posts of 2023-01-15
keep their order under `sort.Slice`, and the posts of `TestGenerateIndex`, of
three different dates, come out in one order whatever the implementation. -/
theorem generateIndex_equal_dates_grouped_witness :
    SortSliceContract (@insertionSort BlogPost) ∧
    ([tiePostA, tiePostB].length ≤ 12 ∧
      (generateIndex Slice joinSimple (fun _ _ => none) [tiePostA, tiePostB]
        (bytes "\x7b\x7bcontent\x7d\x7d") (bytes "build")).posts = [tiePostA, tiePostB]) ∧
    ((generateIndex (@insertionSort BlogPost) joinSimple (fun _ _ => none)
          [testPost1, testPost2, testPost3] (bytes "\x7b\x7bcontent\x7d\x7d")
          (bytes "build")).posts = insertionSort dateLess [testPost1, testPost2, testPost3] ∧
      SameOrderOfEqualDates
        (generateIndex (@insertionSort BlogPost) joinSimple (fun _ _ => none)
          [testPost1, testPost2, testPost3] (bytes "\x7b\x7bcontent\x7d\x7d")
          (bytes "build")).posts [testPost1, testPost2, testPost3]) :=
  ⟨insertionSort_contract,
   ⟨by decide,
    ((generateIndex_equal_dates_grouped (@insertionSort BlogPost) insertionSort_contract
      joinSimple (fun _ _ => none) [tiePostA, tiePostB]
      (bytes "\x7b\x7bcontent\x7d\x7d") (bytes "build")).1 (by decide)).1.trans (by decide)⟩,
   (generateIndex_equal_dates_grouped (@insertionSort BlogPost) insertionSort_contract joinSimple
      (fun _ _ => none) [testPost1, testPost2, testPost3]
      (bytes "\x7b\x7bcontent\x7d\x7d") (bytes "build")).2.2 (by decide)⟩

/-- C3: the listing written by `generateIndex` is the fixed introduction, the
entries and the closing tag; the entries are, one for one, the entries of the
input posts whose date is not zero: as many as there are such posts, one for
each of them, and none that comes from anything else. -/
theorem generateIndex_lists_dated_posts
    (sortSlice : (BlogPost → BlogPost → Bool) → List BlogPost → List BlogPost)
    (hsort : SortSliceContract sortSlice)
    (joinPath : GoString → GoString → GoString)
    (writeFile : GoString → GoString → Option GoString)
    (posts : List BlogPost) (template buildDir : GoString) :
    (generateIndex sortSlice joinPath writeFile posts template buildDir).output =
      ReplaceAll (ReplaceAll template titlePlaceholder (bytes "Let\x27s Build"))
        contentPlaceholder
        (indexIntro ++
          (indexEntries
            (generateIndex sortSlice joinPath writeFile posts template buildDir).posts).flatten ++
          bytes "</ul>") ∧
    (indexEntries (generateIndex sortSlice joinPath writeFile posts template buildDir).posts).Perm
      ((posts.filter (fun p => !p.Date.IsZero)).map indexEntry) ∧
    (indexEntries
      (generateIndex sortSlice joinPath writeFile posts template buildDir).posts).length =
      posts.countP (fun p => !p.Date.IsZero) ∧
    (∀ p ∈ posts, p.Date.IsZero = false →
      indexEntry p ∈ indexEntries
        (generateIndex sortSlice joinPath writeFile posts template buildDir).posts) ∧
    (∀ e ∈ indexEntries
        (generateIndex sortSlice joinPath writeFile posts template buildDir).posts,
      ∃ p ∈ posts, p.Date.IsZero = false ∧ e = indexEntry p) := by
  have hperm : (indexEntries (sortSlice dateLess posts)).Perm
      ((posts.filter (fun p => !p.Date.IsZero)).map indexEntry) :=
    indexEntries_sorted_perm sortSlice hsort posts
  refine ⟨rfl, hperm, ?_, ?_, ?_⟩
  · show (indexEntries (sortSlice dateLess posts)).length = _
    rw [hperm.length_eq, List.length_map, List.countP_eq_length_filter]
  · intro p hp hz
    exact indexEntry_mem_of_dated sortSlice hsort posts p hp hz
  · intro e he
    have he2 : e ∈ indexEntries (sortSlice dateLess posts) := he
    rw [hperm.mem_iff] at he2
    obtain ⟨p, hp, rfl⟩ := List.mem_map.1 he2
    have := List.mem_filter.1 hp
    exact ⟨p, this.1, by simpa using this.2, rfl⟩

/-- Witness of C3 at the insertion sort: of one undated and two dated posts,
two entries are listed. -/
theorem generateIndex_lists_dated_posts_witness :
    SortSliceContract (@insertionSort BlogPost) ∧
    (indexEntries
      (generateIndex (@insertionSort BlogPost) joinSimple (fun _ _ => none)
        [testPost1, undatedPost, testPost2] (bytes "\x7b\x7bcontent\x7d\x7d")
        (bytes "build")).posts).length =
      [testPost1, undatedPost, testPost2].countP (fun p => !p.Date.IsZero) :=
  ⟨insertionSort_contract,
   (generateIndex_lists_dated_posts (@insertionSort BlogPost) insertionSort_contract joinSimple
      (fun _ _ => none) [testPost1, undatedPost, testPost2]
      (bytes "\x7b\x7bcontent\x7d\x7d") (bytes "build")).2.2.1⟩

/-! ## Lemmas: file names, the date pattern and `time.Parse` -/

theorem timeParse_dateText (y m d : Nat) (hy : y < 10000) (hm : m < 100) (hd : d < 100) :
    timeParse (dateText y m d) = if validDate y m d then some ⟨y, m, d⟩ else none := by
  have e1 : 1000 * (y / 1000 % 10) + 100 * (y / 100 % 10) + 10 * (y / 10 % 10) + y % 10 = y := by
    omega
  have e2 : 10 * (m / 10 % 10) + m % 10 = m := by omega
  have e3 : 10 * (d / 10 % 10) + d % 10 = d := by omega
  have hdig : ∀ k, k < 10 → isDigit (48 + k) = true := by
    intro k hk; simp [isDigit]; omega
  simp only [dateText, pad4, pad2, List.cons_append, List.nil_append, timeParse, digitVal,
    Nat.add_sub_cancel_left, e1, e2, e3]
  rw [hdig _ (Nat.mod_lt _ (by decide)), hdig _ (Nat.mod_lt _ (by decide)),
    hdig _ (Nat.mod_lt _ (by decide)), hdig _ (Nat.mod_lt _ (by decide)),
    hdig _ (Nat.mod_lt _ (by decide)), hdig _ (Nat.mod_lt _ (by decide)),
    hdig _ (Nat.mod_lt _ (by decide)), hdig _ (Nat.mod_lt _ (by decide))]
  simp

theorem dateRegexFind_dateStem (y m d : Nat) (slug : GoString) :
    dateRegexFind (dateStem y m d slug) =
      if slug ≠ [] ∧ 10 ∉ slug then some (dateText y m d, slug) else none := by
  have hdig : ∀ k, isDigit (48 + k % 10) = true := by
    intro k; simp [isDigit]; omega
  simp only [dateStem, dateText, pad4, pad2, List.cons_append, List.nil_append, dateRegexFind,
    hdig]
  by_cases h1 : slug = []
  · simp [h1]
  · by_cases h2 : 10 ∈ slug
    · simp [h1, h2]
    · simp [h1, h2]

theorem dateRegexFind_some_prefix (s : GoString) (h : dateRegexFind s ≠ none) :
    ∃ y m d rest, s = dateStem y m d rest := by
  unfold dateRegexFind at h
  split at h
  · rename_i y1 y2 y3 y4 h1 m1 m2 h2 d1 d2 h3 rest
    split at h
    · rename_i hc
      simp only [Bool.and_eq_true, isDigit, decide_eq_true_eq, beq_iff_eq] at hc
      obtain ⟨⟨⟨⟨⟨⟨⟨⟨⟨⟨⟨⟨a1, a2⟩, a3⟩, a4⟩, a5⟩, a6⟩, a7⟩, a8⟩, a9⟩, a10⟩, a11⟩, _⟩, _⟩ := hc
      refine ⟨1000 * (y1 - 48) + 100 * (y2 - 48) + 10 * (y3 - 48) + (y4 - 48),
        10 * (m1 - 48) + (m2 - 48), 10 * (d1 - 48) + (d2 - 48), rest, ?_⟩
      simp only [dateStem, dateText, pad4, pad2, List.cons_append, List.nil_append,
        List.cons.injEq, and_true]
      omega
    · exact absurd rfl h
  · exact absurd rfl h

theorem bytes_md : bytes ".md" = [46, 109, 100] := by decide

theorem bytes_hyphen : bytes "-" = [45] := by decide

theorem bytes_space : bytes " " = [32] := by decide

theorem Ext_md (stem : GoString) : Ext (stem ++ bytes ".md") = bytes ".md" := by
  simp [Ext, bytes_md, extRev]

theorem TrimSuffix_append (stem suffix : GoString) : TrimSuffix (stem ++ suffix) suffix = stem := by
  have h : HasSuffix (stem ++ suffix) suffix = true := by
    simp [HasSuffix, List.reverse_append]
  simp [TrimSuffix, h]

theorem stem_md (stem : GoString) :
    TrimSuffix (stem ++ bytes ".md") (Ext (stem ++ bytes ".md")) = stem := by
  rw [Ext_md, TrimSuffix_append]

theorem replaceAux_single (a b : Nat) (s : GoString) :
    replaceAux [a] [b] 0 s = s.map (fun c => if c = a then b else c) := by
  induction s with
  | nil => rfl
  | cons c rest ih =>
    unfold replaceAux
    by_cases h : c = a
    · subst h
      simp [List.isPrefixOf, ih]
    · have h2 : ¬ a = c := fun e => h e.symm
      simp [List.isPrefixOf, ih, h, h2]

theorem ReplaceAll_hyphen (s : GoString) :
    ReplaceAll s (bytes "-") (bytes " ") = hyphensToSpaces s := by
  rw [bytes_hyphen, bytes_space]
  exact replaceAux_single 45 32 s

theorem dateAndTitle_dateStem (y m d : Nat) (slug : GoString) (hy : y < 10000) (hm : m < 100)
    (hd : d < 100) (hslug : slug ≠ []) (hnl : 10 ∉ slug) :
    dateAndTitle (dateStem y m d slug) =
      (if validDate y m d then ⟨y, m, d⟩ else Time.zero, hyphensToSpaces slug) := by
  unfold dateAndTitle
  rw [dateRegexFind_dateStem, if_pos ⟨hslug, hnl⟩]
  simp only [timeParse_dateText y m d hy hm hd, ReplaceAll_hyphen]
  by_cases hv : validDate y m d = true
  · simp [hv]
  · simp [hv]

theorem dateAndTitle_title (y m d : Nat) (slug : GoString) (hslug : slug ≠ []) (hnl : 10 ∉ slug) :
    (dateAndTitle (dateStem y m d slug)).2 = hyphensToSpaces slug := by
  unfold dateAndTitle
  rw [dateRegexFind_dateStem, if_pos ⟨hslug, hnl⟩]
  simp only [ReplaceAll_hyphen]

theorem dateAndTitle_no_match (stem : GoString) (h : dateRegexFind stem = none) :
    dateAndTitle stem = (Time.zero, hyphensToSpaces stem) := by
  unfold dateAndTitle
  rw [h]
  simp only [ReplaceAll_hyphen]

theorem processMarkdownFile_ok (readFile : GoString → Except GoString GoString)
    (parseFrontmatter : GoString → FrontMatter × Option GoString)
    (toHTML : GoString → GoString) (filePath template fileContent : GoString)
    (hread : readFile filePath = .ok fileContent) :
    processMarkdownFile readFile parseFrontmatter toHTML filePath template =
      .ok (TrimSuffix (Base filePath) (Ext (Base filePath)) ++ bytes ".html",
        ReplaceAll (ReplaceAll template titlePlaceholder
          (if (parseFrontmatter fileContent).1.Title = [] then
            (dateAndTitle (TrimSuffix (Base filePath) (Ext (Base filePath)))).2
           else (parseFrontmatter fileContent).1.Title))
          contentPlaceholder
          (toHTML (match (parseFrontmatter fileContent).2 with
            | some rest => rest
            | none => fileContent)),
        { Title := if (parseFrontmatter fileContent).1.Title = [] then
            (dateAndTitle (TrimSuffix (Base filePath) (Ext (Base filePath)))).2
           else (parseFrontmatter fileContent).1.Title,
          Date := (dateAndTitle (TrimSuffix (Base filePath) (Ext (Base filePath)))).1,
          Filename := Base filePath,
          OutputFile := TrimSuffix (Base filePath) (Ext (Base filePath)) ++ bytes ".html",
          Description := if (parseFrontmatter fileContent).1.Description = [] then
            extractDescription (match (parseFrontmatter fileContent).2 with
              | some rest => rest
              | none => fileContent)
           else (parseFrontmatter fileContent).1.Description }) := by
  simp only [processMarkdownFile, hread]

/-! ## Titles and dates from file names (C4 to C8) -/

/-- C4: when the front matter carries a non-empty title, the post returned by
`processMarkdownFile` has exactly that title, and the page is the template with
that title in place of the title placeholder, whatever the file path is. -/
theorem processMarkdownFile_frontmatter_title
    (readFile : GoString → Except GoString GoString)
    (parseFrontmatter : GoString → FrontMatter × Option GoString)
    (toHTML : GoString → GoString) (filePath template fileContent : GoString)
    (hread : readFile filePath = .ok fileContent)
    (htitle : (parseFrontmatter fileContent).1.Title ≠ []) :
    ∃ out page post,
      processMarkdownFile readFile parseFrontmatter toHTML filePath template =
        .ok (out, page, post) ∧
      post.Title = (parseFrontmatter fileContent).1.Title ∧
      page = ReplaceAll
        (ReplaceAll template titlePlaceholder (parseFrontmatter fileContent).1.Title)
        contentPlaceholder
        (toHTML (match (parseFrontmatter fileContent).2 with
          | some rest => rest
          | none => fileContent)) := by
  refine ⟨_, _, _, processMarkdownFile_ok readFile parseFrontmatter toHTML filePath template
    fileContent hread, ?_, ?_⟩
  · simp only [if_neg htitle]
  · simp only [if_neg htitle]

/-- Witness of C4: a dated and an undated file name with front matter title `Test Title`. -/
theorem processMarkdownFile_frontmatter_title_witness :
    (readOK (bytes "# Heading\nThis is a test.") (bytes "content/2023-01-15-first-post.md") =
        .ok (bytes "# Heading\nThis is a test.") ∧
      (titledFrontmatter (bytes "# Heading\nThis is a test.")).1.Title ≠ []) ∧
    ∃ out page post,
      processMarkdownFile (readOK (bytes "# Heading\nThis is a test.")) titledFrontmatter id
          (bytes "content/2023-01-15-first-post.md")
          (bytes "<title>\x7b\x7btitle\x7d\x7d</title>") = .ok (out, page, post) ∧
      post.Title = (titledFrontmatter (bytes "# Heading\nThis is a test.")).1.Title ∧
      page = ReplaceAll
        (ReplaceAll (bytes "<title>\x7b\x7btitle\x7d\x7d</title>") titlePlaceholder
          (titledFrontmatter (bytes "# Heading\nThis is a test.")).1.Title)
        contentPlaceholder
        (id (match (titledFrontmatter (bytes "# Heading\nThis is a test.")).2 with
          | some rest => rest
          | none => bytes "# Heading\nThis is a test.")) :=
  ⟨⟨rfl, by decide⟩,
   processMarkdownFile_frontmatter_title (readOK (bytes "# Heading\nThis is a test."))
     titledFrontmatter id (bytes "content/2023-01-15-first-post.md")
     (bytes "<title>\x7b\x7btitle\x7d\x7d</title>") (bytes "# Heading\nThis is a test.")
     rfl (by decide)⟩

/-- C5, counterexample: the slug `a<newline>b` is not empty, yet the pattern, whose
dot matches no newline, does not match the stem, and the title keeps the date. -/
theorem processMarkdownFile_dated_title_counterexample :
    Base (bytes "content/2023-02-10-a\nb.md") = dateStem 2023 2 10 (bytes "a\nb") ++ bytes ".md" ∧
    bytes "a\nb" ≠ [] ∧
    (noFrontmatter (bytes "text")).1.Title = [] ∧
    (resultPost (processMarkdownFile (readOK (bytes "text")) noFrontmatter id
        (bytes "content/2023-02-10-a\nb.md") (bytes "\x7b\x7btitle\x7d\x7d"))).map
      (fun post => post.Title) = some (bytes "2023 02 10 a\nb") ∧
    bytes "2023 02 10 a\nb" ≠ hyphensToSpaces (bytes "a\nb") := by
  refine ⟨by decide, by decide, rfl, ?_, by decide⟩
  decide

/-- C5, amended: for a file named `YYYY-MM-DD-slug.md` with a non-empty slug
that contains no newline, and no front matter title, the title of the post is
the slug with every hyphen replaced by a space, the date prefix left out. -/
theorem processMarkdownFile_dated_title
    (readFile : GoString → Except GoString GoString)
    (parseFrontmatter : GoString → FrontMatter × Option GoString)
    (toHTML : GoString → GoString) (filePath template fileContent : GoString)
    (y m d : Nat) (slug : GoString)
    (hread : readFile filePath = .ok fileContent)
    (hname : Base filePath = dateStem y m d slug ++ bytes ".md")
    (hslug : slug ≠ []) (hnl : 10 ∉ slug)
    (hfm : (parseFrontmatter fileContent).1.Title = []) :
    ∃ out page post,
      processMarkdownFile readFile parseFrontmatter toHTML filePath template =
        .ok (out, page, post) ∧
      post.Title = hyphensToSpaces slug := by
  refine ⟨_, _, _, processMarkdownFile_ok readFile parseFrontmatter toHTML filePath template
    fileContent hread, ?_⟩
  simp only [if_pos hfm, hname, stem_md, dateAndTitle_title y m d slug hslug hnl]

/-- Witness of the amended C5: `2023-02-10-third-post.md` gives `third post`. -/
theorem processMarkdownFile_dated_title_witness :
    (Base (bytes "content/2023-02-10-third-post.md") =
        dateStem 2023 2 10 (bytes "third-post") ++ bytes ".md" ∧
      bytes "third-post" ≠ [] ∧ 10 ∉ bytes "third-post") ∧
    hyphensToSpaces (bytes "third-post") = bytes "third post" ∧
    ∃ out page post,
      processMarkdownFile (readOK (bytes "text")) noFrontmatter id
          (bytes "content/2023-02-10-third-post.md") (bytes "\x7b\x7btitle\x7d\x7d") =
        .ok (out, page, post) ∧
      post.Title = hyphensToSpaces (bytes "third-post") :=
  ⟨⟨by decide, by decide, by decide⟩, by decide,
   processMarkdownFile_dated_title (readOK (bytes "text")) noFrontmatter id
     (bytes "content/2023-02-10-third-post.md") (bytes "\x7b\x7btitle\x7d\x7d") (bytes "text")
     2023 2 10 (bytes "third-post") rfl (by decide) (by decide) (by decide) rfl⟩

/-- C6: when the stem of the file name (the name without its extension) does
not start with a `YYYY-MM-DD-` prefix and there is no front matter title, the
title of the post is the whole stem with every hyphen replaced by a space, and
its date is the zero date. -/
theorem processMarkdownFile_undated
    (readFile : GoString → Except GoString GoString)
    (parseFrontmatter : GoString → FrontMatter × Option GoString)
    (toHTML : GoString → GoString) (filePath template fileContent : GoString)
    (hread : readFile filePath = .ok fileContent)
    (hnodate : ∀ y m d rest,
      TrimSuffix (Base filePath) (Ext (Base filePath)) ≠ dateStem y m d rest)
    (hfm : (parseFrontmatter fileContent).1.Title = []) :
    ∃ out page post,
      processMarkdownFile readFile parseFrontmatter toHTML filePath template =
        .ok (out, page, post) ∧
      post.Title = hyphensToSpaces (TrimSuffix (Base filePath) (Ext (Base filePath))) ∧
      post.Date = Time.zero ∧ post.Date.IsZero = true := by
  have hno : dateRegexFind (TrimSuffix (Base filePath) (Ext (Base filePath))) = none := by
    by_contra h
    obtain ⟨y, m, d, rest, e⟩ := dateRegexFind_some_prefix _ h
    exact hnodate y m d rest e
  refine ⟨_, _, _, processMarkdownFile_ok readFile parseFrontmatter toHTML filePath template
    fileContent hread, ?_, ?_, ?_⟩
  · simp only [if_pos hfm, dateAndTitle_no_match _ hno]
  · simp only [dateAndTitle_no_match _ hno]
  · simp only [dateAndTitle_no_match _ hno]
    rfl

theorem regularPost_no_date_prefix (y m d : Nat) (rest : GoString) :
    TrimSuffix (Base (bytes "content/regular-post-without-date.md"))
      (Ext (Base (bytes "content/regular-post-without-date.md"))) ≠ dateStem y m d rest := by
  have hs : TrimSuffix (Base (bytes "content/regular-post-without-date.md"))
      (Ext (Base (bytes "content/regular-post-without-date.md"))) =
        114 :: bytes "egular-post-without-date" := by decide
  rw [hs]
  intro h
  simp only [dateStem, dateText, pad4, List.cons_append, List.cons.injEq] at h
  omega

/-- Witness of C6: `regular-post-without-date.md` gives the title
`regular post without date` and a zero date. -/
theorem processMarkdownFile_undated_witness :
    hyphensToSpaces (TrimSuffix (Base (bytes "content/regular-post-without-date.md"))
      (Ext (Base (bytes "content/regular-post-without-date.md")))) =
        bytes "regular post without date" ∧
    ∃ out page post,
      processMarkdownFile (readOK (bytes "# Regular Post")) noFrontmatter id
          (bytes "content/regular-post-without-date.md") (bytes "\x7b\x7btitle\x7d\x7d") =
        .ok (out, page, post) ∧
      post.Title = hyphensToSpaces
        (TrimSuffix (Base (bytes "content/regular-post-without-date.md"))
          (Ext (Base (bytes "content/regular-post-without-date.md")))) ∧
      post.Date = Time.zero ∧ post.Date.IsZero = true :=
  ⟨by decide,
   processMarkdownFile_undated (readOK (bytes "# Regular Post")) noFrontmatter id
     (bytes "content/regular-post-without-date.md") (bytes "\x7b\x7btitle\x7d\x7d")
     (bytes "# Regular Post") rfl regularPost_no_date_prefix rfl⟩

/-- C7: when the stem matches the pattern (`YYYY-MM-DD-slug`, the slug not
empty and without newline) but `YYYY-MM-DD` is not a calendar date, a readable
file still yields a post: its date is the zero date and its title, unless the
front matter gives one, is the slug with hyphens replaced by spaces. -/
theorem processMarkdownFile_invalid_date
    (readFile : GoString → Except GoString GoString)
    (parseFrontmatter : GoString → FrontMatter × Option GoString)
    (toHTML : GoString → GoString) (filePath template fileContent : GoString)
    (y m d : Nat) (slug : GoString)
    (hread : readFile filePath = .ok fileContent)
    (hstem : TrimSuffix (Base filePath) (Ext (Base filePath)) = dateStem y m d slug)
    (hy : y < 10000) (hm : m < 100) (hd : d < 100)
    (hslug : slug ≠ []) (hnl : 10 ∉ slug)
    (hinvalid : validDate y m d = false) :
    ∃ out page post,
      processMarkdownFile readFile parseFrontmatter toHTML filePath template =
        .ok (out, page, post) ∧
      post.Date = Time.zero ∧ post.Date.IsZero = true ∧
      post.Title = (if (parseFrontmatter fileContent).1.Title = [] then hyphensToSpaces slug
        else (parseFrontmatter fileContent).1.Title) := by
  refine ⟨_, _, _, processMarkdownFile_ok readFile parseFrontmatter toHTML filePath template
    fileContent hread, ?_, ?_, ?_⟩
  · simp [hstem, dateAndTitle_dateStem y m d slug hy hm hd hslug hnl, hinvalid]
  · simp [hstem, dateAndTitle_dateStem y m d slug hy hm hd hslug hnl, hinvalid]
    rfl
  · simp only [hstem, dateAndTitle_dateStem y m d slug hy hm hd hslug hnl]

/-- Witness of C7: February 30 in `2023-02-30-leap-day.md`. -/
theorem processMarkdownFile_invalid_date_witness :
    (TrimSuffix (Base (bytes "content/2023-02-30-leap-day.md"))
        (Ext (Base (bytes "content/2023-02-30-leap-day.md"))) =
        dateStem 2023 2 30 (bytes "leap-day") ∧
      bytes "leap-day" ≠ [] ∧ 10 ∉ bytes "leap-day" ∧ validDate 2023 2 30 = false) ∧
    ∃ out page post,
      processMarkdownFile (readOK (bytes "text")) noFrontmatter id
          (bytes "content/2023-02-30-leap-day.md") (bytes "\x7b\x7btitle\x7d\x7d") =
        .ok (out, page, post) ∧
      post.Date = Time.zero ∧ post.Date.IsZero = true ∧
      post.Title = (if (noFrontmatter (bytes "text")).1.Title = [] then
        hyphensToSpaces (bytes "leap-day") else (noFrontmatter (bytes "text")).1.Title) :=
  ⟨⟨by decide, by decide, by decide, by decide⟩,
   processMarkdownFile_invalid_date (readOK (bytes "text")) noFrontmatter id
     (bytes "content/2023-02-30-leap-day.md") (bytes "\x7b\x7btitle\x7d\x7d") (bytes "text")
     2023 2 30 (bytes "leap-day") rfl (by decide) (by decide) (by decide) (by decide)
     (by decide) (by decide) (by decide)⟩

/-- C8, counterexample: `0001-01-01` is a calendar date, and it is the zero
date: the post of `0001-01-01-first.md` carries it, `IsZero` holds, and the index
made of that post has no entry.  And a slug with a newline, as in
`2023-01-15-a<newline>b.md`, keeps the pattern from matching: the date is zero. -/
theorem processMarkdownFile_dated_counterexample :
    (TrimSuffix (Base (bytes "content/2023-01-15-a\nb.md"))
        (Ext (Base (bytes "content/2023-01-15-a\nb.md"))) = dateStem 2023 1 15 (bytes "a\nb") ∧
      validDate 2023 1 15 = true ∧
      (resultPost (processMarkdownFile (readOK (bytes "text")) noFrontmatter id
          (bytes "content/2023-01-15-a\nb.md") (bytes "\x7b\x7btitle\x7d\x7d"))).map
        (fun post => post.Date) = some Time.zero) ∧
    TrimSuffix (Base (bytes "content/0001-01-01-first.md"))
        (Ext (Base (bytes "content/0001-01-01-first.md"))) = dateStem 1 1 1 (bytes "first") ∧
    validDate 1 1 1 = true ∧
    (resultPost (processMarkdownFile (readOK (bytes "text")) noFrontmatter id
        (bytes "content/0001-01-01-first.md") (bytes "\x7b\x7btitle\x7d\x7d"))).map
      (fun post => (post.Date, post.Date.IsZero)) = some (⟨1, 1, 1⟩, true) ∧
    (resultPost (processMarkdownFile (readOK (bytes "text")) noFrontmatter id
        (bytes "content/0001-01-01-first.md") (bytes "\x7b\x7btitle\x7d\x7d"))).map
      (fun post => indexEntries (generateIndex (@insertionSort BlogPost) joinSimple
        (fun _ _ => none) [post] (bytes "\x7b\x7bcontent\x7d\x7d") (bytes "build")).posts) =
      some [] := by
  refine ⟨⟨by decide, by decide, by decide⟩, by decide, by decide, ?_, ?_⟩
  · decide
  · decide

/-- C8, amended: when the stem is `YYYY-MM-DD-slug` (the slug not empty and
without newline) and `YYYY-MM-DD` is a calendar date other than 0001-01-01, the
post carries that date, the date is not the zero date, and every index built
from posts that include it has its entry. -/
theorem processMarkdownFile_dated
    (readFile : GoString → Except GoString GoString)
    (parseFrontmatter : GoString → FrontMatter × Option GoString)
    (toHTML : GoString → GoString) (filePath template fileContent : GoString)
    (y m d : Nat) (slug : GoString)
    (hread : readFile filePath = .ok fileContent)
    (hstem : TrimSuffix (Base filePath) (Ext (Base filePath)) = dateStem y m d slug)
    (hy : y < 10000) (hm : m < 100) (hd : d < 100)
    (hslug : slug ≠ []) (hnl : 10 ∉ slug)
    (hvalid : validDate y m d = true)
    (hnonzero : ¬ (y = 1 ∧ m = 1 ∧ d = 1)) :
    ∃ out page post,
      processMarkdownFile readFile parseFrontmatter toHTML filePath template =
        .ok (out, page, post) ∧
      post.Date = ⟨y, m, d⟩ ∧ post.Date.IsZero = false ∧
      ∀ sortSlice, SortSliceContract sortSlice →
        ∀ (joinPath : GoString → GoString → GoString)
          (writeFile : GoString → GoString → Option GoString)
          (posts : List BlogPost) (indexTemplate buildDir : GoString), post ∈ posts →
          indexEntry post ∈ indexEntries
            (generateIndex sortSlice joinPath writeFile posts indexTemplate buildDir).posts := by
  have hdate : (dateAndTitle (dateStem y m d slug)).1 = ⟨y, m, d⟩ := by
    simp [dateAndTitle_dateStem y m d slug hy hm hd hslug hnl, hvalid]
  have hz : Time.IsZero ⟨y, m, d⟩ = false := by
    simp only [Time.IsZero, Bool.and_eq_false_iff, beq_eq_false_iff_ne, ne_eq]
    omega
  refine ⟨_, _, _, processMarkdownFile_ok readFile parseFrontmatter toHTML filePath template
    fileContent hread, ?_, ?_, ?_⟩
  · simp only [hstem, hdate]
  · simp only [hstem, hdate, hz]
  · intro sortSlice hsort joinPath writeFile posts indexTemplate buildDir hmem
    exact indexEntry_mem_of_dated sortSlice hsort posts _ hmem
      (by simp only [hstem, hdate, hz])

/-- Witness of the amended C8: `2023-01-15-first-post.md` is dated January 15, 2023. -/
theorem processMarkdownFile_dated_witness :
    (TrimSuffix (Base (bytes "content/2023-01-15-first-post.md"))
        (Ext (Base (bytes "content/2023-01-15-first-post.md"))) =
        dateStem 2023 1 15 (bytes "first-post") ∧
      bytes "first-post" ≠ [] ∧ 10 ∉ bytes "first-post" ∧ validDate 2023 1 15 = true) ∧
    ∃ out page post,
      processMarkdownFile (readOK (bytes "text")) noFrontmatter id
          (bytes "content/2023-01-15-first-post.md") (bytes "\x7b\x7btitle\x7d\x7d") =
        .ok (out, page, post) ∧
      post.Date = ⟨2023, 1, 15⟩ ∧ post.Date.IsZero = false ∧
      ∀ sortSlice, SortSliceContract sortSlice →
        ∀ (joinPath : GoString → GoString → GoString)
          (writeFile : GoString → GoString → Option GoString)
          (posts : List BlogPost) (indexTemplate buildDir : GoString), post ∈ posts →
          indexEntry post ∈ indexEntries
            (generateIndex sortSlice joinPath writeFile posts indexTemplate buildDir).posts :=
  ⟨⟨by decide, by decide, by decide, by decide⟩,
   processMarkdownFile_dated (readOK (bytes "text")) noFrontmatter id
     (bytes "content/2023-01-15-first-post.md") (bytes "\x7b\x7btitle\x7d\x7d") (bytes "text")
     2023 1 15 (bytes "first-post") rfl (by decide) (by decide) (by decide) (by decide)
     (by decide) (by decide) (by decide) (by decide)⟩

/-! ## Lemmas: `extractDescription` -/

theorem replaceAux_delete (a : Nat) (s : GoString) :
    replaceAux [a] [] 0 s = s.filter (fun c => c != a) := by
  induction s with
  | nil => rfl
  | cons c rest ih =>
    unfold replaceAux
    by_cases h : c = a
    · subst h
      simp [List.isPrefixOf, ih]
    · have h2 : ¬ a = c := fun e => h e.symm
      simp [List.isPrefixOf, ih, h, h2]

theorem stripMarkdown_eq (body : GoString) : stripMarkdown body = deleteMarkers body := by
  have e1 : bytes "#" = [35] := by decide
  have e2 : bytes "*" = [42] := by decide
  have e3 : bytes "_" = [95] := by decide
  simp only [stripMarkdown, ReplaceAll, e1, e2, e3, replaceAux_delete, deleteMarkers,
    List.filter_filter]
  congr 1
  funext c
  simp only [Bool.and_comm, Bool.and_assoc]

theorem firstParagraph_eq (blocks : List GoString) :
    firstParagraph blocks =
      (firstNonEmptyBlock blocks).map
        (fun p => if p.length > 150 then p.take 147 ++ bytes "..." else p) := by
  induction blocks with
  | nil => rfl
  | cons b rest ih =>
    unfold firstParagraph
    simp only [firstNonEmptyBlock, List.map_cons, List.find?_cons]
    by_cases h : TrimSpace b = []
    · simp only [h, ne_eq, not_true_eq_false, if_false, List.isEmpty_nil, Bool.not_true]
      exact ih
    · have h2 : (TrimSpace b).isEmpty = false := by
        cases hb : TrimSpace b with
        | nil => exact absurd hb h
        | cons _ _ => rfl
      simp only [ne_eq, h, not_false_eq_true, if_true, h2, Bool.not_false, Option.map_some']
      split <;> rfl

theorem extractDescription_of_paragraph (body p : GoString)
    (hp : firstParagraphOf body = some p) :
    extractDescription body = if p.length > 150 then p.take 147 ++ bytes "..." else p := by
  unfold extractDescription
  simp only [stripMarkdown_eq, firstParagraph_eq]
  unfold firstParagraphOf at hp
  rw [hp]
  rfl

theorem runeCountAux_ascii (s : GoString) (h : isASCII s) : runeCountAux 0 s = s.length := by
  induction s with
  | nil => rfl
  | cons b rest ih =>
    have hb : b < 0x80 := h b (List.mem_cons_self b rest)
    have hr : isASCII rest := fun c hc => h c (List.mem_cons_of_mem b hc)
    simp only [runeCountAux, runeWidth, hb, if_true, Nat.sub_self, ih hr, List.length_cons]
    omega

theorem runePrefixAux_ascii (n : Nat) (s : GoString) (h : isASCII s) :
    runePrefixAux n 0 s = s.take n := by
  induction s generalizing n with
  | nil => cases n <;> rfl
  | cons b rest ih =>
    have hb : b < 0x80 := h b (List.mem_cons_self b rest)
    have hr : isASCII rest := fun c hc => h c (List.mem_cons_of_mem b hc)
    cases n with
    | zero => rfl
    | succ n =>
      simp only [runePrefixAux, runeWidth, hb, if_true, Nat.sub_self, ih n hr, List.take_succ_cons]

theorem runePrefixAux_append (n : Nat) (s t : GoString) (h : isASCII s) (hn : n ≤ s.length) :
    runePrefixAux n 0 (s ++ t) = s.take n := by
  induction s generalizing n with
  | nil =>
    have : n = 0 := by simpa using hn
    subst this
    cases t <;> rfl
  | cons b rest ih =>
    have hb : b < 0x80 := h b (List.mem_cons_self b rest)
    have hr : isASCII rest := fun c hc => h c (List.mem_cons_of_mem b hc)
    cases n with
    | zero => rfl
    | succ n =>
      have hn2 : n ≤ rest.length := by simpa using hn
      simp only [List.cons_append, runePrefixAux, runeWidth, hb, if_true, Nat.sub_self,
        List.take_succ_cons, List.append_eq, ih n hr hn2]

theorem bytes_ellipsis : bytes "..." = [46, 46, 46] := by decide

theorem runeCountAux_le (s : GoString) (k : Nat) : runeCountAux k s ≤ s.length := by
  induction s generalizing k with
  | nil => cases k <;> simp [runeCountAux]
  | cons b rest ih =>
    cases k with
    | zero =>
      simp only [runeCountAux, List.length_cons]
      have := ih (runeWidth (b :: rest) - 1)
      omega
    | succ k =>
      simp only [runeCountAux, List.length_cons]
      have := ih k
      omega

/-! ## Description truncation (C9, C10): lengths are counted in bytes -/

/-- C9, the run on the failing input: a paragraph of 151 letters `é` is longer
than 150 characters; the description is cut after 147 bytes, in the middle of
the 74th letter: it is not the first 147 characters and an ellipsis, and it has
77 characters, not the 150 that the comments and the test speak of. -/
theorem extractDescription_truncation_cuts_bytes :
    firstParagraphOf (accented 151) = some (accented 151) ∧
    runeCount (accented 151) = 151 ∧
    extractDescription (accented 151) = accented 73 ++ [0xC3] ++ bytes "..." ∧
    extractDescription (accented 151) ≠ runePrefix 147 (accented 151) ++ bytes "..." ∧
    runeCount (extractDescription (accented 151)) = 77 := by
  set_option maxRecDepth 100000 in
  decide

/-- What the code computes for a long paragraph, in bytes: when the first
paragraph of the body takes more than 150 bytes, the description is its first
147 bytes followed by an ellipsis, 150 bytes in all; when these 147 bytes are
ASCII, as in the test, they are the first 147 characters of the paragraph and
the description has exactly 150 characters. -/
theorem extractDescription_truncation (body p : GoString)
    (hp : firstParagraphOf body = some p) (hlen : p.length > 150) :
    extractDescription body = p.take 147 ++ bytes "..." ∧
    (extractDescription body).length = 150 ∧
    runeCount p ≤ p.length ∧
    (isASCII (p.take 147) →
      extractDescription body = runePrefix 147 p ++ bytes "..." ∧
      runeCount (extractDescription body) = 150) := by
  have hd : extractDescription body = p.take 147 ++ bytes "..." := by
    rw [extractDescription_of_paragraph body p hp, if_pos hlen]
  have hl : (p.take 147 ++ bytes "...").length = 150 := by
    rw [List.length_append, List.length_take, bytes_ellipsis]
    simp only [List.length_cons, List.length_nil]
    omega
  refine ⟨hd, hd ▸ hl, runeCountAux_le p 0, ?_⟩
  intro hascii
  have hpre : runePrefix 147 p = p.take 147 := by
    have h1 := runePrefixAux_append 147 (p.take 147) (p.drop 147) hascii
      (by rw [List.length_take]; omega)
    rw [List.take_append_drop, List.take_take] at h1
    simpa [runePrefix] using h1
  refine ⟨by rw [hd, hpre], ?_⟩
  rw [hd]
  have hall : isASCII (p.take 147 ++ bytes "...") := by
    intro b hb
    rcases List.mem_append.1 hb with h | h
    · exact hascii b h
    · rw [bytes_ellipsis] at h
      simp only [List.mem_cons, List.mem_singleton, List.not_mem_nil, or_false, or_self] at h
      omega
  show runeCountAux 0 _ = 150
  rw [runeCountAux_ascii _ hall, hl]

/-- The long paragraph of `TestExtractDescription`, which is ASCII: the
description is its first 147 characters and the ellipsis. -/
theorem extractDescription_truncation_test :
    (firstParagraphOf longParagraph = some (TrimSpace longParagraph) ∧
      (TrimSpace longParagraph).length > 150 ∧ isASCII ((TrimSpace longParagraph).take 147)) ∧
    extractDescription longParagraph = longParagraph.take 147 ++ bytes "..." ∧
    runeCount (extractDescription longParagraph) = 150 := by
  have hp : firstParagraphOf longParagraph = some (TrimSpace longParagraph) := by
    set_option maxRecDepth 100000 in
    decide
  have hlen : (TrimSpace longParagraph).length > 150 := by
    set_option maxRecDepth 100000 in
    decide
  have hascii : isASCII ((TrimSpace longParagraph).take 147) := by
    set_option maxRecDepth 100000 in
    decide
  have htake : (TrimSpace longParagraph).take 147 = longParagraph.take 147 := by
    set_option maxRecDepth 100000 in
    decide
  have h := extractDescription_truncation longParagraph (TrimSpace longParagraph) hp hlen
  exact ⟨⟨hp, hlen, hascii⟩, htake ▸ h.1, (h.2.2.2 hascii).2⟩

/-- C10, the run on the failing input: a paragraph of 100 letters `é` has at
most 150 characters, yet it is not returned as it is: it takes 200 bytes and is
cut after 147 of them, inside the 74th letter. -/
theorem extractDescription_short_cuts_bytes :
    firstParagraphOf (accented 100) = some (accented 100) ∧
    runeCount (accented 100) = 100 ∧
    extractDescription (accented 100) = accented 73 ++ [0xC3] ++ bytes "..." ∧
    extractDescription (accented 100) ≠ accented 100 := by
  set_option maxRecDepth 100000 in
  decide

/-- What the code computes for a short paragraph, in bytes: when the body, its
`#`, `*` and `_` deleted and split on two consecutive newlines, has a block that
is non-empty once trimmed, and the first such block takes at most 150 bytes once
trimmed, `extractDescription` returns exactly that trimmed block; the blocks
before it, empty or white space only, are skipped. -/
theorem extractDescription_short (body p : GoString)
    (hp : firstNonEmptyBlock (Split (deleteMarkers body) (bytes "\n\n")) = some p)
    (hlen : p.length ≤ 150) :
    extractDescription body = p := by
  rw [extractDescription_of_paragraph body p hp, if_neg (by omega)]

/-- The bodies of `TestExtractDescription`: the heading is the first paragraph
of the test body, and blocks of white space before a paragraph are skipped. -/
theorem extractDescription_short_test :
    (firstNonEmptyBlock (Split (deleteMarkers
        (bytes "# Heading\n\nFirst paragraph.\n\nSecond paragraph.")) (bytes "\n\n")) =
        some (bytes "Heading") ∧ (bytes "Heading").length ≤ 150) ∧
    extractDescription (bytes "# Heading\n\nFirst paragraph.\n\nSecond paragraph.") =
      bytes "Heading" ∧
    extractDescription (bytes "\n\n \t \n\n**Bold text** and *italic* formatting.\n\nNext") =
      bytes "Bold text and italic formatting." :=
  ⟨⟨by decide, by decide⟩,
   extractDescription_short (bytes "# Heading\n\nFirst paragraph.\n\nSecond paragraph.")
     (bytes "Heading") (by decide) (by decide),
   by decide⟩

/-! ## Lemmas: pieces of the text -/

theorem trimAux_final (width : GoString → Nat) (k : Nat) (s : GoString) :
    trimAux width k s <:+ s := by
  induction s generalizing k with
  | nil => cases k <;> exact List.suffix_refl _
  | cons b rest ih =>
    cases k with
    | zero =>
      unfold trimAux
      split
      · exact List.suffix_refl _
      · exact (ih _).trans (List.suffix_cons b rest)
    | succ k =>
      unfold trimAux
      exact (ih k).trans (List.suffix_cons b rest)

theorem TrimLeftSpace_final (s : GoString) : TrimLeftSpace s <:+ s :=
  trimAux_final spaceWidth 0 s

theorem TrimRightSpace_initial (s : GoString) : TrimRightSpace s <+: s := by
  unfold TrimRightSpace
  rw [← List.reverse_suffix, List.reverse_reverse]
  exact trimAux_final spaceWidthRev 0 s.reverse

theorem TrimSpace_piece (s : GoString) : TrimSpace s <:+: s :=
  (TrimRightSpace_initial _).isInfix.trans (TrimLeftSpace_final s).isInfix

theorem TrimSpace_length_le (s : GoString) : (TrimSpace s).length ≤ s.length :=
  (TrimSpace_piece s).length_le

theorem splitAux_head_initial (sep s : GoString) :
    ∃ blk more, splitAux sep 0 s = blk :: more ∧ blk <+: s := by
  induction s with
  | nil => exact ⟨[], [], rfl, List.prefix_refl _⟩
  | cons b rest ih =>
    obtain ⟨blk, more, e, hpre⟩ := ih
    unfold splitAux
    split
    · exact ⟨[], _, rfl, List.nil_prefix⟩
    · rw [e]
      exact ⟨b :: blk, more, rfl, (List.cons_prefix_cons).2 ⟨rfl, hpre⟩⟩

theorem splitAux_mem_piece (sep : GoString) (k : Nat) (s blk : GoString)
    (h : blk ∈ splitAux sep k s) : blk <:+: s := by
  induction s generalizing k with
  | nil =>
    have : blk = [] := by
      cases k <;> simpa [splitAux] using h
    subst this
    exact List.nil_infix
  | cons b rest ih =>
    cases k with
    | succ k =>
      unfold splitAux at h
      exact (ih k h).trans (List.suffix_cons b rest).isInfix
    | zero =>
      unfold splitAux at h
      split at h
      · rcases List.mem_cons.1 h with rfl | h
        · exact List.nil_infix
        · exact (ih _ h).trans (List.suffix_cons b rest).isInfix
      · obtain ⟨b0, more, e, hpre⟩ := splitAux_head_initial sep rest
        rw [e] at h
        rcases List.mem_cons.1 h with rfl | h
        · exact ((List.cons_prefix_cons).2 ⟨rfl, hpre⟩).isInfix
        · have hm : blk ∈ splitAux sep 0 rest := by rw [e]; exact List.mem_cons_of_mem _ h
          exact (ih 0 hm).trans (List.suffix_cons b rest).isInfix

theorem firstNonEmptyBlock_mem (blocks : List GoString) (p : GoString)
    (h : firstNonEmptyBlock blocks = some p) : ∃ b ∈ blocks, p = TrimSpace b := by
  unfold firstNonEmptyBlock at h
  have := List.mem_of_find?_eq_some h
  obtain ⟨b, hb, e⟩ := List.mem_map.1 this
  exact ⟨b, hb, e.symm⟩

theorem firstParagraphOf_piece (body p : GoString) (h : firstParagraphOf body = some p) :
    p <:+: deleteMarkers body := by
  obtain ⟨b, hb, e⟩ := firstNonEmptyBlock_mem _ p h
  subst e
  exact (TrimSpace_piece b).trans (splitAux_mem_piece _ 0 _ b hb)

theorem extractDescription_fallback (body : GoString) (h : firstParagraphOf body = none) :
    extractDescription body =
      if (deleteMarkers body).length > 150 then
        TrimSpace ((deleteMarkers body).take 147) ++ bytes "..."
      else TrimSpace (deleteMarkers body) := by
  unfold extractDescription
  simp only [stripMarkdown_eq, firstParagraph_eq]
  unfold firstParagraphOf at h
  rw [h]
  rfl

theorem deleteMarkers_no_marker (body : GoString) (c : Nat) (h : c ∈ deleteMarkers body) :
    c ≠ 35 ∧ c ≠ 42 ∧ c ≠ 95 := by
  have := (List.mem_filter.1 h).2
  simpa [and_assoc] using this

/-- The description is a piece of the marker-free text, with or without the ellipsis. -/
theorem extractDescription_piece (body : GoString) :
    ∃ q, q <:+: deleteMarkers body ∧ q.length ≤ 150 ∧
      (extractDescription body = q ∨
        (q.length ≤ 147 ∧ extractDescription body = q ++ bytes "...")) := by
  cases hp : firstParagraphOf body with
  | some p =>
    rw [extractDescription_of_paragraph body p hp]
    have hinf := firstParagraphOf_piece body p hp
    by_cases hl : p.length > 150
    · rw [if_pos hl]
      refine ⟨p.take 147, ( List.take_prefix 147 p).isInfix.trans hinf, ?_, Or.inr ⟨?_, rfl⟩⟩
      · rw [List.length_take]; omega
      · rw [List.length_take]; omega
    · rw [if_neg hl]
      exact ⟨p, hinf, by omega, Or.inl rfl⟩
  | none =>
    rw [extractDescription_fallback body hp]
    by_cases hl : (deleteMarkers body).length > 150
    · rw [if_pos hl]
      have h1 : TrimSpace ((deleteMarkers body).take 147) <:+: deleteMarkers body :=
        (TrimSpace_piece _).trans ( List.take_prefix 147 _).isInfix
      have h2 : (TrimSpace ((deleteMarkers body).take 147)).length ≤ 147 := by
        have := TrimSpace_length_le ((deleteMarkers body).take 147)
        rw [List.length_take] at this
        omega
      exact ⟨_, h1, by omega, Or.inr ⟨h2, rfl⟩⟩
    · rw [if_neg hl]
      have := TrimSpace_length_le (deleteMarkers body)
      exact ⟨_, TrimSpace_piece _, by omega, Or.inl rfl⟩
theorem infix_filter_of (f : Nat → Bool) (l q : GoString) (h : q <:+: l.filter f) :
    ∃ seg, seg <:+: l ∧ seg.filter f = q := by
  obtain ⟨a, b, e⟩ := h
  obtain ⟨l1, l2, hl, h1, _⟩ := List.filter_eq_append_iff.1 e.symm
  obtain ⟨l3, l4, hl3, _, h4⟩ := List.filter_eq_append_iff.1 h1
  exact ⟨l4, ⟨l3, l2, by rw [hl, hl3]⟩, h4⟩

/-! ## Marker deletion, fallback and length of the description (C11 to C13) -/

/-- C11: the description never contains `#`, `*` or `_`; the chosen paragraph
is a stretch of the body with exactly these three characters deleted, the other
characters kept in order (the description is that paragraph, or its first 147
bytes and an ellipsis); `snake_case` gives `snakecase` and
`**Bold text** and *italic*` gives `Bold text and italic`. -/
theorem extractDescription_deletes_markers (body : GoString) :
    (∀ c ∈ extractDescription body, c ≠ 35 ∧ c ≠ 42 ∧ c ≠ 95) ∧
    (∀ p, firstParagraphOf body = some p →
      (∃ seg, seg <:+: body ∧ seg.filter (fun c => c != 35 && c != 42 && c != 95) = p) ∧
      p.Sublist body ∧
      (extractDescription body = p ∨ extractDescription body = p.take 147 ++ bytes "...")) ∧
    extractDescription (bytes "snake_case") = bytes "snakecase" ∧
    extractDescription (bytes "**Bold text** and *italic*") = bytes "Bold text and italic" := by
  refine ⟨?_, ?_, by decide, by decide⟩
  · intro c hc
    obtain ⟨q, hq, _, h | ⟨_, h⟩⟩ := extractDescription_piece body
    · rw [h] at hc
      exact deleteMarkers_no_marker body c (hq.subset hc)
    · rw [h] at hc
      rcases List.mem_append.1 hc with h1 | h1
      · exact deleteMarkers_no_marker body c (hq.subset h1)
      · rw [bytes_ellipsis] at h1
        simp only [List.mem_cons, List.mem_singleton, List.not_mem_nil, or_false, or_self] at h1
        subst h1
        decide
  · intro p hp
    have hinf := firstParagraphOf_piece body p hp
    refine ⟨infix_filter_of _ body p hinf, hinf.sublist.trans (List.filter_sublist body), ?_⟩
    rw [extractDescription_of_paragraph body p hp]
    split
    · exact Or.inr rfl
    · exact Or.inl rfl

/-- Witness of C11: the heading of the test body, `#` deleted, is the chosen paragraph. -/
theorem extractDescription_deletes_markers_witness :
    firstParagraphOf (bytes "# Heading\n\n**Bold text** and *italic* formatting.") =
      some (bytes "Heading") ∧
    (∃ seg, seg <:+: bytes "# Heading\n\n**Bold text** and *italic* formatting." ∧
      seg.filter (fun c => c != 35 && c != 42 && c != 95) = bytes "Heading") ∧
    (bytes "Heading").Sublist (bytes "# Heading\n\n**Bold text** and *italic* formatting.") :=
  ⟨by decide,
   ((extractDescription_deletes_markers
      (bytes "# Heading\n\n**Bold text** and *italic* formatting.")).2.1
      (bytes "Heading") (by decide)).1,
   ((extractDescription_deletes_markers
      (bytes "# Heading\n\n**Bold text** and *italic* formatting.")).2.1
      (bytes "Heading") (by decide)).2.1⟩

/-- C12, counterexample: a body of 151 spaces has no paragraph; the first 150
characters, trimmed, are the empty string, but the description is `...`. -/
theorem extractDescription_fallback_counterexample :
    firstParagraphOf (List.replicate 151 32) = none ∧
    deleteMarkers (List.replicate 151 32) = List.replicate 151 32 ∧
    TrimSpace ((List.replicate 151 32).take 150) = [] ∧
    TrimSpace (runePrefix 150 (List.replicate 151 32)) = [] ∧
    extractDescription (List.replicate 151 32) = bytes "..." ∧
    extractDescription (List.replicate 151 32) ≠ [] := by
  set_option maxRecDepth 100000 in
  decide

/-- C12, amended: when the stripped text has no block that is non-empty once
trimmed, the description is the whole stripped text trimmed when that text
takes at most 150 bytes, and otherwise its first 147 bytes, trimmed, followed by
an ellipsis. -/
theorem extractDescription_no_paragraph (body : GoString)
    (h : firstNonEmptyBlock (Split (deleteMarkers body) (bytes "\n\n")) = none) :
    ((deleteMarkers body).length ≤ 150 →
      extractDescription body = TrimSpace (deleteMarkers body)) ∧
    ((deleteMarkers body).length > 150 →
      extractDescription body = TrimSpace ((deleteMarkers body).take 147) ++ bytes "...") := by
  have hf := extractDescription_fallback body h
  refine ⟨fun hl => ?_, fun hl => ?_⟩
  · rw [hf, if_neg (by omega)]
  · rw [hf, if_pos hl]

/-- Witness of the amended C12: blocks of white space only. -/
theorem extractDescription_no_paragraph_witness :
    firstNonEmptyBlock (Split (deleteMarkers (bytes " \n\n\t# \n\n")) (bytes "\n\n")) = none ∧
    ((deleteMarkers (bytes " \n\n\t# \n\n")).length ≤ 150 →
      extractDescription (bytes " \n\n\t# \n\n") =
        TrimSpace (deleteMarkers (bytes " \n\n\t# \n\n"))) ∧
    extractDescription (bytes " \n\n\t# \n\n") = [] :=
  ⟨by decide, (extractDescription_no_paragraph (bytes " \n\n\t# \n\n") (by decide)).1,
   by decide⟩

/-- C13: whatever the body, the description takes at most 150 bytes, hence at
most 150 characters. -/
theorem extractDescription_length_le (body : GoString) :
    (extractDescription body).length ≤ 150 ∧ runeCount (extractDescription body) ≤ 150 := by
  have hlen : (extractDescription body).length ≤ 150 := by
    obtain ⟨q, _, hq, h | ⟨hq2, h⟩⟩ := extractDescription_piece body
    · rw [h]; exact hq
    · rw [h, List.length_append, bytes_ellipsis]
      simp only [List.length_cons, List.length_nil]
      omega
  exact ⟨hlen, (runeCountAux_le _ 0).trans hlen⟩
/-! ## Description precedence (C14) -/

/-- C14: a non-empty front matter description is the description of the post as
it is, whatever the body and however long it is; an empty one gives
`extractDescription` of the content left by `frontmatter.Parse` (the whole file
when parsing failed). -/
theorem processMarkdownFile_description
    (readFile : GoString → Except GoString GoString)
    (parseFrontmatter : GoString → FrontMatter × Option GoString)
    (toHTML : GoString → GoString) (filePath template fileContent : GoString)
    (hread : readFile filePath = .ok fileContent) :
    ∃ out page post,
      processMarkdownFile readFile parseFrontmatter toHTML filePath template =
        .ok (out, page, post) ∧
      ((parseFrontmatter fileContent).1.Description ≠ [] →
        post.Description = (parseFrontmatter fileContent).1.Description) ∧
      ((parseFrontmatter fileContent).1.Description = [] →
        post.Description = extractDescription
          (match (parseFrontmatter fileContent).2 with
            | some rest => rest
            | none => fileContent)) := by
  refine ⟨_, _, _, processMarkdownFile_ok readFile parseFrontmatter toHTML filePath template
    fileContent hread, ?_, ?_⟩
  · intro h
    simp only [if_neg h]
  · intro h
    simp only [if_pos h]

/-- Witness of C14 on the file `test-with-description.md` of the tests. -/
theorem processMarkdownFile_description_witness :
    readOK (bytes "# Heading\nThis is a test.") (bytes "content/test-with-description.md") =
      .ok (bytes "# Heading\nThis is a test.") ∧
    (describedFrontmatter (bytes "# Heading\nThis is a test.")).1.Description ≠ [] ∧
    ∃ out page post,
      processMarkdownFile (readOK (bytes "# Heading\nThis is a test.")) describedFrontmatter id
          (bytes "content/test-with-description.md") (bytes "\x7b\x7bcontent\x7d\x7d") =
        .ok (out, page, post) ∧
      post.Description = bytes "This is a custom description from frontmatter." := by
  obtain ⟨out, page, post, h, h1, _⟩ :=
    processMarkdownFile_description (readOK (bytes "# Heading\nThis is a test."))
      describedFrontmatter id (bytes "content/test-with-description.md")
      (bytes "\x7b\x7bcontent\x7d\x7d") (bytes "# Heading\nThis is a test.") rfl
  exact ⟨rfl, by decide, out, page, post, h, h1 (by decide)⟩

/-! ## Lemmas: extensions -/

theorem bytes_markdown : bytes ".markdown" = [46, 109, 97, 114, 107, 100, 111, 119, 110] := by
  decide

theorem bytes_html : bytes ".html" = [46, 104, 116, 109, 108] := by decide

theorem Ext_markdown (stem : GoString) :
    Ext (stem ++ bytes ".markdown") = bytes ".markdown" := by
  simp [Ext, bytes_markdown, extRev]

theorem stem_of_eligible (stem ext : GoString)
    (hext : ext = bytes ".md" ∨ ext = bytes ".markdown") :
    TrimSuffix (stem ++ ext) (Ext (stem ++ ext)) = stem := by
  rcases hext with rfl | rfl
  · exact stem_md stem
  · rw [Ext_markdown, TrimSuffix_append]

theorem Base_joinSimple (dir name : GoString) (hne : name ≠ []) (hslash : 47 ∉ name) :
    Base (joinSimple dir name) = name := by
  have hb : bytes "/" = [47] := by decide
  have hall : ∀ c ∈ name.reverse, (c != 47) = true := by
    intro c hc
    have : c ≠ 47 := fun e => hslash (e ▸ List.mem_reverse.1 hc)
    simpa using this
  have hrev : name.reverse ≠ [] := by simpa using hne
  obtain ⟨c, t, hct⟩ := List.exists_cons_of_ne_nil hrev
  have hc : (c == 47) = false := by
    have := hall c (by rw [hct]; exact List.mem_cons_self c t)
    simpa using this
  have hdrop : List.dropWhile (fun c => c == 47) (name.reverse ++ (47 :: dir.reverse)) =
      name.reverse ++ (47 :: dir.reverse) := by
    rw [hct]
    simp [List.dropWhile, hc]
  have htake : List.takeWhile (fun c => c != 47) (name.reverse ++ (47 :: dir.reverse)) =
      name.reverse := by
    rw [List.takeWhile_append_of_pos hall]
    simp [List.takeWhile]
  have hnil : dir ++ 47 :: name ≠ [] := by simp
  unfold Base joinSimple
  simp only [hb, List.append_assoc, List.singleton_append, hnil, if_false, List.reverse_append,
    List.reverse_cons, List.nil_append, hdrop, htake, hrev, List.reverse_reverse]

/-! ## Output names (C17, C18) -/

/-- C17: for a file name that ends in `.md` or `.markdown`, the output name is
the name with exactly that extension taken off and `.html` put on, whatever
other dots the name holds, and the post keeps the file name unchanged. -/
theorem processMarkdownFile_output_name
    (readFile : GoString → Except GoString GoString)
    (parseFrontmatter : GoString → FrontMatter × Option GoString)
    (toHTML : GoString → GoString) (filePath template fileContent stem ext : GoString)
    (hread : readFile filePath = .ok fileContent)
    (hname : Base filePath = stem ++ ext)
    (hext : ext = bytes ".md" ∨ ext = bytes ".markdown") :
    ∃ out page post,
      processMarkdownFile readFile parseFrontmatter toHTML filePath template =
        .ok (out, page, post) ∧
      out = stem ++ bytes ".html" ∧ post.OutputFile = stem ++ bytes ".html" ∧
      post.Filename = stem ++ ext := by
  refine ⟨_, _, _, processMarkdownFile_ok readFile parseFrontmatter toHTML filePath template
    fileContent hread, ?_, ?_, ?_⟩
  · simp only [hname, stem_of_eligible stem ext hext]
  · simp only [hname, stem_of_eligible stem ext hext]
  · simp only [hname]

/-- Witness of C17: `a.b.md` gives `a.b.html`. -/
theorem processMarkdownFile_output_name_witness :
    (Base (bytes "content/a.b.md") = bytes "a.b" ++ bytes ".md") ∧
    ∃ out page post,
      processMarkdownFile (readOK (bytes "text")) noFrontmatter id (bytes "content/a.b.md")
          (bytes "\x7b\x7bcontent\x7d\x7d") = .ok (out, page, post) ∧
      out = bytes "a.b" ++ bytes ".html" ∧ post.OutputFile = bytes "a.b" ++ bytes ".html" ∧
      post.Filename = bytes "a.b" ++ bytes ".md" :=
  ⟨by decide,
   processMarkdownFile_output_name (readOK (bytes "text")) noFrontmatter id
     (bytes "content/a.b.md") (bytes "\x7b\x7bcontent\x7d\x7d") (bytes "text") (bytes "a.b")
     (bytes ".md") rfl (by decide) (Or.inl rfl)⟩

/-- C18, counterexample: `a.md` and `a.markdown` are two eligible file names with
the one output name `a.html`, and `index.md` has the output name `index.html`
of the index. -/
theorem output_names_distinct_counterexample :
    bytes "a.md" ≠ bytes "a.markdown" ∧
    resultName (processMarkdownFile (readOK (bytes "one")) noFrontmatter id
      (bytes "content/a.md") (bytes "\x7b\x7bcontent\x7d\x7d")) = some (bytes "a.html") ∧
    resultName (processMarkdownFile (readOK (bytes "two")) noFrontmatter id
      (bytes "content/a.markdown") (bytes "\x7b\x7bcontent\x7d\x7d")) = some (bytes "a.html") ∧
    resultName (processMarkdownFile (readOK (bytes "page")) noFrontmatter id
      (bytes "content/index.md") (bytes "\x7b\x7bcontent\x7d\x7d")) =
        some (bytes "index.html") := by
  decide

/-- C18, amended: two eligible file names have the same output name exactly when
they are the same up to the extension `.md` or `.markdown`, so names with
different stems give different output names; and the output name is
`index.html` exactly for `index.md` and `index.markdown`. -/
theorem output_names_distinct
    (readFile : GoString → Except GoString GoString)
    (parseFrontmatter : GoString → FrontMatter × Option GoString)
    (toHTML : GoString → GoString)
    (path1 path2 template content1 content2 stem1 ext1 stem2 ext2 : GoString)
    (hread1 : readFile path1 = .ok content1) (hread2 : readFile path2 = .ok content2)
    (hname1 : Base path1 = stem1 ++ ext1) (hname2 : Base path2 = stem2 ++ ext2)
    (hext1 : ext1 = bytes ".md" ∨ ext1 = bytes ".markdown")
    (hext2 : ext2 = bytes ".md" ∨ ext2 = bytes ".markdown") :
    ∃ out1 page1 post1 out2 page2 post2,
      processMarkdownFile readFile parseFrontmatter toHTML path1 template =
        .ok (out1, page1, post1) ∧
      processMarkdownFile readFile parseFrontmatter toHTML path2 template =
        .ok (out2, page2, post2) ∧
      (out1 = out2 ↔ stem1 = stem2) ∧
      (out1 = bytes "index.html" ↔ stem1 = bytes "index") := by
  refine ⟨_, _, _, _, _, _,
    processMarkdownFile_ok readFile parseFrontmatter toHTML path1 template content1 hread1,
    processMarkdownFile_ok readFile parseFrontmatter toHTML path2 template content2 hread2,
    ?_, ?_⟩
  · simp only [hname1, hname2, stem_of_eligible stem1 ext1 hext1,
      stem_of_eligible stem2 ext2 hext2, List.append_left_inj]
  · have e : bytes "index.html" = bytes "index" ++ bytes ".html" := by decide
    simp only [hname1, stem_of_eligible stem1 ext1 hext1, e, List.append_left_inj]

/-- Witness of the amended C18: `a.md` and `b.markdown`. -/
theorem output_names_distinct_witness :
    (Base (bytes "content/a.md") = bytes "a" ++ bytes ".md" ∧
      Base (bytes "content/b.markdown") = bytes "b" ++ bytes ".markdown") ∧
    ∃ out1 page1 post1 out2 page2 post2,
      processMarkdownFile (readOK (bytes "text")) noFrontmatter id (bytes "content/a.md")
          (bytes "\x7b\x7bcontent\x7d\x7d") = .ok (out1, page1, post1) ∧
      processMarkdownFile (readOK (bytes "text")) noFrontmatter id (bytes "content/b.markdown")
          (bytes "\x7b\x7bcontent\x7d\x7d") = .ok (out2, page2, post2) ∧
      (out1 = out2 ↔ bytes "a" = bytes "b") ∧
      (out1 = bytes "index.html" ↔ bytes "a" = bytes "index") :=
  ⟨⟨by decide, by decide⟩,
   output_names_distinct (readOK (bytes "text")) noFrontmatter id (bytes "content/a.md")
     (bytes "content/b.markdown") (bytes "\x7b\x7bcontent\x7d\x7d") (bytes "text")
     (bytes "text") (bytes "a") (bytes ".md") (bytes "b") (bytes ".markdown") rfl rfl
     (by decide) (by decide) (Or.inl rfl) (Or.inr rfl)⟩

/-! ## Lemmas: `Time.Format` -/

theorem decimalAux_lt (fuel n : Nat) (acc : GoString) (h : n < 10) :
    decimalAux fuel n acc = (48 + n) :: acc := by
  have hd : digitByte n = 48 + n := by unfold digitByte; omega
  cases fuel with
  | zero => simp [decimalAux, hd]
  | succ f => simp [decimalAux, h, hd]

theorem decimalAux_ge (fuel n : Nat) (acc : GoString) (h : 10 ≤ n) :
    decimalAux (fuel + 1) n acc = decimalAux fuel (n / 10) ((48 + n % 10) :: acc) := by
  have h2 : ¬ n < 10 := by omega
  simp [decimalAux, h2, digitByte]

theorem decimal_day (d : Nat) (hd : d < 100) : decimal d = dayDigits d := by
  unfold decimal dayDigits
  by_cases h : d < 10
  · rw [decimalAux_lt d d [] h, if_pos h]
  · rw [if_neg h]
    obtain ⟨f, rfl⟩ : ∃ f, d = f + 1 := ⟨d - 1, by omega⟩
    rw [decimalAux_ge f (f + 1) [] (by omega), decimalAux_lt _ _ _ (by omega)]

theorem decimal_year (y : Nat) (hy : y < 10000) :
    List.replicate (4 - (decimal y).length) 48 ++ decimal y = pad4 y := by
  unfold decimal pad4
  by_cases h1 : y < 10
  · rw [decimalAux_lt y y [] h1]
    have e1 : y / 1000 % 10 = 0 := by omega
    have e2 : y / 100 % 10 = 0 := by omega
    have e3 : y / 10 % 10 = 0 := by omega
    have e4 : y % 10 = y := by omega
    simp [e1, e2, e3, e4, List.replicate]
  · obtain ⟨f, rfl⟩ : ∃ f, y = f + 1 := ⟨y - 1, by omega⟩
    rw [decimalAux_ge f (f + 1) [] (by omega)]
    by_cases h2 : f + 1 < 100
    · rw [decimalAux_lt _ _ _ (by omega)]
      have e1 : (f + 1) / 1000 % 10 = 0 := by omega
      have e2 : (f + 1) / 100 % 10 = 0 := by omega
      have e3 : (f + 1) / 10 % 10 = (f + 1) / 10 := by omega
      simp [e1, e2, e3, List.replicate]
    · obtain ⟨g, rfl⟩ : ∃ g, f = g + 1 := ⟨f - 1, by omega⟩
      rw [decimalAux_ge g _ _ (by omega)]
      by_cases h3 : g + 1 + 1 < 1000
      · rw [decimalAux_lt _ _ _ (by omega)]
        have e1 : (g + 1 + 1) / 1000 % 10 = 0 := by omega
        have e2 : (g + 1 + 1) / 100 % 10 = (g + 1 + 1) / 10 / 10 := by omega
        simp [e1, e2, List.replicate]
      · obtain ⟨k, rfl⟩ : ∃ k, g = k + 1 := ⟨g - 1, by omega⟩
        rw [decimalAux_ge k _ _ (by omega), decimalAux_lt _ _ _ (by omega)]
        have e1 : (k + 1 + 1 + 1) / 1000 % 10 = (k + 1 + 1 + 1) / 10 / 10 / 10 := by omega
        have e2 : (k + 1 + 1 + 1) / 100 % 10 = (k + 1 + 1 + 1) / 10 / 10 % 10 := by omega
        simp [e1, e2, List.replicate]

theorem monthName_eq (m : Nat) (h1 : 1 ≤ m) (h2 : m ≤ 12) : monthName m = englishMonth m := by
  interval_cases m <;> rfl

theorem Format_eq (y m d : Nat) (hvalid : validDate y m d = true) (hy : y < 10000) :
    Time.Format ⟨y, m, d⟩ = longDate y m d := by
  simp only [validDate, Bool.and_eq_true, decide_eq_true_eq] at hvalid
  obtain ⟨⟨⟨h1, h2⟩, _⟩, h4⟩ := hvalid
  have hd : d < 100 := by
    have : daysIn m y ≤ 31 := by
      unfold daysIn
      split
      · split <;> omega
      · split <;> omega
    omega
  unfold Time.Format longDate
  simp only [monthName_eq m h1 h2, decimal_day d hd, List.append_assoc, decimal_year y hy]
/-! ## The index entry (C16) -/

/-- C16: for a post whose date is a calendar date (year below 10000) other than
the zero date, the entry is the list item with the date written as the English
month name, the day without leading zero, a comma and the four-digit year, then
the link to the output file with the title, and the description, each inserted
as it is, and a newline; it is among the entries of every index built from
posts that include the post.  2023-01-15 is written `January 15, 2023`. -/
theorem indexEntry_format (post : BlogPost) (y m d : Nat)
    (hdate : post.Date = ⟨y, m, d⟩) (hvalid : validDate y m d = true) (hy : y < 10000)
    (hz : post.Date.IsZero = false) :
    indexEntry post =
      bytes "<li><strong>" ++ longDate y m d ++ bytes "</strong> - <a href=\"" ++
        post.OutputFile ++ bytes "\">" ++ post.Title ++ bytes "</a><p>" ++
        post.Description ++ bytes "</p></li>\n" ∧
    (∀ sortSlice, SortSliceContract sortSlice →
      ∀ (joinPath : GoString → GoString → GoString)
        (writeFile : GoString → GoString → Option GoString)
        (posts : List BlogPost) (template buildDir : GoString), post ∈ posts →
        indexEntry post ∈ indexEntries
          (generateIndex sortSlice joinPath writeFile posts template buildDir).posts) ∧
    longDate 2023 1 15 = bytes "January 15, 2023" := by
  refine ⟨?_, ?_, by decide⟩
  · unfold indexEntry
    rw [hdate, Format_eq y m d hvalid hy]
  · intro sortSlice hsort joinPath writeFile posts template buildDir hmem
    exact indexEntry_mem_of_dated sortSlice hsort posts post hmem hz

/-- Witness of C16: the entry of the first post of `TestGenerateIndex`. -/
theorem indexEntry_format_witness :
    (testPost1.Date = ⟨2023, 1, 15⟩ ∧ validDate 2023 1 15 = true ∧
      testPost1.Date.IsZero = false) ∧
    indexEntry testPost1 =
      bytes "<li><strong>January 15, 2023</strong> - <a href=\"2023-01-15-first-post.html\">First Post</a><p>This is the first test post with a date.</p></li>\n" := by
  have h := (indexEntry_format testPost1 2023 1 15 rfl (by decide) (by decide) (by decide)).1
  refine ⟨⟨rfl, by decide, by decide⟩, ?_⟩
  rw [h]
  decide

/-! ## Lemmas: replacement in a template made of pieces -/

theorem titlePlaceholder_eq : titlePlaceholder = [123, 123, 116, 105, 116, 108, 101, 125, 125] := by
  decide

theorem contentPlaceholder_eq :
    contentPlaceholder = [123, 123, 99, 111, 110, 116, 101, 110, 116, 125, 125] := by
  decide

theorem replaceAux_zero_cons (old new : GoString) (b : Nat) (rest : GoString) :
    replaceAux old new 0 (b :: rest) =
      if old.isPrefixOf (b :: rest) then new ++ replaceAux old new (old.length - 1) rest
      else b :: replaceAux old new 0 rest := by
  rw [replaceAux]

theorem replaceAux_succ_cons (old new : GoString) (k b : Nat) (rest : GoString) :
    replaceAux old new (k + 1) (b :: rest) = replaceAux old new k rest := by
  rw [replaceAux]

theorem replaceAux_skip (old new x rest : GoString) :
    replaceAux old new x.length (x ++ rest) = replaceAux old new 0 rest := by
  induction x with
  | nil => rfl
  | cons c x ih =>
    rw [List.length_cons, List.cons_append, replaceAux_succ_cons]
    exact ih

theorem replaceAux_plain (old' new x rest : GoString) (hx : 123 ∉ x) :
    replaceAux (123 :: old') new 0 (x ++ rest) = x ++ replaceAux (123 :: old') new 0 rest := by
  induction x with
  | nil => rfl
  | cons c x ih =>
    have hc : (123 == c) = false := by
      have : ¬ 123 = c := fun e => hx (e ▸ List.mem_cons_self _ _)
      simpa using this
    have hx2 : 123 ∉ x := fun h => hx (List.mem_cons_of_mem _ h)
    have hp : (123 :: old').isPrefixOf (c :: (x ++ rest)) = false := by
      simp [List.isPrefixOf, hc]
    rw [List.cons_append, replaceAux_zero_cons, hp, ih hx2]
    rfl

theorem replaceAux_match (old' new rest : GoString) :
    replaceAux (123 :: old') new 0 ((123 :: old') ++ rest) =
      new ++ replaceAux (123 :: old') new 0 rest := by
  have hp : (123 :: old').isPrefixOf (123 :: (old' ++ rest)) = true := by
    rw [ List.isPrefixOf_iff_prefix]
    exact List.prefix_append (123 :: old') rest
  rw [List.cons_append, replaceAux_zero_cons, hp, if_pos rfl, List.length_cons,
    Nat.add_sub_cancel, replaceAux_skip]

theorem replaceAux_title_over_content (new rest : GoString) :
    replaceAux titlePlaceholder new 0 (contentPlaceholder ++ rest) =
      contentPlaceholder ++ replaceAux titlePlaceholder new 0 rest := by
  rw [titlePlaceholder_eq, contentPlaceholder_eq]
  simp only [List.cons_append, List.nil_append]
  rw [replaceAux_zero_cons, if_neg (by simp [List.isPrefixOf]),
    replaceAux_zero_cons, if_neg (by simp [List.isPrefixOf])]
  have h := replaceAux_plain [123, 116, 105, 116, 108, 101, 125, 125] new
    [99, 111, 110, 116, 101, 110, 116, 125, 125] rest (by decide)
  simp only [List.cons_append, List.nil_append] at h
  rw [h]

theorem replace_title_pieces (segs : List Segment) (title : GoString)
    (hsegs : plainPieces segs) :
    ReplaceAll (renderTemplate segs) titlePlaceholder title =
      (segs.map (Segment.fillTitle title)).flatten := by
  unfold ReplaceAll renderTemplate
  induction segs with
  | nil => rfl
  | cons seg rest ih =>
    have hrest : plainPieces rest := fun t ht => hsegs t (List.mem_cons_of_mem _ ht)
    simp only [List.map_cons, List.flatten_cons]
    cases seg with
    | text x =>
      have hx : 123 ∉ x := fun h => (hsegs x (List.mem_cons_self _ _) 123 h).1 rfl
      have := replaceAux_plain [123, 116, 105, 116, 108, 101, 125, 125] title x
        ((rest.map Segment.render).flatten) hx
      rw [← titlePlaceholder_eq] at this
      rw [Segment.render, Segment.fillTitle, this, ih hrest]
    | title =>
      have := replaceAux_match [123, 116, 105, 116, 108, 101, 125, 125] title
        ((rest.map Segment.render).flatten)
      rw [← titlePlaceholder_eq] at this
      rw [Segment.render, Segment.fillTitle, this, ih hrest]
    | content =>
      rw [Segment.render, Segment.fillTitle, replaceAux_title_over_content, ih hrest]

theorem replace_content_pieces (segs : List Segment) (title content : GoString)
    (hsegs : plainPieces segs) (ht : braceFree title) :
    ReplaceAll ((segs.map (Segment.fillTitle title)).flatten) contentPlaceholder content =
      (segs.map (Segment.fill title content)).flatten := by
  unfold ReplaceAll
  induction segs with
  | nil => rfl
  | cons seg rest ih =>
    have hrest : plainPieces rest := fun t ht => hsegs t (List.mem_cons_of_mem _ ht)
    simp only [List.map_cons, List.flatten_cons]
    cases seg with
    | text x =>
      have hx : 123 ∉ x := fun h => (hsegs x (List.mem_cons_self _ _) 123 h).1 rfl
      have := replaceAux_plain [123, 99, 111, 110, 116, 101, 110, 116, 125, 125] content x
        ((rest.map (Segment.fillTitle title)).flatten) hx
      rw [← contentPlaceholder_eq] at this
      rw [Segment.fillTitle, Segment.fill, this, ih hrest]
    | title =>
      have hx : 123 ∉ title := fun h => (ht 123 h).1 rfl
      have := replaceAux_plain [123, 99, 111, 110, 116, 101, 110, 116, 125, 125] content title
        ((rest.map (Segment.fillTitle title)).flatten) hx
      rw [← contentPlaceholder_eq] at this
      rw [Segment.fillTitle, Segment.fill, this, ih hrest]
    | content =>
      have := replaceAux_match [123, 99, 111, 110, 116, 101, 110, 116, 125, 125] content
        ((rest.map (Segment.fillTitle title)).flatten)
      rw [← contentPlaceholder_eq] at this
      rw [Segment.fillTitle, Segment.fill, this, ih hrest]

theorem assemblePage_pieces (segs : List Segment) (title content : GoString)
    (hsegs : plainPieces segs) (ht : braceFree title) :
    assemblePage (renderTemplate segs) title content =
      (segs.map (Segment.fill title content)).flatten := by
  unfold assemblePage
  rw [replace_title_pieces segs title hsegs, replace_content_pieces segs title content hsegs ht]

theorem filled_braceFree (segs : List Segment) (title content : GoString)
    (hsegs : plainPieces segs) (ht : braceFree title) (hc : braceFree content) :
    braceFree ((segs.map (Segment.fill title content)).flatten) := by
  intro c hmem
  obtain ⟨l, hl, hcl⟩ := List.mem_flatten.1 hmem
  obtain ⟨seg, hseg, rfl⟩ := List.mem_map.1 hl
  cases seg with
  | text x => exact hsegs x hseg c hcl
  | title => exact ht c hcl
  | content => exact hc c hcl

theorem processMarkdownFile_page (readFile : GoString → Except GoString GoString)
    (parseFrontmatter : GoString → FrontMatter × Option GoString)
    (toHTML : GoString → GoString) (filePath template fileContent : GoString)
    (hread : readFile filePath = .ok fileContent) :
    ∃ out post,
      processMarkdownFile readFile parseFrontmatter toHTML filePath template =
        .ok (out, assemblePage template post.Title
          (toHTML (match (parseFrontmatter fileContent).2 with
            | some rest => rest
            | none => fileContent)), post) := by
  refine ⟨TrimSuffix (Base filePath) (Ext (Base filePath)) ++ bytes ".html",
    { Title := if (parseFrontmatter fileContent).1.Title = [] then
        (dateAndTitle (TrimSuffix (Base filePath) (Ext (Base filePath)))).2
       else (parseFrontmatter fileContent).1.Title,
      Date := (dateAndTitle (TrimSuffix (Base filePath) (Ext (Base filePath)))).1,
      Filename := Base filePath,
      OutputFile := TrimSuffix (Base filePath) (Ext (Base filePath)) ++ bytes ".html",
      Description := if (parseFrontmatter fileContent).1.Description = [] then
        extractDescription (match (parseFrontmatter fileContent).2 with
          | some rest => rest
          | none => fileContent)
       else (parseFrontmatter fileContent).1.Description }, ?_⟩
  exact processMarkdownFile_ok readFile parseFrontmatter toHTML filePath template
    fileContent hread

/-! ## Page assembly (C15) -/

/-- C15, counterexample: a content that holds the text of the title placeholder
leaves an occurrence of it in the page; a title that is the text of the content
placeholder is replaced by the content and is not in the page; and in the
template `{{{{title}}itle}}{{content}}` the title `t` builds a new title
placeholder, which stays. -/
theorem assemblePage_counterexample :
    (titlePlaceholder <:+: bytes "<h1>\x7b\x7btitle\x7d\x7d</h1>\x7b\x7bcontent\x7d\x7d" ∧
      contentPlaceholder <:+: bytes "<h1>\x7b\x7btitle\x7d\x7d</h1>\x7b\x7bcontent\x7d\x7d") ∧
    titlePlaceholder <:+:
      assemblePage (bytes "<h1>\x7b\x7btitle\x7d\x7d</h1>\x7b\x7bcontent\x7d\x7d") (bytes "Post")
        (bytes "<p>write \x7b\x7btitle\x7d\x7d</p>") ∧
    ¬ (bytes "\x7b\x7bcontent\x7d\x7d" <:+:
      assemblePage (bytes "<h1>\x7b\x7btitle\x7d\x7d</h1>\x7b\x7bcontent\x7d\x7d")
        (bytes "\x7b\x7bcontent\x7d\x7d") (bytes "<p>text</p>")) ∧
    titlePlaceholder <:+:
      assemblePage (bytes "\x7b\x7b\x7b\x7btitle\x7d\x7ditle\x7d\x7d\x7b\x7bcontent\x7d\x7d")
        (bytes "t") (bytes "c") := by
  decide

/-- C15, amended: for a template whose braces all belong to occurrences of the
two placeholders, with at least one of each, and a title and a content without
braces, the assembled page is the template with each placeholder filled in: it
holds no occurrence of either placeholder and it holds the title and the
content.  The page of `processMarkdownFile` is assembled in this way. -/
theorem assemblePage_round_trip (segs : List Segment) (title content : GoString)
    (hsegs : plainPieces segs) (ht : braceFree title) (hc : braceFree content)
    (htitle : Segment.title ∈ segs) (hcontent : Segment.content ∈ segs) :
    assemblePage (renderTemplate segs) title content =
      (segs.map (Segment.fill title content)).flatten ∧
    ¬ titlePlaceholder <:+: assemblePage (renderTemplate segs) title content ∧
    ¬ contentPlaceholder <:+: assemblePage (renderTemplate segs) title content ∧
    title <:+: assemblePage (renderTemplate segs) title content ∧
    content <:+: assemblePage (renderTemplate segs) title content ∧
    (∀ (readFile : GoString → Except GoString GoString)
      (parseFrontmatter : GoString → FrontMatter × Option GoString)
      (toHTML : GoString → GoString) (filePath fileContent : GoString),
      readFile filePath = .ok fileContent →
      ∃ out post,
        processMarkdownFile readFile parseFrontmatter toHTML filePath (renderTemplate segs) =
          .ok (out, assemblePage (renderTemplate segs) post.Title
            (toHTML (match (parseFrontmatter fileContent).2 with
              | some rest => rest
              | none => fileContent)), post)) := by
  have hpage := assemblePage_pieces segs title content hsegs ht
  have hfree := filled_braceFree segs title content hsegs ht hc
  refine ⟨hpage, ?_, ?_, ?_, ?_, ?_⟩
  · rw [hpage]
    intro h
    exact (hfree 123 (h.subset (by rw [titlePlaceholder_eq]; exact List.mem_cons_self _ _))).1 rfl
  · rw [hpage]
    intro h
    exact (hfree 123
      (h.subset (by rw [contentPlaceholder_eq]; exact List.mem_cons_self _ _))).1 rfl
  · rw [hpage]
    exact List.infix_of_mem_flatten (List.mem_map.2 ⟨_, htitle, rfl⟩)
  · rw [hpage]
    exact List.infix_of_mem_flatten (List.mem_map.2 ⟨_, hcontent, rfl⟩)
  · intro readFile parseFrontmatter toHTML filePath fileContent hread
    exact processMarkdownFile_page readFile parseFrontmatter toHTML filePath _ fileContent hread

/-- Witness of the amended C15: the template of the tests, the title `Test Title`
and the page body of the end-to-end test. -/
theorem assemblePage_round_trip_witness :
    (plainPieces testTemplateSegments ∧ braceFree (bytes "Test Title") ∧
      braceFree (bytes "<h1>Heading</h1>") ∧ Segment.title ∈ testTemplateSegments ∧
      Segment.content ∈ testTemplateSegments) ∧
    assemblePage (renderTemplate testTemplateSegments) (bytes "Test Title")
        (bytes "<h1>Heading</h1>") =
      bytes "<html><head><title>Test Title</title></head><body><h1>Heading</h1></body></html>" := by
  have hp : plainPieces testTemplateSegments := by
    intro t ht
    simp only [testTemplateSegments, List.mem_cons, Segment.text.injEq, List.mem_singleton,
      List.not_mem_nil, or_false, false_or, reduceCtorEq] at ht
    rcases ht with rfl | rfl | rfl <;> decide
  have h := (assemblePage_round_trip testTemplateSegments (bytes "Test Title")
    (bytes "<h1>Heading</h1>") hp (by decide) (by decide) (by decide) (by decide)).1
  refine ⟨⟨hp, by decide, by decide, by decide, by decide⟩, ?_⟩
  rw [h]
  decide

/-! ## Lemmas: the loop of `generateSite` -/

theorem processFile_trace_length {σ : Type} (os : OS σ)
    (parseFrontmatter : GoString → FrontMatter × Option GoString)
    (toHTML : GoString → GoString) (contentDir buildDir template : GoString)
    (st : LoopState σ) (file : DirEntry) :
    (processFile os parseFrontmatter toHTML contentDir buildDir template st file).trace.length =
      st.trace.length + (if eligible file then 1 else 0) := by
  unfold processFile eligible
  split
  · rename_i h
    simp [h]
  · rename_i h
    have h2 : (file.IsDir ||
      (!HasSuffix file.Name (bytes ".md") && !HasSuffix file.Name (bytes ".markdown"))) = false := by
      simpa using h
    simp only [h2, Bool.not_false, if_true]
    split
    · simp
    · split <;> simp

theorem foldl_processFile_trace_length {σ : Type} (os : OS σ)
    (parseFrontmatter : GoString → FrontMatter × Option GoString)
    (toHTML : GoString → GoString) (contentDir buildDir template : GoString)
    (files : List DirEntry) (st : LoopState σ) :
    (files.foldl (processFile os parseFrontmatter toHTML contentDir buildDir template)
      st).trace.length = st.trace.length + (files.filter eligible).length := by
  induction files generalizing st with
  | nil => simp
  | cons file rest ih =>
    rw [List.foldl_cons, ih, processFile_trace_length, List.filter_cons]
    split
    · simp only [List.length_cons]
      omega
    · simp only [Nat.add_zero]

theorem indexStep_err {σ : Type} (os : OS σ)
    (sortSlice : (BlogPost → BlogPost → Bool) → List BlogPost → List BlogPost)
    (st : LoopState σ) (template buildDir : GoString) :
    (indexStep os sortSlice st template buildDir).err = none ∧
    (indexStep os sortSlice st template buildDir).fileTrace = st.trace ∧
    (indexStep os sortSlice st template buildDir).blogPosts = st.blogPosts := by
  unfold indexStep
  split <;> exact ⟨rfl, rfl, rfl⟩

theorem generateSite_ok {σ : Type} (os : OS σ)
    (sortSlice : (BlogPost → BlogPost → Bool) → List BlogPost → List BlogPost)
    (parseFrontmatter : GoString → FrontMatter × Option GoString)
    (toHTML : GoString → GoString) (fs fs1 : σ)
    (contentDir buildDir templatePath template : GoString) (files : List DirEntry)
    (hbuild : ensureBuildDir os fs buildDir = (fs1, none))
    (htemplate : os.statNotExist fs1 templatePath = false)
    (hread : os.readFile fs1 templatePath = .ok template)
    (hcontent : os.statNotExist fs1 contentDir = false)
    (hlist : os.readDir fs1 contentDir = .ok files) :
    generateSite os sortSlice parseFrontmatter toHTML fs contentDir buildDir templatePath =
      indexStep os sortSlice
        (files.foldl (processFile os parseFrontmatter toHTML contentDir buildDir template)
          { fs := fs1, blogPosts := [], trace := [] })
        template buildDir := by
  unfold generateSite
  simp [hbuild, htemplate, hread, hcontent, hlist]

theorem generateSite_err_iff {σ : Type} (os : OS σ)
    (sortSlice : (BlogPost → BlogPost → Bool) → List BlogPost → List BlogPost)
    (parseFrontmatter : GoString → FrontMatter × Option GoString)
    (toHTML : GoString → GoString) (fs : σ)
    (contentDir buildDir templatePath : GoString) :
    (generateSite os sortSlice parseFrontmatter toHTML fs contentDir buildDir templatePath).err =
        none ↔
      ((ensureBuildDir os fs buildDir).2 = none ∧
        os.statNotExist (ensureBuildDir os fs buildDir).1 templatePath = false ∧
        (∃ template, os.readFile (ensureBuildDir os fs buildDir).1 templatePath = .ok template) ∧
        os.statNotExist (ensureBuildDir os fs buildDir).1 contentDir = false ∧
        (∃ files, os.readDir (ensureBuildDir os fs buildDir).1 contentDir = .ok files)) := by
  rcases hb : ensureBuildDir os fs buildDir with ⟨fs1, _ | err⟩
  · cases ht : os.statNotExist fs1 templatePath
    · cases hr : os.readFile fs1 templatePath with
      | error e =>
        unfold generateSite
        simp [hb, ht, hr, SiteRun.failed]
      | ok template =>
        cases hc : os.statNotExist fs1 contentDir
        · cases hl : os.readDir fs1 contentDir with
          | error e =>
            unfold generateSite
            simp [hb, ht, hr, hc, hl, SiteRun.failed]
          | ok files =>
            rw [generateSite_ok os sortSlice parseFrontmatter toHTML fs fs1 contentDir buildDir
              templatePath template files hb ht hr hc hl]
            simp [(indexStep_err os sortSlice _ template buildDir).1]
        · unfold generateSite
          simp [hb, ht, hr, hc, SiteRun.failed]
    · unfold generateSite
      simp [hb, ht, SiteRun.failed]
  · unfold generateSite
    simp [hb, SiteRun.failed]

theorem eligible_iff (file : DirEntry) :
    eligible file = true ↔
      (file.IsDir ||
        (!HasSuffix file.Name (bytes ".md") && !HasSuffix file.Name (bytes ".markdown"))) =
          false := by
  unfold eligible
  cases (file.IsDir ||
    (!HasSuffix file.Name (bytes ".md") && !HasSuffix file.Name (bytes ".markdown"))) <;> simp

theorem processFile_read_failure {σ : Type} (os : OS σ)
    (parseFrontmatter : GoString → FrontMatter × Option GoString)
    (toHTML : GoString → GoString) (contentDir buildDir template : GoString)
    (st : LoopState σ) (file : DirEntry) (err : GoString) (helig : eligible file = true)
    (hread : os.readFile st.fs (os.joinPath contentDir file.Name) = .error err) :
    (processFile os parseFrontmatter toHTML contentDir buildDir template st file).blogPosts =
      st.blogPosts ∧
    (processFile os parseFrontmatter toHTML contentDir buildDir template st file).trace =
      st.trace ++ [Event.logged (bytes "error reading file " ++
        os.joinPath contentDir file.Name ++ bytes ": " ++ err)] := by
  have h := (eligible_iff file).1 helig
  constructor
  · simp [processFile, h, processMarkdownFile, hread]
  · simp [processFile, h, processMarkdownFile, hread]

theorem processFile_read_ok {σ : Type} (os : OS σ)
    (parseFrontmatter : GoString → FrontMatter × Option GoString)
    (toHTML : GoString → GoString) (contentDir buildDir template : GoString)
    (st : LoopState σ) (file : DirEntry) (out page : GoString) (post : BlogPost)
    (helig : eligible file = true)
    (hfile : processMarkdownFile (os.readFile st.fs) parseFrontmatter toHTML
      (os.joinPath contentDir file.Name) template = .ok (out, page, post)) :
    (processFile os parseFrontmatter toHTML contentDir buildDir template st file).blogPosts =
      st.blogPosts ++ [post] ∧
    (processFile os parseFrontmatter toHTML contentDir buildDir template st file).trace =
      st.trace ++
        [match (os.writeFile st.fs (os.joinPath buildDir out) page).2 with
          | some err => Event.logged (bytes "Error writing output file " ++
              os.joinPath buildDir out ++ bytes ": " ++ err)
          | none => Event.generated (os.joinPath buildDir out)] := by
  have h := (eligible_iff file).1 helig
  unfold processFile
  simp only [h, Bool.false_eq_true, if_false, hfile]
  rcases hw : os.writeFile st.fs (os.joinPath buildDir out) page with ⟨fs2, _ | err⟩
  · exact ⟨rfl, rfl⟩
  · exact ⟨rfl, rfl⟩

/-! ## Per-file failures and the result of `generateSite` (C19, C20) -/

/-- C19, the run on the failing input: the first file cannot be read and the
page of the second cannot be written.  Both failures are logged; the first file
gives no post, but the second is in the collection handed to `generateIndex` and
has its entry in the index, though its page is not in the build directory. -/
theorem generateSite_unwritten_page_is_listed :
    brokenRun.err = none ∧
    brokenRun.fileTrace =
      [Event.logged (bytes "error reading file content/2023-01-15-first-post.md: no such file or directory"),
       Event.logged (bytes "Error writing output file build/2023-03-20-second-post.html: permission denied")] ∧
    brokenRun.blogPosts.map (fun p => p.Filename) = [bytes "2023-03-20-second-post.md"] ∧
    brokenRun.fs.files.lookup (bytes "build/2023-03-20-second-post.html") = none ∧
    brokenRun.index.map (fun run => indexEntries run.posts) =
      some [bytes "<li><strong>March 20, 2023</strong> - <a href=\"2023-03-20-second-post.html\">second post</a><p>Second.</p></li>\n"] ∧
    brokenRun.indexTrace = [Event.indexed (bytes "build/index.html")] := by
  set_option maxRecDepth 100000 in
  decide

/-- C20: `generateSite` returns no error exactly when the build directory exists
or could be created, the template exists and could be read, and the content
directory exists and could be listed; then, whatever reads and writes fail in
the loop and in the index step, every eligible entry of the listing is
processed: the loop puts out one line for each of them. -/
theorem generateSite_error_only_preconditions {σ : Type} (os : OS σ)
    (sortSlice : (BlogPost → BlogPost → Bool) → List BlogPost → List BlogPost)
    (parseFrontmatter : GoString → FrontMatter × Option GoString)
    (toHTML : GoString → GoString) (fs : σ)
    (contentDir buildDir templatePath : GoString) :
    ((generateSite os sortSlice parseFrontmatter toHTML fs contentDir buildDir
        templatePath).err = none ↔
      ((os.statNotExist fs buildDir = true → (os.mkdirAll fs buildDir).2 = none) ∧
        os.statNotExist (ensureBuildDir os fs buildDir).1 templatePath = false ∧
        (∃ template, os.readFile (ensureBuildDir os fs buildDir).1 templatePath = .ok template) ∧
        os.statNotExist (ensureBuildDir os fs buildDir).1 contentDir = false ∧
        (∃ files, os.readDir (ensureBuildDir os fs buildDir).1 contentDir = .ok files))) ∧
    (∀ template files,
      (os.statNotExist fs buildDir = true → (os.mkdirAll fs buildDir).2 = none) →
      os.statNotExist (ensureBuildDir os fs buildDir).1 templatePath = false →
      os.readFile (ensureBuildDir os fs buildDir).1 templatePath = .ok template →
      os.statNotExist (ensureBuildDir os fs buildDir).1 contentDir = false →
      os.readDir (ensureBuildDir os fs buildDir).1 contentDir = .ok files →
      (generateSite os sortSlice parseFrontmatter toHTML fs contentDir buildDir
        templatePath).err = none ∧
      (generateSite os sortSlice parseFrontmatter toHTML fs contentDir buildDir
        templatePath).fileTrace.length = (files.filter eligible).length) := by
  have hbuild : (ensureBuildDir os fs buildDir).2 = none ↔
      (os.statNotExist fs buildDir = true → (os.mkdirAll fs buildDir).2 = none) := by
    unfold ensureBuildDir
    cases os.statNotExist fs buildDir <;> simp
  refine ⟨?_, ?_⟩
  · rw [generateSite_err_iff, hbuild]
  · intro template files h1 h2 h3 h4 h5
    have hb : ensureBuildDir os fs buildDir = ((ensureBuildDir os fs buildDir).1, none) := by
      rw [← hbuild.2 h1]
    rw [generateSite_ok os sortSlice parseFrontmatter toHTML fs _ contentDir buildDir
      templatePath template files hb h2 h3 h4 h5]
    refine ⟨(indexStep_err os sortSlice _ template buildDir).1, ?_⟩
    rw [(indexStep_err os sortSlice _ template buildDir).2.1, foldl_processFile_trace_length]
    simp

/-- Witness of C20 on the broken site: no error is returned although both
eligible files fail, and both are processed. -/
theorem generateSite_error_only_preconditions_witness :
    (generateSite memOS (@insertionSort BlogPost) noFrontmatter id brokenSite (bytes "content")
      (bytes "build") (bytes "template.html")).err = none ∧
    (generateSite memOS (@insertionSort BlogPost) noFrontmatter id brokenSite (bytes "content")
      (bytes "build") (bytes "template.html")).fileTrace.length = 2 := by
  have h := (generateSite_error_only_preconditions memOS (@insertionSort BlogPost) noFrontmatter
    id brokenSite (bytes "content") (bytes "build") (bytes "template.html")).2
    (bytes "<h1>\x7b\x7btitle\x7d\x7d</h1>\x7b\x7bcontent\x7d\x7d")
    [{ Name := bytes "2023-01-15-first-post.md", IsDir := false },
     { Name := bytes "2023-03-20-second-post.md", IsDir := false },
     { Name := bytes "notes.txt", IsDir := false },
     { Name := bytes "drafts", IsDir := true }]
    (by decide) (by decide) rfl (by decide) rfl
  refine ⟨h.1, ?_⟩
  rw [h.2]
  decide

/-! ## Order of the input, split characters and the list element (C21, C23, C24) -/

/-- C21, counterexample: with two posts of the same day, the insertion sort (a
sort that meets the contract of `sort.Slice`, and a stable one) lists them in
the order of the input, so the two orders of the input give two different
index pages. -/
theorem generateIndex_input_order_counterexample :
    SortSliceContract (@insertionSort BlogPost) ∧
    [tiePostA, tiePostB].Perm [tiePostB, tiePostA] ∧
    indexEntries (generateIndex (@insertionSort BlogPost) joinSimple (fun _ _ => none)
        [tiePostA, tiePostB] (bytes "\x7b\x7bcontent\x7d\x7d") (bytes "build")).posts =
      [indexEntry tiePostA, indexEntry tiePostB] ∧
    indexEntries (generateIndex (@insertionSort BlogPost) joinSimple (fun _ _ => none)
        [tiePostB, tiePostA] (bytes "\x7b\x7bcontent\x7d\x7d") (bytes "build")).posts =
      [indexEntry tiePostB, indexEntry tiePostA] ∧
    (generateIndex (@insertionSort BlogPost) joinSimple (fun _ _ => none)
        [tiePostA, tiePostB] (bytes "\x7b\x7bcontent\x7d\x7d") (bytes "build")).output ≠
      (generateIndex (@insertionSort BlogPost) joinSimple (fun _ _ => none)
        [tiePostB, tiePostA] (bytes "\x7b\x7bcontent\x7d\x7d") (bytes "build")).output := by
  refine ⟨insertionSort_contract, List.Perm.swap _ _ _, by decide, by decide, ?_⟩
  set_option maxRecDepth 100000 in
  decide

theorem dated_entries_unique
    (sort1 sort2 : (BlogPost → BlogPost → Bool) → List BlogPost → List BlogPost)
    (h1 : SortSliceContract sort1) (h2 : SortSliceContract sort2)
    (posts1 posts2 : List BlogPost) (hperm : posts1.Perm posts2)
    (hd : (posts1.filter (fun p => !p.Date.IsZero)).Pairwise (fun a b => a.Date ≠ b.Date)) :
    (sort1 dateLess posts1).filter (fun p => !p.Date.IsZero) =
      (sort2 dateLess posts2).filter (fun p => !p.Date.IsZero) := by
  have p1 : ((sort1 dateLess posts1).filter (fun p => !p.Date.IsZero)).Perm
      (posts1.filter (fun p => !p.Date.IsZero)) := (h1.perm dateLess posts1).filter _
  have p2 : ((sort2 dateLess posts2).filter (fun p => !p.Date.IsZero)).Perm
      (posts1.filter (fun p => !p.Date.IsZero)) :=
    ((h2.perm dateLess posts2).trans hperm.symm).filter _
  refine sorted_perm_unique _ _ (p1.trans p2.symm) ?_ ?_ ?_
  · exact (h1.sorted dateLess posts1 dateLess_strictWeak).sublist (List.filter_sublist _)
  · exact (h2.sorted dateLess posts2 dateLess_strictWeak).sublist (List.filter_sublist _)
  · exact (List.Perm.pairwise_iff (fun h => Ne.symm h) p1).2 hd

/-- C21, amended: when no two posts with a non-zero date share a date, the
index is the same for every permutation of the posts (and for every
implementation of `sort.Slice`): the same entries in the same order, and the same
page. -/
theorem generateIndex_input_order
    (sortSlice : (BlogPost → BlogPost → Bool) → List BlogPost → List BlogPost)
    (hsort : SortSliceContract sortSlice)
    (joinPath : GoString → GoString → GoString)
    (writeFile : GoString → GoString → Option GoString)
    (posts permuted : List BlogPost) (template buildDir : GoString)
    (hperm : posts.Perm permuted)
    (hdistinct : (posts.filter (fun p => !p.Date.IsZero)).Pairwise
      (fun a b => a.Date ≠ b.Date)) :
    indexEntries (generateIndex sortSlice joinPath writeFile posts template buildDir).posts =
      indexEntries (generateIndex sortSlice joinPath writeFile permuted template buildDir).posts ∧
    indexContent (generateIndex sortSlice joinPath writeFile posts template buildDir).posts =
      indexContent (generateIndex sortSlice joinPath writeFile permuted template buildDir).posts ∧
    (generateIndex sortSlice joinPath writeFile posts template buildDir).output =
      (generateIndex sortSlice joinPath writeFile permuted template buildDir).output := by
  have he : indexEntries (sortSlice dateLess posts) = indexEntries (sortSlice dateLess permuted) := by
    rw [indexEntries_eq, indexEntries_eq,
      dated_entries_unique sortSlice sortSlice hsort hsort posts permuted hperm hdistinct]
  have hc : indexContent (sortSlice dateLess posts) = indexContent (sortSlice dateLess permuted) := by
    unfold indexContent
    rw [he]
  refine ⟨he, hc, ?_⟩
  show ReplaceAll _ _ (indexContent (sortSlice dateLess posts)) =
    ReplaceAll _ _ (indexContent (sortSlice dateLess permuted))
  rw [hc]

/-- Witness of the amended C21: the posts of `TestGenerateIndex` and an undated
post, in two orders. -/
theorem generateIndex_input_order_witness :
    (SortSliceContract (@insertionSort BlogPost) ∧
      [testPost1, undatedPost, testPost2, testPost3].Perm
        [testPost3, testPost2, undatedPost, testPost1] ∧
      ([testPost1, undatedPost, testPost2, testPost3].filter
        (fun p => !p.Date.IsZero)).Pairwise (fun a b => a.Date ≠ b.Date)) ∧
    (generateIndex (@insertionSort BlogPost) joinSimple (fun _ _ => none)
        [testPost1, undatedPost, testPost2, testPost3] (bytes "\x7b\x7bcontent\x7d\x7d")
        (bytes "build")).output =
      (generateIndex (@insertionSort BlogPost) joinSimple (fun _ _ => none)
        [testPost3, testPost2, undatedPost, testPost1] (bytes "\x7b\x7bcontent\x7d\x7d")
        (bytes "build")).output := by
  have hp : [testPost1, undatedPost, testPost2, testPost3].Perm
      [testPost3, testPost2, undatedPost, testPost1] := by decide
  have hd : ([testPost1, undatedPost, testPost2, testPost3].filter
      (fun p => !p.Date.IsZero)).Pairwise (fun a b => a.Date ≠ b.Date) := by decide
  exact ⟨⟨insertionSort_contract, hp, hd⟩,
    (generateIndex_input_order (@insertionSort BlogPost) insertionSort_contract joinSimple
      (fun _ _ => none) [testPost1, undatedPost, testPost2, testPost3]
      [testPost3, testPost2, undatedPost, testPost1] (bytes "\x7b\x7bcontent\x7d\x7d")
      (bytes "build") hp hd).2.2⟩

/-- C23, the run on the failing input: the body of 151 letters `é` is valid
UTF-8 and is its own first paragraph; the description is cut after byte 147,
inside the 74th letter: 73 letters, the lone byte `C3`, and the ellipsis.  It is
not valid UTF-8, and the part before the ellipsis is no run of whole characters. -/
theorem extractDescription_splits_character :
    validUTF8 (accented 151) = true ∧
    firstParagraphOf (accented 151) = some (accented 151) ∧
    extractDescription (accented 151) = accented 73 ++ [0xC3] ++ bytes "..." ∧
    validUTF8 (extractDescription (accented 151)) = false ∧
    validUTF8 (accented 73 ++ [0xC3]) = false ∧
    runePrefix 73 (accented 151) = accented 73 ∧
    runePrefix 74 (accented 151) = accented 74 := by
  set_option maxRecDepth 100000 in
  decide

/-- C24, the run on the posts of `TestGenerateIndex`: the content substituted
for the content placeholder closes a list that it never opens: the fixed
introduction holds no `<ul>`, the content holds none either, and one `</ul>`; so
it is for no post at all. -/
theorem indexContent_unbalanced_list :
    Count indexIntro (bytes "<ul>") = 0 ∧
    Count (indexContent (generateIndex (@insertionSort BlogPost) joinSimple (fun _ _ => none)
      [testPost1, testPost2, testPost3] (bytes "\x7b\x7bcontent\x7d\x7d")
      (bytes "build")).posts) (bytes "<ul>") = 0 ∧
    Count (indexContent (generateIndex (@insertionSort BlogPost) joinSimple (fun _ _ => none)
      [testPost1, testPost2, testPost3] (bytes "\x7b\x7bcontent\x7d\x7d")
      (bytes "build")).posts) (bytes "</ul>") = 1 ∧
    Count (indexContent (generateIndex (@insertionSort BlogPost) joinSimple (fun _ _ => none)
      [testPost1, testPost2, testPost3] (bytes "\x7b\x7bcontent\x7d\x7d")
      (bytes "build")).posts) (bytes "<li>") = 3 ∧
    Count (indexContent []) (bytes "<ul>") = 0 ∧
    Count (indexContent []) (bytes "</ul>") = 1 := by
  set_option maxRecDepth 1000000 in
  decide

/-! ## Lemmas: white space at the ends of a string -/

theorem spaceWidth_le (l : GoString) : spaceWidth l ≤ l.length := by
  unfold spaceWidth
  split <;> simp <;> (try split) <;> omega

theorem spaceWidth_ascii (b : Nat) (rest : GoString) (hb : (9 ≤ b ∧ b ≤ 13) ∨ b = 32) :
    spaceWidth (b :: rest) = 1 := by
  unfold spaceWidth
  split
  all_goals first
    | (rename_i heq; cases heq; done)
    | (rename_i heq; simp only [List.cons.injEq] at heq; obtain ⟨h1, -⟩ := heq; omega)
    | skip
  · rename_i heq
    simp only [List.cons.injEq] at heq
    obtain ⟨rfl, -⟩ := heq
    rcases hb with hb | hb
    · simp [hb.1, hb.2]
    · simp [hb]

theorem spaceWidth_append (p t : GoString) (h : spaceWidth p ≠ 0) :
    spaceWidth (p ++ t) = spaceWidth p := by
  unfold spaceWidth at h
  split at h
  all_goals first
    | (exfalso; exact h rfl)
    | (simp [spaceWidth]; done)
    | skip
  rename_i b tail _ _ _ _ _ _
  have hb : (9 ≤ b ∧ b ≤ 13) ∨ b = 32 := by
    by_contra hn
    apply h
    rw [if_neg]
    simpa using hn
  rw [List.cons_append, spaceWidth_ascii b _ hb, spaceWidth_ascii b _ hb]

theorem spaceWidth_cons3 (a b c : Nat) (rest : GoString) :
    spaceWidth (a :: b :: c :: rest) =
      if a = 0xC2 ∧ (b = 0x85 ∨ b = 0xA0) then 2
      else if a = 0xE1 ∧ b = 0x9A ∧ c = 0x80 then 3
      else if a = 0xE2 ∧ b = 0x80 ∧ ((0x80 ≤ c ∧ c ≤ 0x8A) ∨ c = 0xA8 ∨ c = 0xA9 ∨ c = 0xAF) then 3
      else if a = 0xE2 ∧ b = 0x81 ∧ c = 0x9F then 3
      else if a = 0xE3 ∧ b = 0x80 ∧ c = 0x80 then 3
      else if (9 ≤ a ∧ a ≤ 13) ∨ a = 32 then 1 else 0 := by
  unfold spaceWidth
  split
  all_goals rename_i heq
  all_goals try simp only [List.cons.injEq] at heq
  · obtain ⟨rfl, rfl, -⟩ := heq; simp
  · obtain ⟨rfl, rfl, -⟩ := heq; simp
  · obtain ⟨rfl, rfl, rfl, -⟩ := heq; simp
  · obtain ⟨rfl, rfl, rfl, -⟩ := heq
    simp [or_assoc]
  · obtain ⟨rfl, rfl, rfl, -⟩ := heq; simp
  · obtain ⟨rfl, rfl, rfl, -⟩ := heq; simp
  · rename_i h1 h2 h3 h4 h5 h6
    obtain ⟨rfl, rfl⟩ := heq
    have n1 : ¬ (a = 0xC2 ∧ (b = 0x85 ∨ b = 0xA0)) := by
      rintro ⟨rfl, rfl | rfl⟩
      · exact h1 _ rfl rfl
      · exact h2 _ rfl rfl
    have n2 : ¬ (a = 0xE1 ∧ b = 0x9A ∧ c = 0x80) := by
      rintro ⟨rfl, rfl, rfl⟩; exact h3 _ rfl rfl
    have n3 : ¬ (a = 0xE2 ∧ b = 0x80 ∧
        ((0x80 ≤ c ∧ c ≤ 0x8A) ∨ c = 0xA8 ∨ c = 0xA9 ∨ c = 0xAF)) := by
      rintro ⟨rfl, rfl, -⟩; exact h4 _ _ rfl rfl
    have n4 : ¬ (a = 0xE2 ∧ b = 0x81 ∧ c = 0x9F) := by
      rintro ⟨rfl, rfl, rfl⟩; exact h5 _ rfl rfl
    have n5 : ¬ (a = 0xE3 ∧ b = 0x80 ∧ c = 0x80) := by
      rintro ⟨rfl, rfl, rfl⟩; exact h6 _ rfl rfl
    rw [if_neg n1, if_neg n2, if_neg n3, if_neg n4, if_neg n5]
    simp
  · exact absurd heq (by simp)

theorem spaceWidth_cons2 (a b : Nat) :
    spaceWidth [a, b] =
      if a = 0xC2 ∧ (b = 0x85 ∨ b = 0xA0) then 2
      else if (9 ≤ a ∧ a ≤ 13) ∨ a = 32 then 1 else 0 := by
  unfold spaceWidth
  split
  all_goals rename_i heq
  all_goals try simp only [List.cons.injEq] at heq
  · obtain ⟨rfl, rfl, -⟩ := heq; simp
  · obtain ⟨rfl, rfl, -⟩ := heq; simp
  · exact absurd heq.2.2 (by simp)
  · exact absurd heq.2.2 (by simp)
  · exact absurd heq.2.2 (by simp)
  · exact absurd heq.2.2 (by simp)
  · rename_i h1 h2 h3 h4 h5 h6
    obtain ⟨rfl, rfl⟩ := heq
    have n1 : ¬ (a = 0xC2 ∧ (b = 0x85 ∨ b = 0xA0)) := by
      rintro ⟨rfl, rfl | rfl⟩
      · exact h1 _ rfl rfl
      · exact h2 _ rfl rfl
    rw [if_neg n1]
    simp
  · exact absurd heq (by simp)

theorem spaceWidth_cons1 (a : Nat) :
    spaceWidth [a] = if (9 ≤ a ∧ a ≤ 13) ∨ a = 32 then 1 else 0 := by
  unfold spaceWidth
  split
  all_goals rename_i heq
  all_goals try simp only [List.cons.injEq] at heq
  · exact absurd heq.2 (by simp)
  · exact absurd heq.2 (by simp)
  · exact absurd heq.2 (by simp)
  · exact absurd heq.2 (by simp)
  · exact absurd heq.2 (by simp)
  · exact absurd heq.2 (by simp)
  · obtain ⟨rfl, rfl⟩ := heq
    simp
  · exact absurd heq (by simp)

theorem spaceWidthRev_le (l : GoString) : spaceWidthRev l ≤ l.length := by
  rcases l with _ | ⟨a, _ | ⟨b, _ | ⟨c, rest⟩⟩⟩
  · simp [spaceWidthRev]
  · simp only [spaceWidthRev, asciiSpaceWidth, List.length_cons, List.length_nil]
    split <;> omega
  · simp only [spaceWidthRev, asciiSpaceWidth, List.length_cons, List.length_nil]
    split_ifs <;> omega
  · simp only [spaceWidthRev, asciiSpaceWidth, List.length_cons]
    split_ifs <;> omega

theorem spaceWidth_take3 (l : GoString) : spaceWidth (l.take 3) = spaceWidth l := by
  rcases l with _ | ⟨a, _ | ⟨b, _ | ⟨c, rest⟩⟩⟩
  · rfl
  · rfl
  · rfl
  · simp only [List.take_succ_cons, List.take_zero]
    rw [spaceWidth_cons3, spaceWidth_cons3]

theorem spaceWidth_dots (z t : GoString) (hz : spaceWidth z = 0) (hne : z ≠ []) :
    spaceWidth (z ++ 46 :: 46 :: 46 :: t) = 0 := by
  rcases z with _ | ⟨a, _ | ⟨b, _ | ⟨c, rest⟩⟩⟩
  · exact absurd rfl hne
  · rw [spaceWidth_cons1] at hz
    simp only [List.cons_append, List.nil_append]
    rw [spaceWidth_cons3]
    split_ifs at hz ⊢ <;> omega
  · rw [spaceWidth_cons2] at hz
    simp only [List.cons_append, List.nil_append]
    rw [spaceWidth_cons3]
    split_ifs at hz ⊢ <;> omega
  · rw [spaceWidth_cons3] at hz
    simp only [List.cons_append]
    rw [spaceWidth_cons3]
    exact hz

theorem spaceWidthRev_dot (rest : GoString) : spaceWidthRev (46 :: rest) = 0 := by
  rcases rest with _ | ⟨b, _ | ⟨c, rest⟩⟩
  · simp [spaceWidthRev, asciiSpaceWidth]
  · simp [spaceWidthRev, asciiSpaceWidth]
  · simp [spaceWidthRev, asciiSpaceWidth]

theorem spaceWidth_take (l : GoString) (n : Nat) (h : spaceWidth l ≠ 0) :
    spaceWidth (l.take n) = spaceWidth l ∨
      (spaceWidth (l.take n) = 0 ∧ ∀ x ∈ l.take n, 128 ≤ x) := by
  rcases n with _ | _ | _ | n
  · right
    exact ⟨rfl, by simp⟩
  · rcases l with _ | ⟨a, _ | ⟨b, _ | ⟨c, rest⟩⟩⟩
    · exact absurd rfl h
    · left; rfl
    · rw [spaceWidth_cons2] at h ⊢
      simp only [List.take_succ_cons, List.take_zero, spaceWidth_cons1, List.mem_singleton,
        forall_eq]
      split_ifs at h ⊢ <;> omega
    · rw [spaceWidth_cons3] at h ⊢
      simp only [List.take_succ_cons, List.take_zero, spaceWidth_cons1, List.mem_singleton,
        forall_eq]
      split_ifs at h ⊢ <;> omega
  · rcases l with _ | ⟨a, _ | ⟨b, _ | ⟨c, rest⟩⟩⟩
    · exact absurd rfl h
    · left; rfl
    · left; rfl
    · rw [spaceWidth_cons3] at h ⊢
      simp only [List.take_succ_cons, List.take_zero, spaceWidth_cons2, List.mem_cons,
        List.mem_singleton, forall_eq_or_imp, forall_eq, List.not_mem_nil, false_imp_iff,
        implies_true, and_true]
      split_ifs at h ⊢ <;> omega
  · left
    have h3 : List.take 3 (List.take (n + 3) l) = List.take 3 l := by
      rw [List.take_take]
      congr 1
      omega
    rw [← spaceWidth_take3 (List.take (n + 3) l), h3, spaceWidth_take3]

theorem spaceWidth_of_rev_chunk (s t : GoString) (hs : spaceWidthRev s = s.length)
    (hne : s ≠ []) : spaceWidth (s.reverse ++ t) ≠ 0 := by
  rcases s with _ | ⟨a, _ | ⟨b, _ | ⟨c, rest⟩⟩⟩
  · exact absurd rfl hne
  · simp only [spaceWidthRev, asciiSpaceWidth, List.length_cons, List.length_nil] at hs
    have ha : (9 ≤ a ∧ a ≤ 13) ∨ a = 32 := by
      by_contra hn
      rw [if_neg hn] at hs
      omega
    simp only [List.reverse_cons, List.reverse_nil, List.nil_append, List.singleton_append]
    rw [spaceWidth_ascii a t ha]
    omega
  · simp only [spaceWidthRev, asciiSpaceWidth, List.length_cons, List.length_nil] at hs
    have hb : b = 0xC2 ∧ (a = 0x85 ∨ a = 0xA0) := by
      by_contra hn
      rw [if_neg hn] at hs
      split at hs <;> omega
    obtain ⟨rfl, rfl | rfl⟩ := hb
    · simp [spaceWidth]
    · simp [spaceWidth]
  · have hlen := spaceWidthRev_le (a :: b :: c :: rest)
    have hr : rest = [] := by
      cases rest with
      | nil => rfl
      | cons d rest =>
        exfalso
        simp only [spaceWidthRev, asciiSpaceWidth, List.length_cons] at hs
        split_ifs at hs <;> omega
    subst hr
    simp only [spaceWidthRev, asciiSpaceWidth, List.length_cons, List.length_nil] at hs
    simp only [List.reverse_cons, List.reverse_nil, List.nil_append, List.append_assoc,
      List.singleton_append, List.cons_append]
    rw [spaceWidth_cons3]
    split_ifs at hs ⊢ <;> omega

theorem trimAux_result (width : GoString → Nat) (k : Nat) (s : GoString) :
    trimAux width k s = [] ∨ width (trimAux width k s) = 0 := by
  induction s generalizing k with
  | nil => left; cases k <;> rfl
  | cons b rest ih =>
    cases k with
    | zero =>
      unfold trimAux
      split
      · rename_i h; exact Or.inr h
      · exact ih _
    | succ k =>
      unfold trimAux
      exact ih k

theorem trimAux_fixed (width : GoString → Nat) (s : GoString) (h : width s = 0) :
    trimAux width 0 s = s := by
  cases s with
  | nil => rfl
  | cons b rest =>
    unfold trimAux
    rw [if_pos h]

theorem TrimSpace_fixed (d : GoString) (h1 : spaceWidth d = 0)
    (h2 : spaceWidthRev d.reverse = 0) : TrimSpace d = d := by
  unfold TrimSpace TrimLeftSpace
  rw [trimAux_fixed spaceWidth d h1]
  unfold TrimRightSpace
  rw [trimAux_fixed spaceWidthRev d.reverse h2, List.reverse_reverse]

theorem TrimSpace_trimmed (b : GoString) (hne : TrimSpace b ≠ []) :
    spaceWidth (TrimSpace b) = 0 ∧ spaceWidthRev (TrimSpace b).reverse = 0 := by
  constructor
  · by_contra h
    obtain ⟨t, ht⟩ := TrimRightSpace_initial (TrimLeftSpace b)
    have h2 := spaceWidth_append (TrimSpace b) t h
    have h3 : TrimSpace b ++ t = TrimLeftSpace b := ht
    rw [h3] at h2
    rcases trimAux_result spaceWidth 0 b with h4 | h4
    · have h5 : TrimLeftSpace b = [] := h4
      rw [h5] at h3
      exact hne (List.append_eq_nil.1 h3).1
    · have h5 : spaceWidth (TrimLeftSpace b) = 0 := h4
      rw [h5] at h2
      exact h h2.symm
  · rcases trimAux_result spaceWidthRev 0 (TrimLeftSpace b).reverse with h4 | h4
    · exfalso
      apply hne
      unfold TrimSpace TrimRightSpace
      rw [h4]
      rfl
    · unfold TrimSpace TrimRightSpace
      rw [List.reverse_reverse]
      exact h4

theorem hasBreak_cons2 (a b : Nat) (rest : GoString) :
    hasBreak (a :: b :: rest) = ((a == 10 && b == 10) || hasBreak (b :: rest)) := rfl

theorem bytes_break : bytes "\n\n" = [10, 10] := by decide

theorem isPrefixOf_break (a : Nat) (rest : GoString) :
    ([10, 10] : GoString).isPrefixOf (a :: rest) =
      match rest with
      | [] => false
      | b :: _ => (a == 10 && b == 10) := by
  cases rest with
  | nil => simp [List.isPrefixOf]
  | cons b r =>
    have e : ∀ x : Nat, (10 == x) = (x == 10) := by
      intro x
      by_cases hx : x = 10
      · subst hx; rfl
      · have h2 : ¬ 10 = x := fun e => hx e.symm
        simp [hx, h2]
    simp only [List.isPrefixOf, Bool.and_true]
    rw [e a, e b]

theorem split_of_no_break (s : GoString) (h : hasBreak s = false) :
    Split s (bytes "\n\n") = [s] := by
  unfold Split
  rw [bytes_break]
  induction s with
  | nil => rfl
  | cons a rest ih =>
    have hrest : hasBreak rest = false := by
      cases rest with
      | nil => rfl
      | cons b r =>
        rw [hasBreak_cons2] at h
        exact (Bool.or_eq_false_iff.1 h).2
    have hp : ([10, 10] : GoString).isPrefixOf (a :: rest) = false := by
      rw [isPrefixOf_break]
      cases rest with
      | nil => rfl
      | cons b r =>
        rw [hasBreak_cons2] at h
        exact (Bool.or_eq_false_iff.1 h).1
    unfold splitAux
    rw [hp, ih hrest]
    rfl

theorem hasBreak_tail (a : Nat) (s : GoString) (h : hasBreak (a :: s) = false) :
    hasBreak s = false := by
  cases s with
  | nil => rfl
  | cons b r =>
    rw [hasBreak_cons2] at h
    exact (Bool.or_eq_false_iff.1 h).2

theorem hasBreak_final (p s : GoString) (h : hasBreak (p ++ s) = false) :
    hasBreak s = false := by
  induction p with
  | nil => exact h
  | cons a p ih => exact ih (hasBreak_tail a _ h)

theorem hasBreak_initial (p t : GoString) (h : hasBreak (p ++ t) = false) :
    hasBreak p = false := by
  induction p with
  | nil => rfl
  | cons a p ih =>
    have h2 := ih (hasBreak_tail a _ h)
    cases p with
    | nil => rfl
    | cons b r =>
      rw [List.cons_append, List.cons_append, hasBreak_cons2] at h
      rw [hasBreak_cons2, h2, (Bool.or_eq_false_iff.1 h).1]
      rfl

theorem hasBreak_piece (b s : GoString) (hb : b <:+: s) (h : hasBreak s = false) :
    hasBreak b = false := by
  obtain ⟨p, t, e⟩ := hb
  rw [← e, List.append_assoc] at h
  exact hasBreak_initial b t (hasBreak_final p _ h)

theorem hasBreak_dots (x : GoString) (h : hasBreak x = false) :
    hasBreak (x ++ [46, 46, 46]) = false := by
  induction x with
  | nil => rfl
  | cons a x ih =>
    have h2 := ih (hasBreak_tail a _ h)
    cases x with
    | nil =>
      simp only [List.cons_append, List.nil_append, hasBreak_cons2]
      simp [hasBreak]
    | cons b r =>
      rw [hasBreak_cons2] at h
      rw [List.cons_append, List.cons_append, hasBreak_cons2, (Bool.or_eq_false_iff.1 h).1]
      exact h2

theorem hasBreak_of_high (x : GoString) (h : ∀ c ∈ x, 128 ≤ c) : hasBreak x = false := by
  induction x with
  | nil => rfl
  | cons a x ih =>
    have h2 := ih (fun c hc => h c (List.mem_cons_of_mem a hc))
    cases x with
    | nil => rfl
    | cons b r =>
      have ha : (a == 10) = false := by
        have := h a (List.mem_cons_self a _)
        simp only [beq_eq_false_iff_ne, ne_eq]
        omega
      rw [hasBreak_cons2, ha, h2]
      rfl

theorem splitAux_no_break (k : Nat) (s blk : GoString)
    (h : blk ∈ splitAux [10, 10] k s) : hasBreak blk = false := by
  induction s generalizing k blk with
  | nil =>
    have : blk = [] := by
      cases k <;> simpa [splitAux] using h
    subst this
    rfl
  | cons a rest ih =>
    cases k with
    | succ k =>
      unfold splitAux at h
      exact ih k _ h
    | zero =>
      unfold splitAux at h
      split at h
      · rcases List.mem_cons.1 h with rfl | h
        · rfl
        · exact ih _ _ h
      · rename_i hp
        obtain ⟨b0, more, e, hpre⟩ := splitAux_head_initial [10, 10] rest
        rw [e] at h
        rcases List.mem_cons.1 h with rfl | h
        · have hb0 : hasBreak b0 = false := ih 0 b0 (by rw [e]; exact List.mem_cons_self _ _)
          cases hb : b0 with
          | nil => rfl
          | cons b r =>
            rw [hasBreak_cons2, ← hb, hb0, Bool.or_false]
            by_contra hc
            apply hp
            obtain ⟨t, ht⟩ := hpre
            rw [isPrefixOf_break, ← ht, hb]
            simpa using hc
        · exact ih 0 _ (by rw [e]; exact List.mem_cons_of_mem _ h)

theorem deleteMarkers_fixed (d : GoString) (h : ∀ c ∈ d, c ≠ 35 ∧ c ≠ 42 ∧ c ≠ 95) :
    deleteMarkers d = d := by
  unfold deleteMarkers
  rw [List.filter_eq_self]
  intro c hc
  have := h c hc
  simp [this.1, this.2.1, this.2.2]

/-- A string that is already a description is returned as it is. -/
theorem extractDescription_fixed (d : GoString)
    (hmark : ∀ c ∈ d, c ≠ 35 ∧ c ≠ 42 ∧ c ≠ 95) (hbreak : hasBreak d = false)
    (hne : d ≠ []) (h1 : spaceWidth d = 0) (h2 : spaceWidthRev d.reverse = 0)
    (hlen : d.length ≤ 150) : extractDescription d = d := by
  have hp : firstParagraphOf d = some d := by
    unfold firstParagraphOf
    rw [deleteMarkers_fixed d hmark, split_of_no_break d hbreak]
    unfold firstNonEmptyBlock
    rw [List.map_cons, List.map_nil, TrimSpace_fixed d h1 h2]
    cases d with
    | nil => exact absurd rfl hne
    | cons a r => rfl
  rw [extractDescription_of_paragraph d d hp, if_neg (by omega)]

theorem firstParagraphOf_properties (body p : GoString) (h : firstParagraphOf body = some p) :
    p ≠ [] ∧ hasBreak p = false ∧ spaceWidth p = 0 ∧ spaceWidthRev p.reverse = 0 ∧
      ∀ c ∈ p, c ≠ 35 ∧ c ≠ 42 ∧ c ≠ 95 := by
  have hinf := firstParagraphOf_piece body p h
  have hne : p ≠ [] := by
    unfold firstParagraphOf firstNonEmptyBlock at h
    have := List.find?_some h
    intro e
    rw [e] at this
    simp at this
  obtain ⟨b, hb, e⟩ := firstNonEmptyBlock_mem _ p h
  have hbb : hasBreak b = false := by
    rw [bytes_break] at hb
    exact splitAux_no_break 0 _ b hb
  have htrim := TrimSpace_trimmed b (e ▸ hne)
  rw [← e] at htrim
  refine ⟨hne, ?_, htrim.1, htrim.2, fun c hc => deleteMarkers_no_marker body c (hinf.subset hc)⟩
  exact hasBreak_piece p b (e ▸ TrimSpace_piece b) hbb

theorem extractDescription_again_paragraph (body p : GoString)
    (h : firstParagraphOf body = some p) :
    extractDescription (extractDescription body) = extractDescription body := by
  obtain ⟨hne, hbreak, h1, h2, hmark⟩ := firstParagraphOf_properties body p h
  rw [extractDescription_of_paragraph body p h]
  by_cases hl : p.length > 150
  · rw [if_pos hl, bytes_ellipsis]
    have htake : (p.take 147).length = 147 := by
      rw [List.length_take]; omega
    refine extractDescription_fixed _ ?_ ?_ ?_ ?_ ?_ ?_
    · intro c hc
      rcases List.mem_append.1 hc with hc | hc
      · exact hmark c (List.mem_of_mem_take hc)
      · simp only [List.mem_cons, List.mem_singleton, List.not_mem_nil, or_false, or_self] at hc
        subst hc
        decide
    · apply hasBreak_dots
      apply hasBreak_initial (p.take 147) (p.drop 147)
      rw [List.take_append_drop]
      exact hbreak
    · simp
    · rw [← spaceWidth_take3, List.take_append_of_le_length (by omega), List.take_take]
      have : min 3 147 = 3 := by decide
      rw [this, spaceWidth_take3]
      exact h1
    · simp only [List.reverse_append, List.reverse_cons, List.reverse_nil, List.nil_append,
        List.singleton_append, List.cons_append]
      exact spaceWidthRev_dot _
    · rw [List.length_append, htake]
      simp
  · rw [if_neg hl]
    exact extractDescription_fixed p hmark hbreak hne h1 h2 (by omega)

theorem trimRev_empty_chunk (k : Nat) (l : GoString)
    (h : trimAux spaceWidthRev k l = []) (hk : k < l.length) :
    ∃ s, s <:+ l ∧ s ≠ [] ∧ spaceWidthRev s = s.length := by
  induction l generalizing k with
  | nil => simp at hk
  | cons c l ih =>
    cases k with
    | succ k =>
      unfold trimAux at h
      obtain ⟨s, hs, hne, hw⟩ := ih k h (by simpa using hk)
      exact ⟨s, hs.trans (List.suffix_cons c l), hne, hw⟩
    | zero =>
      unfold trimAux at h
      split at h
      · exact absurd h (by simp)
      · rename_i hw
        have hle := spaceWidthRev_le (c :: l)
        rw [List.length_cons] at hle
        by_cases hlt : spaceWidthRev (c :: l) - 1 < l.length
        · obtain ⟨s, hs, hne, hw2⟩ := ih _ h hlt
          exact ⟨s, hs.trans (List.suffix_cons c l), hne, hw2⟩
        · refine ⟨c :: l, List.suffix_refl _, by simp, ?_⟩
          rw [List.length_cons]
          omega

theorem TrimLeftSpace_of_TrimSpace_nil (b : GoString) (h : TrimSpace b = []) :
    TrimLeftSpace b = [] := by
  by_contra hne
  have hz : spaceWidth (TrimLeftSpace b) = 0 := by
    rcases trimAux_result spaceWidth 0 b with h4 | h4
    · exact absurd h4 hne
    · exact h4
  have hr : trimAux spaceWidthRev 0 (TrimLeftSpace b).reverse = [] := by
    unfold TrimSpace TrimRightSpace at h
    simpa using h
  have hlen : 0 < (TrimLeftSpace b).reverse.length := by
    rw [List.length_reverse]
    exact List.length_pos.2 hne
  obtain ⟨s, hs, hsne, hw⟩ := trimRev_empty_chunk 0 _ hr hlen
  obtain ⟨t, ht⟩ := hs
  have hz2 : TrimLeftSpace b = s.reverse ++ t.reverse := by
    have := congrArg List.reverse ht
    rw [List.reverse_append, List.reverse_reverse] at this
    exact this.symm
  rw [hz2] at hz
  exact spaceWidth_of_rev_chunk s t.reverse hw hsne hz

theorem trimAux_zero_cons (width : GoString → Nat) (b : Nat) (rest : GoString) :
    trimAux width 0 (b :: rest) =
      if width (b :: rest) = 0 then b :: rest
      else trimAux width (width (b :: rest) - 1) rest := by
  rw [trimAux]

theorem trimAux_succ_cons (width : GoString → Nat) (k b : Nat) (rest : GoString) :
    trimAux width (k + 1) (b :: rest) = trimAux width k rest := by
  rw [trimAux]

theorem trimAux_space_cons (b : Nat) (rest : GoString) (hb : (9 ≤ b ∧ b ≤ 13) ∨ b = 32) :
    trimAux spaceWidth 0 (b :: rest) = trimAux spaceWidth 0 rest := by
  rw [trimAux_zero_cons, spaceWidth_ascii b rest hb]
  rfl

theorem trimAux_blocks (n : Nat) :
    ∀ (s : GoString), s.length = n →
      ∀ (j : Nat) (blk : GoString) (more : List GoString),
        splitAux [10, 10] 0 s = blk :: more → j ≤ blk.length →
        trimAux spaceWidth j blk = [] → (∀ b ∈ more, TrimLeftSpace b = []) →
        trimAux spaceWidth j s = [] := by
  induction n using Nat.strong_induction_on with
  | _ n ih =>
    intro s hlen j blk more hsplit hj htrim hmore
    cases s with
    | nil => cases j <;> rfl
    | cons a rest =>
      unfold splitAux at hsplit
      split at hsplit
      · rename_i hp
        rw [isPrefixOf_break] at hp
        cases rest with
        | nil => simp at hp
        | cons b r =>
          simp only [Bool.and_eq_true, beq_iff_eq] at hp
          obtain ⟨rfl, rfl⟩ := hp
          simp only [List.cons.injEq] at hsplit
          obtain ⟨rfl, rfl⟩ := hsplit
          have hj0 : j = 0 := by simpa using hj
          subst hj0
          obtain ⟨blk2, more2, e2, -⟩ := splitAux_head_initial [10, 10] r
          have hmem : ∀ b ∈ blk2 :: more2, TrimLeftSpace b = [] := by
            intro b hb
            apply hmore
            show b ∈ splitAux [10, 10] 0 r
            rw [e2]
            exact hb
          have h2 : trimAux spaceWidth 0 r = [] :=
            ih r.length (by simp only [List.length_cons] at hlen; omega) r rfl 0 blk2 more2 e2
              (Nat.zero_le _) (hmem blk2 (List.mem_cons_self _ _))
              (fun b hb => hmem b (List.mem_cons_of_mem _ hb))
          rw [trimAux_space_cons 10 _ (by omega), trimAux_space_cons 10 _ (by omega)]
          exact h2
      · obtain ⟨blk2, more2, e2, hpre⟩ := splitAux_head_initial [10, 10] rest
        rw [e2] at hsplit
        simp only [List.cons.injEq] at hsplit
        obtain ⟨rfl, rfl⟩ := hsplit
        have hrest : rest.length < n := by
          simp only [List.length_cons] at hlen; omega
        cases j with
        | succ j =>
          rw [trimAux_succ_cons] at htrim ⊢
          exact ih rest.length hrest rest rfl j blk2 more2 e2
            (by simpa using hj) htrim hmore
        | zero =>
          rw [trimAux_zero_cons] at htrim
          split at htrim
          · exact absurd htrim (by simp)
          · rename_i hw
            have hle := spaceWidth_le (a :: blk2)
            rw [List.length_cons] at hle
            have h2 := ih rest.length hrest rest rfl (spaceWidth (a :: blk2) - 1) blk2 more2 e2
              (by omega) htrim hmore
            obtain ⟨t, ht⟩ := hpre
            have hw2 : spaceWidth (a :: rest) = spaceWidth (a :: blk2) := by
              rw [← ht, ← List.cons_append]
              exact spaceWidth_append (a :: blk2) t hw
            rw [trimAux_zero_cons, hw2, if_neg hw]
            exact h2

theorem no_paragraph_white (body : GoString) (h : firstParagraphOf body = none) :
    TrimLeftSpace (deleteMarkers body) = [] := by
  unfold firstParagraphOf firstNonEmptyBlock at h
  rw [List.find?_eq_none] at h
  have hall : ∀ b ∈ Split (deleteMarkers body) (bytes "\n\n"), TrimLeftSpace b = [] := by
    intro b hb
    apply TrimLeftSpace_of_TrimSpace_nil
    have := h (TrimSpace b) (List.mem_map_of_mem _ hb)
    simpa using this
  unfold Split at hall
  rw [bytes_break] at hall
  obtain ⟨blk, more, e, -⟩ := splitAux_head_initial [10, 10] (deleteMarkers body)
  rw [e] at hall
  exact trimAux_blocks _ _ rfl 0 blk more e (Nat.zero_le _)
    (hall blk (List.mem_cons_self _ _)) (fun b hb => hall b (List.mem_cons_of_mem _ hb))

theorem trimAux_take_high (s : GoString) :
    ∀ (j n : Nat), trimAux spaceWidth j s = [] →
      ∀ x ∈ trimAux spaceWidth j (s.take n), 128 ≤ x := by
  induction s with
  | nil =>
    intro j n _ x hx
    rw [List.take_nil] at hx
    cases j <;> simp [trimAux] at hx
  | cons a rest ih =>
    intro j n h x hx
    cases n with
    | zero =>
      rw [List.take_zero] at hx
      cases j <;> simp [trimAux] at hx
    | succ n =>
      rw [List.take_succ_cons] at hx
      cases j with
      | succ j =>
        unfold trimAux at h hx
        exact ih j n h x hx
      | zero =>
        unfold trimAux at h
        split at h
        · exact absurd h (by simp)
        · rename_i hw
          rcases spaceWidth_take (a :: rest) (n + 1) hw with e | ⟨e, hhigh⟩
          · rw [List.take_succ_cons] at e
            unfold trimAux at hx
            rw [e, if_neg hw] at hx
            exact ih _ n h x hx
          · rw [List.take_succ_cons] at e hhigh
            unfold trimAux at hx
            rw [if_pos e] at hx
            exact hhigh x hx

theorem extractDescription_again_fallback (body : GoString)
    (h : firstParagraphOf body = none) :
    extractDescription (extractDescription body) = extractDescription body := by
  have hwhite := no_paragraph_white body h
  rw [extractDescription_fallback body h]
  by_cases hl : (deleteMarkers body).length > 150
  · rw [if_pos hl, bytes_ellipsis]
    have hhigh : ∀ x ∈ TrimSpace ((deleteMarkers body).take 147), 128 ≤ x := by
      intro x hx
      have hx2 : x ∈ TrimLeftSpace ((deleteMarkers body).take 147) :=
        (TrimRightSpace_initial _).subset hx
      exact trimAux_take_high _ 0 147 hwhite x hx2
    have hlen : (TrimSpace ((deleteMarkers body).take 147)).length ≤ 147 := by
      have := TrimSpace_length_le ((deleteMarkers body).take 147)
      rw [List.length_take] at this
      omega
    refine extractDescription_fixed _ ?_ ?_ ?_ ?_ ?_ ?_
    · intro c hc
      rcases List.mem_append.1 hc with hc | hc
      · have := hhigh c hc
        omega
      · simp only [List.mem_cons, List.mem_singleton, List.not_mem_nil, or_false, or_self] at hc
        subst hc
        decide
    · exact hasBreak_dots _ (hasBreak_of_high _ hhigh)
    · simp
    · by_cases hq : TrimSpace ((deleteMarkers body).take 147) = []
      · rw [hq]
        decide
      · exact spaceWidth_dots _ [] (TrimSpace_trimmed _ hq).1 hq
    · simp only [List.reverse_append, List.reverse_cons, List.reverse_nil, List.nil_append,
        List.singleton_append, List.cons_append]
      exact spaceWidthRev_dot _
    · rw [List.length_append]
      simp only [List.length_cons, List.length_nil]
      omega
  · rw [if_neg hl]
    have hnil : TrimSpace (deleteMarkers body) = [] := by
      unfold TrimSpace
      rw [hwhite]
      rfl
    rw [hnil]
    decide

/-- C22: `extractDescription` is idempotent: for every body text, extracting a
description from the description already extracted returns that description
unchanged, whether it came from the first paragraph (whole or cut to 147 bytes
and the ellipsis) or from the fallback on a body with no paragraph. -/
theorem extractDescription_idempotent (body : GoString) :
    extractDescription (extractDescription body) = extractDescription body := by
  cases h : firstParagraphOf body with
  | some p => exact extractDescription_again_paragraph body p h
  | none => exact extractDescription_again_fallback body h

end SiteGen
